import Mathlib

/-!
# DOAIB: command execution and scheduling engine

A shallow embedding of `src/exchanges/exchange.js` (the `Exchange` orchestrator:
AlgoOrder registry, `addTask`, the background scheduler, `assignParams`,
`executeCommand`) and of `Coinbase.rateLimit` from `src/apis/coinbase.js`.

Modelling conventions
* An object with mutable fields becomes a record that is passed in and returned.
* A method of a command object is a function on the command's own state `σ`;
  it returns what the call returned (or the error it threw) together with the
  state it left behind. Commands do not touch orchestrator state from inside
  these methods, and no other call interleaves at an `await`.
* A call that may throw returns `Except JsError _`.
* The scheduler keeps a log of the calls it makes and of the intervals it
  sleeps, so that "is called exactly once" and "the successive intervals" can be
  stated.
* `String.prototype.toLowerCase` is a runtime builtin; the functions that use it
  take it as the parameter `toLowerCase`.
-/

namespace DOAIB

/-! ## Data model -/

/-- Modelled from the spec: the module `commands/command_state` is not among the
sources. Section 4.3 gives its two states, the two that `exchange.js` compares
against. -/
inductive CommandState where
  | keepGoing
  | finished
  deriving DecidableEq, Repr

/-- Modelled from the spec: the class `exceptions/abort_sequence` is not among
the sources. A thrown JavaScript value is split the way `executeCommand` splits
it: `err instanceof AbortSequenceError` (section 7, `AbortSequence`) or anything
else. -/
inductive JsError where
  | abortSequence (message : String)
  | error (message : String)
  deriving DecidableEq, Repr

/-- The test `err instanceof AbortSequenceError`. -/
def JsError.isAbortSequence : JsError → Bool
  | .abortSequence _ => true
  | .error _ => false

/-- One entry of `this.algorithicOrders`: `{ id, side, session, tag, cancelled }`.
A `tag` of `none` is JavaScript `undefined`. -/
structure AlgoOrder where
  id : String
  side : String
  session : String
  tag : Option String
  cancelled : Bool
  deriving DecidableEq, Repr

/-- The argument bindings of a command that `addTask` reads: `task.args.side`
and `task.args.tag`. -/
structure TaskArgs where
  side : String
  tag : Option String
  deriving DecidableEq, Repr

/-- One element of a command's argument list: `{ name, value, index }`. -/
structure Param (α : Type) where
  name : String
  value : α
  index : Nat
  deriving DecidableEq, Repr

/-- Modelled from the spec: the class `commands/exchange_command` is not among
the sources. Section 3 lists what a command holds (argument bindings, an id, the
session id) and exposes (`setup`, `execute`, `backgroundExecute`, `onCancelled`,
`results`); `hasArg` and `maybeRunToCompletion` are the two further methods that
`addTask` calls. `σ` is the command's own state,
`ρ` the type of what `results()` returns, `α` the type of argument values.
`instanceOfExchangeCommand` is the outcome of `task instanceof ExchangeCommand`;
`id` and `session` are fixed when the object is constructed; `hasArg` and `args`
read the bindings made by `setup`. -/
structure Task (σ ρ α : Type) where
  instanceOfExchangeCommand : Bool
  id : String
  session : String
  hasArg : String → σ → Bool
  args : σ → TaskArgs
  setup : List (Param α) → σ → Except JsError Unit × σ
  execute : σ → Except JsError CommandState × σ
  maybeRunToCompletion : CommandState → σ → Except JsError CommandState × σ
  backgroundExecute : σ → Except JsError CommandState × σ
  onCancelled : σ → Except JsError Unit × σ
  results : σ → Except JsError ρ × σ
  st : σ

/-- One element of `this.backgroundTasks`: `{ task, state }`. -/
structure BackgroundTask (σ ρ α : Type) where
  task : Task σ ρ α
  state : CommandState

/-- The fields of `Exchange` that the registry and the scheduler use. -/
structure Exchange (σ ρ α : Type) where
  minPollingDelay : Int
  maxPollingDelay : Int
  algorithicOrders : List AlgoOrder
  backgroundTasks : List (BackgroundTask σ ρ α)
  isAlreadyWaiting : Bool

/-! ## AlgoOrder registry -/

/-- Source `startAlgoOrder(id, side, session, tag)`: push a fresh entry. -/
def startAlgoOrder (reg : List AlgoOrder) (id side session : String) (tag : Option String) :
    List AlgoOrder :=
  reg ++ [{ id := id, side := side, session := session, tag := tag, cancelled := false }]

/-- Source `endAlgoOrder(id)`: keep the entries with `item.id !== id`. -/
def endAlgoOrder (reg : List AlgoOrder) (id : String) : List AlgoOrder :=
  reg.filter (fun item => item.id != id)

/-- Source `isAlgoOrderCancelled(id)`: the flag of the first entry with that id,
`true` when there is none. -/
def isAlgoOrderCancelled (reg : List AlgoOrder) (id : String) : Bool :=
  match reg.find? (fun item => item.id == id) with
  | none => true
  | some order => order.cancelled

/-- Source `cancelAlgorithmicOrders(which, tag, session)`. -/
def cancelAlgorithmicOrders (reg : List AlgoOrder) (which : String) (tag : Option String)
    (session : String) : List AlgoOrder :=
  reg.map (fun item =>
    let all := which == "all"
    let buy := which == "buy" && item.side == which
    let sell := which == "sell" && item.side == which
    let tagged := which == "tagged" && item.tag == tag
    let cancelSession := which == "session" && item.session == session
    if all || buy || sell || tagged || cancelSession then
      { item with cancelled := true }
    else
      item)

/-! ## Background scheduler -/

/-- A call the scheduler made on the task at position `pos` of the background
list. `returned` is `none` when the call threw. -/
inductive Call where
  | onCancelled (pos : Nat) (returned : Bool)
  | backgroundExecute (pos : Nat) (returned : Option CommandState)
  deriving DecidableEq, Repr

/-- The call did not throw. -/
def Call.returnedNormally : Call → Bool
  | .onCancelled _ r => r
  | .backgroundExecute _ r => r.isSome

/-- The call is a `backgroundExecute()` that returned `keepGoing`. -/
def Call.returnedKeepGoing : Call → Bool
  | .backgroundExecute _ (some .keepGoing) => true
  | _ => false

/-- The position in the background list of the task the call was made on. -/
def Call.pos : Call → Nat
  | .onCancelled p _ => p
  | .backgroundExecute p _ => p

/-- The call is an `onCancelled()`. -/
def Call.isOnCancelled : Call → Bool
  | .onCancelled _ _ => true
  | _ => false

/-- The call is a `backgroundExecute()`. -/
def Call.isBackgroundExecute : Call → Bool
  | .backgroundExecute _ _ => true
  | _ => false

/-- What one run of `backgroundTasksSinglePass` leaves behind: the error that
escaped (if any), the local `updateWait` at exit (the return value when nothing
escaped), the task list, the registry and the calls made. -/
structure PassResult (σ ρ α : Type) where
  threw : Option JsError
  updateWait : Int
  tasks : List (BackgroundTask σ ρ α)
  registry : List AlgoOrder
  log : List Call

/-- What `backgroundTasksSinglePass` returns: `updateWait`, unless an error
escaped. -/
def PassResult.returned {σ ρ α : Type} (r : PassResult σ ρ α) : Option Int :=
  match r.threw with
  | none => some r.updateWait
  | some _ => none

/-- The body of `for (const item of this.backgroundTasks)` in
`backgroundTasksSinglePass`, from position `pos` on. -/
def passFrom {σ ρ α : Type} (minPollingDelay : Int) :
    Nat → List (BackgroundTask σ ρ α) → List AlgoOrder → Int → PassResult σ ρ α
  | _, [], reg, updateWait =>
      { threw := none, updateWait := updateWait, tasks := [], registry := reg, log := [] }
  | pos, item :: rest, reg, updateWait =>
      if isAlgoOrderCancelled reg item.task.id then
        match item.task.onCancelled item.task.st with
        | (.error e, s) =>
            { threw := some e, updateWait := updateWait,
              tasks := { item with task := { item.task with st := s } } :: rest,
              registry := reg, log := [Call.onCancelled pos false] }
        | (.ok _, s) =>
            -- item.state = finished, so endAlgoOrder(item.task.id) runs
            let r := passFrom minPollingDelay (pos + 1) rest (endAlgoOrder reg item.task.id)
              updateWait
            { r with
              tasks := { task := { item.task with st := s }, state := .finished } :: r.tasks,
              log := Call.onCancelled pos true :: r.log }
      else
        match item.task.backgroundExecute item.task.st with
        | (.error e, s) =>
            { threw := some e, updateWait := updateWait,
              tasks := { item with task := { item.task with st := s } } :: rest,
              registry := reg, log := [Call.backgroundExecute pos none] }
        | (.ok state, s) =>
            let updateWait1 := if state = .keepGoing then minPollingDelay else updateWait
            let reg1 := if state = .finished then endAlgoOrder reg item.task.id else reg
            let r := passFrom minPollingDelay (pos + 1) rest reg1 updateWait1
            { r with
              tasks := { task := { item.task with st := s }, state := state } :: r.tasks,
              log := Call.backgroundExecute pos (some state) :: r.log }

/-- Source `backgroundTasksSinglePass(waitTime)`. -/
def backgroundTasksSinglePass {σ ρ α : Type} (ex : Exchange σ ρ α) (waitTime : Int) :
    PassResult σ ρ α :=
  passFrom ex.minPollingDelay 0 ex.backgroundTasks ex.algorithicOrders waitTime

/-- What one turn of the `while` loop of `waitForBackgroundTasks` leaves behind:
the error that escaped the pass (if any), the new value of the local `waitTime`,
the exchange, and the calls the pass made. -/
structure IterationResult (σ ρ α : Type) where
  threw : Option JsError
  waitTime : Int
  ex : Exchange σ ρ α
  log : List Call

/-- The interval the loop sleeps next: the new `waitTime`, unless the pass
threw. -/
def IterationResult.nextWait {σ ρ α : Type} (r : IterationResult σ ρ α) : Option Int :=
  match r.threw with
  | none => some r.waitTime
  | some _ => none

/-- The clean-up `this.backgroundTasks.filter(item => item.state !== CommandState.finished)`. -/
def removeFinished {σ ρ α : Type} (tasks : List (BackgroundTask σ ρ α)) :
    List (BackgroundTask σ ρ α) :=
  tasks.filter (fun item => item.state != CommandState.finished)

/-- The argument `waitForBackgroundTasks` hands to the pass:
`(waitTime >= this.maxPollingDelay) ? this.maxPollingDelay : waitTime + 1`. -/
def nextPassArgument (maxPollingDelay waitTime : Int) : Int :=
  if waitTime ≥ maxPollingDelay then maxPollingDelay else waitTime + 1

/-- One turn of the `while` loop of `waitForBackgroundTasks`, entered with the
local `waitTime` (already slept): the pass, then the clean-up filter. When the
pass throws, the clean-up is not reached. -/
def schedulerIteration {σ ρ α : Type} (ex : Exchange σ ρ α) (waitTime : Int) :
    IterationResult σ ρ α :=
  let r := backgroundTasksSinglePass ex (nextPassArgument ex.maxPollingDelay waitTime)
  let ex1 : Exchange σ ρ α :=
    { ex with backgroundTasks := r.tasks, algorithicOrders := r.registry }
  match r.threw with
  | some e => { threw := some e, waitTime := waitTime, ex := ex1, log := r.log }
  | none =>
      { threw := none, waitTime := r.updateWait,
        ex := { ex1 with backgroundTasks := removeFinished ex1.backgroundTasks },
        log := r.log }

/-- How a run of the scheduler loop ended within the iterations it was given. -/
inductive LoopOutcome where
  | returned
  | threw (e : JsError)
  | stillRunning
  deriving DecidableEq, Repr

/-- A run of the scheduler loop: how it ended, the exchange, the successive
arguments of `waitSeconds` and the calls of each pass. -/
structure LoopResult (σ ρ α : Type) where
  outcome : LoopOutcome
  ex : Exchange σ ρ α
  waits : List Int
  passes : List (List Call)

/-- The `while (this.backgroundTasks.length > 0)` loop of `waitForBackgroundTasks`,
cut off after `fuel` turns. -/
def backgroundTaskLoop {σ ρ α : Type} :
    Nat → Exchange σ ρ α → Int → LoopResult σ ρ α
  | 0, ex, _ =>
      { outcome := if ex.backgroundTasks.length > 0 then .stillRunning else .returned,
        ex := ex, waits := [], passes := [] }
  | fuel + 1, ex, waitTime =>
      if ex.backgroundTasks.length > 0 then
        -- await this.waitSeconds(waitTime)
        let it := schedulerIteration ex waitTime
        match it.threw with
        | some e => { outcome := .threw e, ex := it.ex, waits := [waitTime], passes := [it.log] }
        | none =>
            let l := backgroundTaskLoop fuel it.ex it.waitTime
            { l with waits := waitTime :: l.waits, passes := it.log :: l.passes }
      else
        { outcome := .returned, ex := ex, waits := [], passes := [] }

/-- Source `waitForBackgroundTasks()`, with the loop cut off after `fuel` turns. -/
def waitForBackgroundTasks {σ ρ α : Type} (fuel : Nat) (ex : Exchange σ ρ α) :
    LoopResult σ ρ α :=
  if ex.isAlreadyWaiting then
    { outcome := .returned, ex := ex, waits := [], passes := [] }
  else
    let ex1 : Exchange σ ρ α :=
      { ex with isAlreadyWaiting := true, backgroundTasks := removeFinished ex.backgroundTasks }
    let l := backgroundTaskLoop fuel ex1 ex1.minPollingDelay
    match l.outcome with
    | .stillRunning => l
    | _ => { l with ex := { l.ex with isAlreadyWaiting := false } }

/-! ## addTask -/

/-- A JavaScript value an asynchronous call of the orchestrator resolves with:
`undefined`, `null`, the empty object literal, or a command's result. -/
inductive JsResult (ρ : Type) where
  | undefined
  | null
  | emptyObject
  | value (r : ρ)
  deriving DecidableEq, Repr

/-- What a call of an orchestrator method leaves behind: what it resolved with
(or the error it rejected with) and the exchange. -/
structure CallResult (σ ρ α : Type) where
  outcome : Except JsError (JsResult ρ)
  ex : Exchange σ ρ α

/-- The `side` argument of `startAlgoOrder` in `addTask`:
`task.hasArg('side') ? task.args.side : 'buy'`. -/
def taskSide {σ ρ α : Type} (task : Task σ ρ α) (s : σ) : String :=
  if task.hasArg "side" s then (task.args s).side else "buy"

/-- Source `addTask(task)`. The object pushed on the background list is the
task itself, so it carries the state the later `task.results()` leaves. -/
def addTask {σ ρ α : Type} (ex : Exchange σ ρ α) (task : Task σ ρ α) : CallResult σ ρ α :=
  if !task.instanceOfExchangeCommand then
    { outcome := .ok .emptyObject, ex := ex }
  else
    match task.execute task.st with
    | (.error e, _) => { outcome := .error e, ex := ex }
    | (.ok state, s) =>
        if state = .finished then
          match task.results s with
          | (.error e, _) => { outcome := .error e, ex := ex }
          | (.ok r, _) => { outcome := .ok (.value r), ex := ex }
        else
          let reg := startAlgoOrder ex.algorithicOrders task.id (taskSide task s) task.session
            (task.args s).tag
          let ex1 : Exchange σ ρ α := { ex with algorithicOrders := reg }
          match task.maybeRunToCompletion state s with
          | (.error e, _) => { outcome := .error e, ex := ex1 }
          | (.ok state1, s1) =>
              match task.results s1 with
              | (.error e, s2) =>
                  { outcome := .error e,
                    ex := { ex1 with backgroundTasks :=
                      ex1.backgroundTasks ++ [{ task := { task with st := s2 }, state := state1 }] } }
              | (.ok r, s2) =>
                  { outcome := .ok (.value r),
                    ex := { ex1 with backgroundTasks :=
                      ex1.backgroundTasks ++ [{ task := { task with st := s2 }, state := state1 }] } }

/-! ## executeCommand -/

/-- The execution context `{ ex: this, symbol, session }` without the
back-reference to the exchange, which is passed separately. -/
structure Context where
  symbol : String
  session : String
  deriving DecidableEq, Repr

/-- A command class: `new CommandClass(context)` yields an object or throws. -/
structure CommandClass (σ ρ α : Type) where
  construct : Context → Except JsError (Task σ ρ α)

/-- An entry of `this.commands`, by what `typeof command` says: `'object'` (built
by `addExchangeCommand`), `'function'` (an older function command, which works on
the exchange it finds in its context), or neither. -/
inductive Command (σ ρ α : Type) where
  | object (cls : CommandClass σ ρ α)
  | function (run : Context → List (Param α) → Exchange σ ρ α → CallResult σ ρ α)
  | other

/-- Source `addExchangeCommand(c)`: `{ class: c }`. -/
def addExchangeCommand {σ ρ α : Type} (c : CommandClass σ ρ α) : Command σ ρ α :=
  .object c

/-- The command modules `exchange.js` requires. Three of them are classes that
the constructor wraps with `addExchangeCommand`; the others are stored as
exported. -/
structure Modules (σ ρ α : Type) where
  icebergOrder : Command σ ρ α
  scaledOrder : Command σ ρ α
  twapOrder : Command σ ρ α
  pingPongOrder : Command σ ρ α
  marketMakerOrder : Command σ ρ α
  aggressiveEntryOrder : Command σ ρ α
  stopOrTakeProfitOrder : Command σ ρ α
  limitOrder : Command σ ρ α
  marketOrder : Command σ ρ α
  cancelOrders : Command σ ρ α
  stopMarketOrder : CommandClass σ ρ α
  trailingStopLossCommand : CommandClass σ ρ α
  trailingTakeProfitCommand : CommandClass σ ρ α
  notify : Command σ ρ α
  balance : Command σ ρ α
  wait : Command σ ρ α
  continueCmd : Command σ ρ α
  stopCmd : Command σ ρ α

/-- The table `this.commands` of the constructor, key by key. -/
def commands {σ ρ α : Type} (m : Modules σ ρ α) : List (String × Command σ ρ α) :=
  [ ("aggressiveEntryOrder", m.aggressiveEntryOrder),
    ("aggressiveEntry", m.aggressiveEntryOrder),
    ("stopOrTakeProfitOrder", m.stopOrTakeProfitOrder),
    ("stopOrTakeProfit", m.stopOrTakeProfitOrder),
    ("icebergOrder", m.icebergOrder),
    ("iceberg", m.icebergOrder),
    ("scaledOrder", m.scaledOrder),
    ("scaled", m.scaledOrder),
    ("twapOrder", m.twapOrder),
    ("twap", m.twapOrder),
    ("pingPongOrder", m.pingPongOrder),
    ("pingPong", m.pingPongOrder),
    ("marketMakerOrder", m.marketMakerOrder),
    ("marketMaker", m.marketMakerOrder),
    ("trailingStopLossOrder", addExchangeCommand m.trailingStopLossCommand),
    ("trailingStopLoss", addExchangeCommand m.trailingStopLossCommand),
    ("trailingTakeProfitOrder", addExchangeCommand m.trailingTakeProfitCommand),
    ("trailingTakeProfit", addExchangeCommand m.trailingTakeProfitCommand),
    ("steppedMarketOrder", m.twapOrder),
    ("accDisOrder", m.icebergOrder),
    ("limitOrder", m.limitOrder),
    ("limit", m.limitOrder),
    ("marketOrder", m.marketOrder),
    ("market", m.marketOrder),
    ("stopMarketOrder", addExchangeCommand m.stopMarketOrder),
    ("stopMarket", addExchangeCommand m.stopMarketOrder),
    ("cancelOrders", m.cancelOrders),
    ("cancel", m.cancelOrders),
    ("wait", m.wait),
    ("notify", m.notify),
    ("balance", m.balance),
    ("continue", m.continueCmd),
    ("stop", m.stopCmd) ]

/-- The list `this.commandWhiteList` of the constructor. -/
def commandWhiteList : List String :=
  [ "trailingStopLoss", "trailingTakeProfit",
    "stopOrTakeProfit", "aggressiveEntry",
    "iceberg", "scaled", "twap", "pingPong", "marketMaker",
    "limit", "market", "stopMarket",
    "cancel",
    "trailingStopLossOrder", "trailingTakeProfitOrder",
    "stopOrTakeProfitOrder", "aggressiveEntryOrder",
    "icebergOrder", "scaledOrder", "twapOrder", "pingPongOrder", "marketMakerOrder",
    "limitOrder", "marketOrder", "stopMarketOrder",
    "cancelOrders",
    "steppedMarketOrder", "accDisOrder",
    "continue", "stop", "wait", "notify", "balance" ]

/-- The look-up in `executeCommand`:
`this.commandWhiteList.find(el => (el.toLowerCase() === name.toLowerCase()))`. -/
def resolveCommand (toLowerCase : String → String) (name : String) : Option String :=
  commandWhiteList.find? (fun el => toLowerCase el == toLowerCase name)

/-- The read `this.commands[toExecute]`; `none` is `undefined`. -/
def lookupCommand {σ ρ α : Type} (m : Modules σ ρ α) (toExecute : String) :
    Option (Command σ ρ α) :=
  (commands m).lookup toExecute

/-- The part of the `try` block of `executeCommand` that follows the look-up:
build the command found under `toExecute` and run it. -/
def dispatch {σ ρ α : Type} (m : Modules σ ρ α) (ex : Exchange σ ρ α) (toExecute : String)
    (context : Context) (params : List (Param α)) : CallResult σ ρ α :=
  match lookupCommand m toExecute with
  | some (.object cls) =>
      match cls.construct context with
      | .error e => { outcome := .error e, ex := ex }
      | .ok task =>
          if task.instanceOfExchangeCommand then
            match task.setup params task.st with
            | (.error e, _) => { outcome := .error e, ex := ex }
            | (.ok _, s) => addTask ex { task with st := s }
          else
            { outcome := .ok .null, ex := ex }
  | some (.function run) => run context params ex
  | _ => { outcome := .ok .null, ex := ex }

/-- The `try` block of `executeCommand`. -/
def executeCommandTry {σ ρ α : Type} (toLowerCase : String → String) (m : Modules σ ρ α)
    (ex : Exchange σ ρ α) (symbol name : String) (params : List (Param α))
    (session : String) : CallResult σ ρ α :=
  match resolveCommand toLowerCase name with
  | none => { outcome := .error (.error "Unknown Command"), ex := ex }
  | some toExecute => dispatch m ex toExecute { symbol := symbol, session := session } params

/-- Source `executeCommand(symbol, name, params, session)`: the `try` block, then
the `catch`, which rethrows an `AbortSequenceError` and falls off the end of the
function (resolving with `undefined`) for any other error. -/
def executeCommand {σ ρ α : Type} (toLowerCase : String → String) (m : Modules σ ρ α)
    (ex : Exchange σ ρ α) (symbol name : String) (params : List (Param α))
    (session : String) : CallResult σ ρ α :=
  let r := executeCommandTry toLowerCase m ex symbol name params session
  match r.outcome with
  | .ok _ => r
  | .error err =>
      if err.isAbortSequence then
        { outcome := .error err, ex := r.ex }
      else
        { outcome := .ok .undefined, ex := r.ex }

/-- Lower-casing of the letters `A` to `Z`, every other character kept. -/
def asciiToLowerCase (s : String) : String :=
  ⟨s.data.map Char.toLower⟩

/-! ## assignParams -/

/-- The `forEach((item, i) => ...)` of `assignParams` from position `i` on, over
the entries of `expected` in `Object.keys` order. -/
def assignParamsFrom {α : Type} (toLowerCase : String → String) (named : List (Param α)) :
    Nat → List (String × α) → List (String × α)
  | _, [] => []
  | i, (item, dflt) :: rest =>
      (item, named.foldl (fun best p =>
          if toLowerCase p.name == toLowerCase item || (p.name == "" && p.index == i) then
            p.value
          else
            best) dflt)
        :: assignParamsFrom toLowerCase named (i + 1) rest

/-- Source `assignParams(expected, named)`. An object is the list of its
entries, in `Object.keys` order. -/
def assignParams {α : Type} (toLowerCase : String → String) (expected : List (String × α))
    (named : List (Param α)) : List (String × α) :=
  assignParamsFrom toLowerCase named 0 expected

/-! ## Coinbase rate limiting -/

/-- The rate-limiting fields of the `Coinbase` driver. -/
structure Coinbase where
  nextCallAt : Int
  minTimeBetweenCalls : Int
  deriving DecidableEq, Repr

/-- Source `Coinbase.rateLimit()` at clock reading `currentTime = Date.now()`:
the delay handed to `setTimeout` and the driver with `nextCallAt` advanced. -/
def Coinbase.rateLimit (c : Coinbase) (currentTime : Int) : Int × Coinbase :=
  let waitBeforeCall :=
    if c.nextCallAt > currentTime then (c.nextCallAt - currentTime) + 1 else 1
  (waitBeforeCall, { c with nextCallAt := currentTime + waitBeforeCall + c.minTimeBetweenCalls })

/-! ## Sample commands and exchanges -/

/-- A command that asks for another poll every time it is polled. Its state
counts the polls. -/
def keepGoingTask (id : String) : Task Nat Nat String :=
  { instanceOfExchangeCommand := true, id := id, session := "session-1",
    hasArg := fun _ _ => false,
    args := fun _ => { side := "sell", tag := some "t1" },
    setup := fun _ s => (.ok (), s),
    execute := fun s => (.ok .keepGoing, s),
    maybeRunToCompletion := fun state s => (.ok state, s),
    backgroundExecute := fun s => (.ok .keepGoing, s + 1),
    onCancelled := fun s => (.ok (), s),
    results := fun s => (.ok s, s),
    st := 0 }

/-- An exchange with the constructor's polling delays and one registered,
non-cancelled background task. -/
def steadyExchange : Exchange Nat Nat String :=
  { minPollingDelay := 0, maxPollingDelay := 5,
    algorithicOrders :=
      [{ id := "a", side := "buy", session := "session-1", tag := some "t1", cancelled := false }],
    backgroundTasks := [{ task := keepGoingTask "a", state := .keepGoing }],
    isAlreadyWaiting := false }

/-- An exchange with two registered background tasks; the AlgoOrder of the
second one has been marked cancelled. -/
def mixedExchange : Exchange Nat Nat String :=
  { minPollingDelay := 0, maxPollingDelay := 5,
    algorithicOrders :=
      [{ id := "a", side := "buy", session := "session-1", tag := some "t1", cancelled := false },
       { id := "b", side := "sell", session := "session-1", tag := none, cancelled := true }],
    backgroundTasks :=
      [{ task := keepGoingTask "a", state := .keepGoing },
       { task := keepGoingTask "b", state := .keepGoing }],
    isAlreadyWaiting := false }

/-- A command that reports `finished` when it is polled. -/
def doneOnPollTask (id : String) : Task Nat Nat String :=
  { keepGoingTask id with backgroundExecute := fun s => (.ok .finished, s + 1) }

/-- An exchange whose only background task finishes at its next poll. -/
def idleExchange : Exchange Nat Nat String :=
  { steadyExchange with backgroundTasks := [{ task := doneOnPollTask "a", state := .keepGoing }] }

/-- An object with a `results` method that is not an `ExchangeCommand`. -/
def foreignObject : Task Nat Nat String :=
  { keepGoingTask "x" with instanceOfExchangeCommand := false, st := 7 }

/-- A command with a `side` argument that is done after its first step. -/
def finishedTask (id : String) : Task Nat Nat String :=
  { keepGoingTask id with
    hasArg := fun a _ => a == "side",
    execute := fun s => (.ok .finished, s + 1) }

/-- The selector of `cancelAlgorithmicOrders` in the words of its contract:
`all`; or `buy` / `sell` and the entry's side equals the selector; or `tagged`
and the entry's tag equals `tag`; or `session` and the entry's session equals
`session`. -/
def selectorMatches (which : String) (tag : Option String) (session : String)
    (o : AlgoOrder) : Bool :=
  which == "all"
  || ((which == "buy" || which == "sell") && o.side == which)
  || (which == "tagged" && o.tag == tag)
  || (which == "session" && o.session == session)

/-- Sample command modules: `stop` raises an `AbortSequenceError`, `limitOrder`
raises a plain error, `wait` resolves with a value, `stopMarket` is a command
class; the others are left out. -/
def sampleModules : Modules Nat Nat String :=
  { icebergOrder := .other, scaledOrder := .other, twapOrder := .other,
    pingPongOrder := .other, marketMakerOrder := .other, aggressiveEntryOrder := .other,
    stopOrTakeProfitOrder := .other,
    limitOrder := .function (fun _ _ ex => { outcome := .error (.error "Invalid side"), ex := ex }),
    marketOrder := .other, cancelOrders := .other,
    stopMarketOrder := { construct := fun context => .ok (keepGoingTask context.symbol) },
    trailingStopLossCommand := { construct := fun _ => .error (.error "not supported") },
    trailingTakeProfitCommand := { construct := fun _ => .error (.error "not supported") },
    notify := .other, balance := .other,
    wait := .function (fun _ _ ex => { outcome := .ok (.value 1), ex := ex }),
    continueCmd := .other,
    stopCmd := .function (fun _ _ ex => { outcome := .error (.abortSequence "stop"), ex := ex }) }

/-- The test `assignParams` applies to an argument `p` for the parameter `item`
at position `i`: the names are equal once lower-cased, or the name is empty and
the index is the position. -/
def argumentMatches {α : Type} (toLowerCase : String → String) (item : String) (i : Nat)
    (p : Param α) : Bool :=
  toLowerCase p.name == toLowerCase item || (p.name == "" && p.index == i)

/-- The resolution of one parameter as claimed: the value of an argument whose
name equals the parameter name ignoring case if there is one; only if there is
none, the value of an argument with empty name and the parameter's position as
index; and only if there is none of either, the default. -/
def ResolvedAsClaimed {α : Type} (toLowerCase : String → String) (named : List (Param α))
    (i : Nat) (item : String) (dflt value : α) : Prop :=
  ((∃ p ∈ named, toLowerCase p.name = toLowerCase item) →
      ∃ p ∈ named, toLowerCase p.name = toLowerCase item ∧ value = p.value)
  ∧ ((¬ ∃ p ∈ named, toLowerCase p.name = toLowerCase item) →
      (∃ p ∈ named, p.name = "" ∧ p.index = i) →
      ∃ p ∈ named, p.name = "" ∧ p.index = i ∧ value = p.value)
  ∧ ((¬ ∃ p ∈ named, toLowerCase p.name = toLowerCase item) →
      (¬ ∃ p ∈ named, p.name = "" ∧ p.index = i) → value = dflt)

/-- Two expected parameters of a price ladder with their defaults. -/
def ladderDefaults : List (String × String) :=
  [("from", "0"), ("to", "50")]

/-- An argument list that names `to` first and then gives a positional argument
in second place, as in `(to=9000, 7000)`. -/
def ladderArgs : List (Param String) :=
  [{ name := "to", value := "9000", index := 0 }, { name := "", value := "7000", index := 1 }]

/-- The backoff as claimed for a task that always returns `keepGoing`: every
interval below `maxDelay` is followed by a larger one, and none exceeds
`maxDelay`. -/
def BackoffStrictlyIncreases (maxDelay : Int) (waits : List Int) : Prop :=
  List.Chain' (fun a b => a < maxDelay → a < b) waits ∧ ∀ w ∈ waits, w ≤ maxDelay

/-! ## Coinbase driver: a run of rate-limited calls -/

/-- The rate-limiting fields as the `Coinbase` constructor sets them at clock
reading `now`: `nextCallAt = Date.now()`, `minTimeBetweenCalls = 250`. -/
def Coinbase.create (now : Int) : Coinbase :=
  { nextCallAt := now, minTimeBetweenCalls := 250 }

/-- The times at which successive `rateLimit()` calls, made at the clock
readings `times`, schedule their work: for each call, `currentTime +
waitBeforeCall`, the instant the `setTimeout` is due. -/
def Coinbase.dispatchTimes : Coinbase → List Int → List Int
  | _, [] => []
  | c, now :: rest => (now + (c.rateLimit now).1) :: Coinbase.dispatchTimes (c.rateLimit now).2 rest

/-! ## Deribit driver: the retrying call -/

/-- What `request` hands its callback: an `error` (with `error.code ===
'ECONNRESET'` or not), or a response with its status code and body. -/
inductive RequestOutcome where
  | error (connectionReset : Bool) (message : String)
  | response (statusCode : Nat) (body : String)
  deriving DecidableEq, Repr

/-- The `err` argument of `next`: a number (the status code, or the 429 a
connection reset is turned into) or an error object. -/
inductive RetryError where
  | status (code : Nat)
  | other (message : String)
  deriving DecidableEq, Repr

/-- What `JSON.parse(body)` yields, as far as `callAPIWithRetries` looks at it:
a parse failure, or an object with its `error`, `message` and `result`
properties (`none` is `undefined`). -/
inductive ParsedBody (β : Type) where
  | notJson
  | json (error : Option String) (message : Option String) (result : Option β)

/-- The `result` argument of a successful `next(null, result)`: the parsed
object, or `{ message: body.toString() }` when the body is not JSON. -/
structure ApiResponse (β : Type) where
  message : Option String
  result : Option β

/-- The `errorFilter` of `callAPIWithRetries`:
`err === 503 || err === 502 || err === 429`. -/
def errorFilter : RetryError → Bool
  | .status code => code == 503 || code == 502 || code == 429
  | .other _ => false

/-- The text of `${x}` for a property that may be `undefined`. -/
def templateText : Option String → String
  | none => "undefined"
  | some s => s

/-- The callback `callAPIWithRetries` gives `request`: what it passes to `next`
for one outcome of the HTTP call. -/
def attemptResult {β : Type} (jsonParse : String → ParsedBody β) :
    RequestOutcome → Except RetryError (ApiResponse β)
  | .error connectionReset message =>
      if connectionReset then .error (.status 429) else .error (.other message)
  | .response statusCode body =>
      if statusCode != 200 then
        .error (.status statusCode)
      else
        match jsonParse body with
        | .notJson => .ok { message := some body, result := none }
        | .json (some error) message _ =>
            .error (.other (error ++ " - " ++ templateText message))
        | .json none message result => .ok { message := message, result := result }

/-- What a run of `async.retry` ends with: the arguments of the final callback
and the number of times the task was run. -/
structure RetryRun (ε β : Type) where
  outcome : Except ε β
  attempts : Nat

/-- The loop of the library function `async.retry`, entered for attempt number
`attempt` with `remaining` further attempts allowed: run the task; on an error
that the filter accepts, and with attempts left, run it again. The task's
outcome on its n-th run is `task n`. The pauses between attempts are left
out. -/
def retryFrom {ε β : Type} (errorFilter : ε → Bool) (task : Nat → Except ε β) :
    Nat → Nat → RetryRun ε β
  | 0, attempt => { outcome := task attempt, attempts := attempt }
  | remaining + 1, attempt =>
      match task attempt with
      | .ok r => { outcome := .ok r, attempts := attempt }
      | .error err =>
          if errorFilter err then retryFrom errorFilter task remaining (attempt + 1)
          else { outcome := .error err, attempts := attempt }

/-- The library function `async.retry({ times, errorFilter }, task, callback)`:
attempts are numbered from 1 and a `times` of 0 stands for the default of 5. -/
def asyncRetry {ε β : Type} (times : Nat) (errorFilter : ε → Bool)
    (task : Nat → Except ε β) : RetryRun ε β :=
  retryFrom errorFilter task ((if times = 0 then 5 else times) - 1) 1

/-- Source `callAPIWithRetries(requestOptions, maxAttempts, cb)`: the arguments
`cb` is called with and the number of HTTP calls made, where `request n` is the
outcome of the n-th HTTP call. -/
def callAPIWithRetries {β : Type} (jsonParse : String → ParsedBody β)
    (request : Nat → RequestOutcome) (maxAttempts : Nat) :
    RetryRun RetryError (ApiResponse β) :=
  asyncRetry maxAttempts errorFilter (fun n => attemptResult jsonParse (request n))

/-- Source `callAPI(url, method, headers, data)`: rejects with `err`, or resolves
with `response.result`. -/
def callAPI {β : Type} (jsonParse : String → ParsedBody β) (request : Nat → RequestOutcome) :
    Except RetryError (Option β) :=
  match (callAPIWithRetries jsonParse request 10).outcome with
  | .error err => .error err
  | .ok response => .ok response.result

/-- A failure that is transient in the words of the contract: status 429, 502 or
503, or a connection reset. -/
def RequestOutcome.isTransientFailure : RequestOutcome → Bool
  | .error connectionReset _ => connectionReset
  | .response statusCode _ => statusCode == 429 || statusCode == 502 || statusCode == 503

/-- A sample body parser: `"ok"` is a JSON object with result 1, `"bad"` one
with an `error` property, anything else is not JSON. -/
def sampleJsonParse : String → ParsedBody Nat
  | "ok" => .json none none (some 1)
  | "bad" => .json (some "10001") (some "order not found") none
  | _ => .notJson

/-- A venue that is overloaded twice and then answers. -/
def busyThenOk : Nat → RequestOutcome
  | 1 => .response 429 ""
  | 2 => .error true "socket hang up"
  | _ => .response 200 "ok"

/-- A venue that always answers 503. -/
def alwaysBusy : Nat → RequestOutcome :=
  fun _ => .response 503 ""

/-- A venue that is overloaded once and then reports an unknown order. -/
def busyThenBad : Nat → RequestOutcome
  | 1 => .response 502 ""
  | _ => .response 200 "bad"

/-! ## Canonical orders and the drivers' order operations

Numbers are rationals: `parseFloat` and the arithmetic on its results are
exact, and `NaN` (the parse of a text that is not a number) is not a value. The
driver's own `rateLimit()` only delays a call and always resolves, so it is left
out of the operations below. -/

/-- The canonical order record both drivers produce. -/
structure Order where
  id : String
  side : String
  amount : ℚ
  remaining : ℚ
  executed : ℚ
  is_filled : Bool
  is_open : Bool
  deriving DecidableEq, Repr

/-- An order in Deribit's own format, with the properties `remapOrder` reads. -/
structure DeribitOrder where
  orderId : String
  direction : String
  quantity : ℚ
  filledQuantity : ℚ
  state : String
  type : String
  price : ℚ
  amount : ℚ
  deriving DecidableEq, Repr

/-- What `remapOrder` returns: the canonical record and the three properties
the Deribit driver keeps for its own use. -/
structure DeribitCanonicalOrder extends Order where
  type : String
  price : ℚ
  deribitAmount : ℚ
  deriving DecidableEq, Repr

/-- Source `DeribitApi.remapOrder(o)`. -/
def DeribitApi.remapOrder (o : DeribitOrder) : DeribitCanonicalOrder :=
  { id := o.orderId,
    side := o.direction,
    amount := o.quantity,
    remaining := o.quantity - o.filledQuantity,
    executed := o.filledQuantity,
    is_filled := o.quantity == o.filledQuantity,
    is_open := o.state == "open" || (o.state == "untriggered" && o.type == "stop_market"),
    type := o.type,
    price := o.price,
    deribitAmount := o.amount }

/-- An order in Coinbase's own format, with the properties the driver reads. -/
structure CoinbaseOrder where
  id : String
  side : String
  size : String
  filled_size : String
  status : String
  type : String
  product_id : String
  deriving DecidableEq, Repr

/-- The state of a venue together with the requests a driver has made of it, in
order. -/
structure World (ν κ : Type) where
  venue : ν
  requests : List κ

/-- Make the request `req` of the venue, whose answer (or failure) and next
state are given by `respond`, and note it down. -/
def callVenue {ν κ β : Type} (respond : κ → ν → Except JsError β × ν) (req : κ)
    (w : World ν κ) : Except JsError β × World ν κ :=
  ((respond req w.venue).1,
    { venue := (respond req w.venue).2, requests := w.requests ++ [req] })

/-- The library function `async.eachSeries(list, iteratee, callback)`: the
iteratee is run on one element after the other; an error passed to `next` stops
the run and is handed to the callback. -/
def eachSeries {α ω ε : Type} (iteratee : α → ω → Option ε × ω) : List α → ω → Option ε × ω
  | [], w => (none, w)
  | x :: rest, w =>
      match iteratee x w with
      | (some err, w1) => (some err, w1)
      | (none, w1) => eachSeries iteratee rest w1

/-- The calls the Coinbase driver makes in the operations below:
`authClient.getOrder(id)`, `authClient.cancelOrder(id)`, and its own
`limitOrder(product, size, price, side, postOnly, false)` and
`stopOrder(product, size, price, side, '')`. A `none` is `undefined`. -/
inductive CoinbaseRequest where
  | getOrder (id : String)
  | cancelOrder (id : String)
  | limitOrder (product size : Option String) (price : ℚ) (side : String)
      (postOnly : Option String)
  | stopOrder (product size : Option String) (price : ℚ) (side : String)
  deriving DecidableEq, Repr

/-- Source `Coinbase.order(orderInfo)`: the canonical record built from the
venue's answer, or from `orderInfo` when the look-up fails. -/
def Coinbase.order {ν : Type} (parseFloat : String → ℚ)
    (respond : CoinbaseRequest → ν → Except JsError CoinbaseOrder × ν)
    (orderInfo : CoinbaseOrder) (w : World ν CoinbaseRequest) :
    Order × World ν CoinbaseRequest :=
  match callVenue respond (.getOrder orderInfo.id) w with
  | (.ok order, w1) =>
      ({ id := order.id,
         side := order.side,
         amount := parseFloat order.size,
         remaining := parseFloat order.size - parseFloat order.filled_size,
         executed := parseFloat order.filled_size,
         is_filled := parseFloat order.size == parseFloat order.filled_size,
         is_open := order.status == "open" }, w1)
  | (.error _, w1) =>
      ({ id := orderInfo.id,
         side := orderInfo.side,
         amount := parseFloat orderInfo.size,
         remaining := 0,
         executed := parseFloat orderInfo.size,
         is_filled := false,
         is_open := false }, w1)

/-- Source `Coinbase.cancelOrders(orders)`: both the `then` and the `catch` of a
cancel call `next()` without an error. -/
def Coinbase.cancelOrders {ν : Type}
    (respond : CoinbaseRequest → ν → Except JsError CoinbaseOrder × ν)
    (orders : List CoinbaseOrder) (w : World ν CoinbaseRequest) :
    Except JsError Unit × World ν CoinbaseRequest :=
  match eachSeries (ε := JsError)
      (fun order w1 => (none, (callVenue respond (.cancelOrder order.id) w1).2)) orders w with
  | (some err, w1) => (.error err, w1)
  | (none, w1) => (.ok (), w1)

/-- Source `Coinbase.orderTypeFromOrder(o)`, as a function of `o.type`. -/
def Coinbase.orderTypeFromOrder (type : Option String) : Except JsError String :=
  if type = some "market" then .ok "stop_market"
  else if type = some "limit" then .ok "limit"
  else .error (.error "orderTypeFromOrder(): unknown order type.")

/-- A read of a property that the object literal returned by `Coinbase.order`
does not have. The literal has `id`, `side`, `amount`, `remaining`, `executed`,
`is_filled` and `is_open`; `updateOrderPrice` reads `o.type`, `o.product_id`,
`o.size` and `o.post_only`, each of which is `undefined`. -/
def Order.absentProperty (_o : Order) : Option String :=
  none

/-- Source `Coinbase.updateOrderPrice(order, price)`. -/
def Coinbase.updateOrderPrice {ν : Type} (parseFloat : String → ℚ)
    (respond : CoinbaseRequest → ν → Except JsError CoinbaseOrder × ν)
    (order : CoinbaseOrder) (price : ℚ) (w : World ν CoinbaseRequest) :
    Except JsError (Option CoinbaseOrder) × World ν CoinbaseRequest :=
  -- const o = await this.order(order)
  let (o, w1) := Coinbase.order parseFloat respond order w
  -- await this.cancelOrders([order])
  match Coinbase.cancelOrders respond [order] w1 with
  | (.error err, w2) => (.error err, w2)
  | (.ok _, w2) =>
      -- const orderType = this.orderTypeFromOrder(o), which reads o.type
      match Coinbase.orderTypeFromOrder o.absentProperty with
      | .error err => (.error err, w2)
      | .ok orderType =>
          if orderType = "limit" then
            match callVenue respond
                (.limitOrder o.absentProperty o.absentProperty price o.side o.absentProperty)
                w2 with
            | (.error err, w3) => (.error err, w3)
            | (.ok newOrder, w3) => (.ok (some newOrder), w3)
          else if orderType = "stop_market" then
            match callVenue respond
                (.stopOrder o.absentProperty o.absentProperty price o.side) w2 with
            | (.error err, w3) => (.error err, w3)
            | (.ok newOrder, w3) => (.ok (some newOrder), w3)
          else
            (.ok none, w2)

/-- A request of the Deribit driver through `makeAuthRequest(action, params)`,
for the actions whose only parameter is an order id. -/
structure DeribitRequest where
  action : String
  orderId : String
  deriving DecidableEq, Repr

/-- Source `DeribitApi.cancelOrders(orders)`: one
`makeAuthRequest('/api/v1/private/cancel', { orderId: order.id })` per order,
whose `then` and `catch` both call `next()` without an error. -/
def DeribitApi.cancelOrders {ν β : Type}
    (makeAuthRequest : DeribitRequest → ν → Except JsError β × ν)
    (orders : List Order) (w : World ν DeribitRequest) :
    Except JsError Unit × World ν DeribitRequest :=
  match eachSeries (ε := JsError)
      (fun order w1 =>
        (none, (callVenue makeAuthRequest
          { action := "/api/v1/private/cancel", orderId := order.id } w1).2)) orders w with
  | (some err, w1) => (.error err, w1)
  | (none, w1) => (.ok (), w1)

/-- A sample `parseFloat`: the value of a text of decimal digits, 0 for any
other text. -/
def digitsParseFloat (s : String) : ℚ :=
  if s.data.all Char.isDigit ∧ s.data ≠ [] then
    ((s.data.foldl (fun n c => 10 * n + (c.toNat - '0'.toNat)) 0 : Nat) : ℚ)
  else 0

/-- A sample Coinbase venue that knows nothing: every request fails. Its state
counts the requests. -/
def deafVenue : CoinbaseRequest → Nat → Except JsError CoinbaseOrder × Nat :=
  fun _ n => (.error (.error "NotFound"), n + 1)

/-- A sample Coinbase venue that answers every request with the open limit
order `o-1`, except that cancelling `o-2` fails. -/
def sampleVenue : CoinbaseRequest → Nat → Except JsError CoinbaseOrder × Nat
  | .cancelOrder "o-2", n => (.error (.error "order not found"), n + 1)
  | _, n =>
      (.ok { id := "o-1", side := "buy", size := "2", filled_size := "0", status := "open",
             type := "limit", product_id := "BTC-USD" }, n + 1)

/-- A sample Coinbase order as the driver's caller holds it. -/
def sampleCoinbaseOrder (id : String) : CoinbaseOrder :=
  { id := id, side := "buy", size := "2", filled_size := "0", status := "open",
    type := "limit", product_id := "BTC-USD" }

/-- A sample Deribit venue where cancelling `o-2` fails. -/
def sampleDeribitVenue : DeribitRequest → Nat → Except JsError Unit × Nat
  | ⟨_, "o-2"⟩, n => (.error (.error "order not found"), n + 1)
  | _, n => (.ok (), n + 1)

/-- A sample Deribit order: 5 contracts, 2 of them filled. -/
def sampleDeribitOrder : DeribitOrder :=
  { orderId := "d-1", direction := "buy", quantity := 5, filledQuantity := 2, state := "open",
    type := "limit", price := 100, amount := 50 }

/-- A sample canonical order. -/
def sampleOrder (id : String) : Order :=
  { id := id, side := "buy", amount := 2, remaining := 2, executed := 0, is_filled := false,
    is_open := true }

/-! ## Order sizing and price helpers of `exchange.js`

Texts are matched on their lists of characters, one function per regular
expression of the source. What `exchange.js` takes from outside (runtime
builtins, `common/util` rounding, symbol data) is gathered in `Runtime`. -/

/-- The builtins and the absent modules that the helpers of `exchange.js` rely
on: `String.prototype.toLowerCase`, `parseFloat`, `parseInt(_, 10)`, the text of
a number in a template literal, `roundAsset(symbol, _)` and
`roundPrice(symbol, _)` (from `common/util` and the symbol data), and
`symbolData.minOrderSize(symbol)`. Numbers are rationals. -/
structure Runtime where
  toLowerCase : String → String
  parseFloat : String → ℚ
  parseInt : String → Int
  numberToString : ℚ → String
  roundAsset : String → ℚ → ℚ
  roundPrice : String → ℚ → ℚ
  minOrderSize : String → ℚ

/-- The class `\s` of a JavaScript regular expression. -/
def isJsWhitespace (c : Char) : Bool :=
  let n := c.toNat
  n == 9 || n == 10 || n == 11 || n == 12 || n == 13 || n == 32 || n == 160 || n == 5760
  || (8192 ≤ n && n ≤ 8202) || n == 8232 || n == 8233 || n == 8239 || n == 8287 || n == 12288
  || n == 65279

/-- A line terminator, which `.` does not match. -/
def isLineTerminator (c : Char) : Bool :=
  let n := c.toNat
  n == 10 || n == 13 || n == 8232 || n == 8233

/-- The start `^([0-9]+(\.[0-9]+)?)\s*` shared by the regular expressions of
`parseQuantity` and `parsePercentage`: the number matched and what follows the
white space after it. -/
def matchNumber (s : List Char) : Option (List Char × List Char) :=
  let whole := s.takeWhile Char.isDigit
  let rest := s.dropWhile Char.isDigit
  if whole = [] then none
  else
    match rest with
    | [] => some (whole, [])
    | c :: more =>
        if c = '.' ∧ more.takeWhile Char.isDigit ≠ [] then
          some (whole ++ '.' :: more.takeWhile Char.isDigit,
            (more.dropWhile Char.isDigit).dropWhile isJsWhitespace)
        else
          some (whole, rest.dropWhile isJsWhitespace)

/-- The regular expression `/^([0-9]+(\.[0-9]+)?)\s*([a-zA-Z]+|%{1,2})?$/` of
`parseQuantity`: the groups `m[1]` and `m[3]` of a match. -/
def matchQuantity (s : List Char) : Option (List Char × Option (List Char)) :=
  match matchNumber s with
  | none => none
  | some (number, rest) =>
      if rest = [] then some (number, none)
      else if rest.all Char.isAlpha then some (number, some rest)
      else if rest = ['%'] ∨ rest = ['%', '%'] then some (number, some rest)
      else none

/-- The regular expression `/^([0-9]+(\.[0-9]+)?)\s*(%{1,2})?$/` of
`parsePercentage`: the groups `m[1]` and `m[3]` of a match. -/
def matchPercentage (s : List Char) : Option (List Char × Option (List Char)) :=
  match matchNumber s with
  | none => none
  | some (number, rest) =>
      if rest = [] then some (number, none)
      else if rest = ['%'] ∨ rest = ['%', '%'] then some (number, some rest)
      else none

/-- The regular expression `/@([0-9]+(\.[0-9]*)?)/` of `offsetToAbsolutePrice`,
which is searched for anywhere in the text: the group `m[1]` of the first
match. -/
def matchAbsolutePrice : List Char → Option (List Char)
  | [] => none
  | c :: rest =>
      if c = '@' ∧ rest.takeWhile Char.isDigit ≠ [] then
        match rest.dropWhile Char.isDigit with
        | [] => some (rest.takeWhile Char.isDigit)
        | d :: more =>
            if d = '.' then
              some (rest.takeWhile Char.isDigit ++ '.' :: more.takeWhile Char.isDigit)
            else
              some (rest.takeWhile Char.isDigit)
      else
        matchAbsolutePrice rest

/-- A parsed quantity `{ value, units }`. -/
structure Quantity where
  value : ℚ
  units : String
  deriving DecidableEq, Repr

/-- Source `parseQuantity(qty)`. -/
def parseQuantity (rt : Runtime) (qty : String) : Quantity :=
  match matchQuantity qty.data with
  | some (number, units) =>
      { value := rt.parseFloat ⟨number⟩,
        units := match units with
          | none => ""
          | some u => ⟨u⟩ }
  | none => { value := 0, units := "" }

/-- Source `parsePercentage(value)`. -/
def parsePercentage (rt : Runtime) (value : String) : ℚ :=
  match matchPercentage value.data with
  | some (number, units) =>
      rt.parseFloat ⟨number⟩ * (if units = some ['%'] then 1 / 100 else 1)
  | none => 0

/-- The pair `{ asset, currency }` of a symbol. -/
structure SymbolPair where
  asset : String
  currency : String
  deriving DecidableEq, Repr

/-- Source `splitSymbol(symbol)`, with the regular expression
`/^(.{3,4})(.{3})/u` on the lower-cased symbol: four characters and three if
there are seven, else three and three, else the default pair. -/
def splitSymbol (rt : Runtime) (symbol : String) : SymbolPair :=
  let s := (rt.toLowerCase symbol).data
  if 7 ≤ s.length ∧ (s.take 7).all (fun c => !isLineTerminator c) then
    { asset := ⟨s.take 4⟩, currency := ⟨(s.drop 4).take 3⟩ }
  else if 6 ≤ s.length ∧ (s.take 6).all (fun c => !isLineTerminator c) then
    { asset := ⟨s.take 3⟩, currency := ⟨(s.drop 3).take 3⟩ }
  else
    { asset := "btc", currency := "usd" }

/-- One entry of the balance list: `{ currency, amount, available }`, the two
amounts as texts. -/
structure Balance where
  currency : String
  amount : String
  available : String
  deriving DecidableEq, Repr

/-- The ticker `{ bid, ask }`, as texts. -/
structure Ticker where
  bid : String
  ask : String
  deriving DecidableEq, Repr

/-- Source `balanceTotalAsset(symbol, balances, price)`. -/
def balanceTotalAsset (rt : Runtime) (symbol : String) (balances : List Balance)
    (price : ℚ) : ℚ :=
  let asset := splitSymbol rt symbol
  let total := balances.foldl (fun t item =>
    if item.currency = asset.currency then t + rt.parseFloat item.amount / price
    else if item.currency = asset.asset then t + rt.parseFloat item.amount
    else t) 0
  rt.roundAsset symbol total

/-- Source `balanceAvailableAsset(symbol, balances, price, side)`. -/
def balanceAvailableAsset (rt : Runtime) (symbol : String) (balances : List Balance)
    (price : ℚ) (side : String) : ℚ :=
  let asset := splitSymbol rt symbol
  let spendable := balances.foldl (fun total item =>
    if side = "buy" then
      if item.currency = asset.currency then total + rt.parseFloat item.available / price
      else total
    else if item.currency = asset.asset then total + rt.parseFloat item.available
    else total) 0
  rt.roundAsset symbol spendable

/-- What `calcOrderSize` returns. -/
structure OrderSizeDetails where
  total : ℚ
  available : ℚ
  isAllAvailable : Bool
  rawOrderSize : ℚ
  orderSize : ℚ
  deriving DecidableEq, Repr

/-- Source `calcOrderSize(symbol, side, amount, balances, price)`. -/
def calcOrderSize (rt : Runtime) (symbol side : String) (amount : Quantity)
    (balances : List Balance) (price : ℚ) : OrderSizeDetails :=
  let asset := splitSymbol rt symbol
  let total := balanceTotalAsset rt symbol balances price
  let available := balanceAvailableAsset rt symbol balances price side
  let orderSize0 := amount.value
  let orderSize1 := if amount.units = "%" then total * (amount.value / 100) else orderSize0
  let orderSize2 := if amount.units = "%%" then available * (amount.value / 100) else orderSize1
  let orderSize3 :=
    if rt.toLowerCase amount.units = asset.currency then amount.value / price else orderSize2
  let rawOrderSize := orderSize3
  let orderSize4 := if orderSize3 > available then available else orderSize3
  let minOrderSize := rt.minOrderSize symbol
  let orderSize5 := if orderSize4 < minOrderSize then 0 else orderSize4
  { total := total,
    available := available,
    isAllAvailable := orderSize5 == available,
    rawOrderSize := rawOrderSize,
    orderSize := rt.roundAsset symbol orderSize5 }

/-! ## Commands: limit order and scaled order -/

/-- The arguments of one call of the driver's
`limitOrder(symbol, amount, price, side, postOnly, reduceOnly)`. -/
structure LimitOrderCall where
  symbol : String
  amount : ℚ
  price : ℚ
  side : String
  postOnly : Bool
  reduceOnly : Bool
  deriving DecidableEq, Repr

/-- One entry of `this.sessionOrders`: `{ session, tag, order }`. -/
structure SessionOrder (ω : Type) where
  session : String
  tag : String
  order : ω

/-- The exchange as a command sees it: the state of the venue behind
`ex.support` and `ex.api`, the calls of `ex.api.limitOrder` made so far, and the
session orders. -/
structure Trading (ν ω : Type) where
  venue : ν
  placed : List LimitOrderCall
  sessionOrders : List (SessionOrder ω)

/-- The parameters `p` of the scaled order command at the point where it asks
`support.scaledOrderSize(context, p)`. -/
structure ScaledParams where
  fromPrice : ℚ
  toPrice : ℚ
  orderCount : Int
  amount : Quantity
  side : String
  easing : String
  varyAmount : ℚ
  varyPrice : ℚ
  tag : String
  position : String
  deriving DecidableEq, Repr

/-- The collaborators a command reaches through `ex`, none of them among the
sources: `support.ticker`, `support.accountBalances`, the driver's `limitOrder`,
`support.scaledOrderSize`, and the generators `common/scaled_amounts` and
`common/scaled_prices`, whose results are read as `amounts[i]` and
`prices[i]`. Each call on the venue returns an answer or fails, and leaves the
venue in a next state. -/
structure Collaborators (ν ω : Type) where
  ticker : String → ν → Except JsError Ticker × ν
  accountBalances : String → ν → Except JsError (List Balance) × ν
  limitOrder : LimitOrderCall → ν → Except JsError ω × ν
  scaledOrderSize : Context → ScaledParams → ν → Except JsError ℚ × ν
  scaledAmounts : Int → ℚ → ℚ → Nat → ℚ
  scaledPrices : Int → ℚ → ℚ → ℚ → String → Nat → ℚ

/-- Source `addToSession(session, tag, order)`. -/
def addToSession {ω : Type} (sessionOrders : List (SessionOrder ω)) (session tag : String)
    (order : ω) : List (SessionOrder ω) :=
  sessionOrders ++ [{ session := session, tag := tag, order := order }]

/-- Source `offsetToAbsolutePrice(symbol, side, offsetStr)`. -/
def offsetToAbsolutePrice {ν ω : Type} (rt : Runtime) (co : Collaborators ν ω)
    (symbol side offsetStr : String) (v : ν) : Except JsError ℚ × ν :=
  match matchAbsolutePrice offsetStr.data with
  | some number => (.ok (rt.roundPrice symbol (rt.parseFloat ⟨number⟩)), v)
  | none =>
      match co.ticker symbol v with
      | (.error err, v1) => (.error err, v1)
      | (.ok orderbook, v1) =>
          let offset := parseQuantity rt offsetStr
          if side = "buy" then
            let currentPrice := rt.parseFloat orderbook.bid
            let finalOffset :=
              if offset.units = "%" then currentPrice * (offset.value / 100) else offset.value
            (.ok (rt.roundPrice symbol (currentPrice - finalOffset)), v1)
          else
            let currentPrice := rt.parseFloat orderbook.ask
            let finalOffset :=
              if offset.units = "%" then currentPrice * (offset.value / 100) else offset.value
            (.ok (rt.roundPrice symbol (currentPrice + finalOffset)), v1)

/-- Source `orderSizeFromAmount(symbol, side, orderPrice, amountStr)`. -/
def orderSizeFromAmount {ν ω : Type} (rt : Runtime) (co : Collaborators ν ω)
    (symbol side : String) (orderPrice : ℚ) (amountStr : String) (v : ν) :
    Except JsError OrderSizeDetails × ν :=
  match co.accountBalances symbol v with
  | (.error err, v1) => (.error err, v1)
  | (.ok balances, v1) =>
      (.ok (calcOrderSize rt symbol side (parseQuantity rt amountStr) balances orderPrice), v1)

/-- What `positionToAmount` returns: `{ side, amount }`. -/
structure PositionAmount where
  side : String
  amount : Quantity
  deriving DecidableEq, Repr

/-- Source `positionToAmount(symbol, position, side, amount)`. -/
def positionToAmount {ν ω : Type} (rt : Runtime) (co : Collaborators ν ω)
    (symbol position side amount : String) (v : ν) : Except JsError PositionAmount × ν :=
  if position = "" then
    (.ok { side := side, amount := parseQuantity rt amount }, v)
  else
    match co.accountBalances symbol v with
    | (.error err, v1) => (.error err, v1)
    | (.ok balances, v1) =>
        let asset := splitSymbol rt symbol
        let total := balances.foldl (fun t item =>
          if item.currency = asset.asset then t + rt.parseFloat item.amount else t) 0
        let target := rt.parseFloat position
        let change := rt.roundAsset symbol (target - total)
        (.ok { side := if change < 0 then "sell" else "buy",
               amount := { value := |change|, units := "" } }, v1)

/-- The record a placement reports: `{ order, side, price, amount, units }`,
with `order: null` as `none`. -/
structure OrderRecord (ω : Type) where
  order : Option ω
  side : String
  price : ℚ
  amount : ℚ
  units : String

/-- What the limit order command, or `executeCommand` around it, resolves
with: `undefined`, the bare `{ order: null }`, or a full record. -/
inductive CommandResult (ω : Type) where
  | undefined
  | orderNull
  | record (r : OrderRecord ω)

/-- The value of the property `key` of the object `assignParams` returned. -/
def paramValue (params : List (String × String)) (key : String) : String :=
  (params.lookup key).getD ""

/-- The call of `assignParams` that opens the limit order command, with its
defaults. -/
def limitOrderParams (rt : Runtime) (now : String) (args : List (Param String)) :
    List (String × String) :=
  assignParams rt.toLowerCase
    [("side", "buy"), ("offset", "0"), ("amount", "0"), ("tag", now), ("position", ""),
      ("postOnly", "true"), ("reduceOnly", "false")] args

/-- Source `commands/orders/limit_order.js`, the limit order command, run with
the argument list `args` in the context `{ ex, symbol, session }`. `now` is the
text of `new Date().toISOString()`, the default tag. -/
def limitOrder {ν ω : Type} (rt : Runtime) (co : Collaborators ν ω) (now : String)
    (context : Context) (args : List (Param String)) (t : Trading ν ω) :
    Except JsError (CommandResult ω) × Trading ν ω :=
  let params := limitOrderParams rt now args
  let postOnly := rt.toLowerCase (paramValue params "postOnly") == "true"
  let reduceOnly := rt.toLowerCase (paramValue params "reduceOnly") == "true"
  if paramValue params "side" ≠ "buy" ∧ paramValue params "side" ≠ "sell" then
    (.error (.error "side must be buy or sell"), t)
  else
    match positionToAmount rt co context.symbol (paramValue params "position")
        (paramValue params "side") (paramValue params "amount") t.venue with
    | (.error err, v1) => (.error err, { t with venue := v1 })
    | (.ok modifiedPosition, v1) =>
        if modifiedPosition.amount.value = 0 then
          (.ok .orderNull, { t with venue := v1 })
        else
          let side := modifiedPosition.side
          let amountStr :=
            rt.numberToString modifiedPosition.amount.value ++ modifiedPosition.amount.units
          match offsetToAbsolutePrice rt co context.symbol side (paramValue params "offset")
              v1 with
          | (.error err, v2) => (.error err, { t with venue := v2 })
          | (.ok orderPrice, v2) =>
              if orderPrice < 0 then
                (.error (.error "Order price below zero not possible."), { t with venue := v2 })
              else
                match orderSizeFromAmount rt co context.symbol side orderPrice amountStr v2 with
                | (.error err, v3) => (.error err, { t with venue := v3 })
                | (.ok details, v3) =>
                    if details.orderSize = 0 then
                      (.error (.error "No funds available or order size is 0"),
                        { t with venue := v3 })
                    else
                      let call : LimitOrderCall :=
                        { symbol := context.symbol, amount := details.orderSize,
                          price := orderPrice, side := side, postOnly := postOnly,
                          reduceOnly := reduceOnly }
                      match co.limitOrder call v3 with
                      | (.error err, v4) =>
                          (.error err, { t with venue := v4, placed := t.placed ++ [call] })
                      | (.ok order, v4) =>
                          (.ok (.record { order := some order, side := side,
                                          price := orderPrice, amount := details.orderSize,
                                          units := "" }),
                            { venue := v4, placed := t.placed ++ [call],
                              sessionOrders := addToSession t.sessionOrders context.session
                                (paramValue params "tag") order })

/-- The call `ex.executeCommand(symbol, 'limitOrder', args, session)` made by the
scaled order command: `limitOrder` is on the allow-list and its table entry is
the limit order command; the `catch` of `executeCommand` rethrows an
`AbortSequenceError` and turns any other error into `undefined`. -/
def executeLimitOrderCommand {ν ω : Type} (rt : Runtime) (co : Collaborators ν ω)
    (now : String) (context : Context) (args : List (Param String)) (t : Trading ν ω) :
    Except JsError (CommandResult ω) × Trading ν ω :=
  match limitOrder rt co now context args t with
  | (.ok result, t1) => (.ok result, t1)
  | (.error err, t1) =>
      if err.isAbortSequence then (.error err, t1) else (.ok .undefined, t1)

/-- The iteratee of `timesSeries` in the scaled order command: the placement of
rung `i`, with its `try` and `catch`. -/
def scaledOrderRung {ν ω : Type} (rt : Runtime) (co : Collaborators ν ω) (now : String)
    (context : Context) (p : ScaledParams) (amounts prices : Nat → ℚ) (i : Nat)
    (t : Trading ν ω) : CommandResult ω × Trading ν ω :=
  let failed : CommandResult ω :=
    .record { order := none, side := p.side, price := prices i, amount := amounts i,
              units := p.amount.units }
  if p.amount.units = "" then
    let call : LimitOrderCall :=
      { symbol := context.symbol, amount := amounts i, price := prices i, side := p.side,
        postOnly := true, reduceOnly := false }
    match co.limitOrder call t.venue with
    | (.error _, v1) => (failed, { t with venue := v1, placed := t.placed ++ [call] })
    | (.ok order, v1) =>
        (.record { order := some order, side := p.side, price := prices i,
                   amount := amounts i, units := "" },
          { venue := v1, placed := t.placed ++ [call],
            sessionOrders := addToSession t.sessionOrders context.session p.tag order })
  else
    let limitOrderArgs : List (Param String) :=
      [{ name := "side", value := p.side, index := 0 },
       { name := "offset", value := "@" ++ rt.numberToString (prices i), index := 1 },
       { name := "amount", value := rt.numberToString (amounts i) ++ p.amount.units,
         index := 2 },
       { name := "tag", value := p.tag, index := 3 }]
    match executeLimitOrderCommand rt co now context limitOrderArgs t with
    | (.error _, t1) => (failed, t1)
    | (.ok result, t1) => (result, t1)

/-- The library function `async.timesSeries(n, iteratee, callback)` for an
iteratee that does not fail: the iteratee is run for `i = start, start + 1, ...`,
`count` times, one run after the other, and the results are collected. -/
def timesSeriesFrom {τ β : Type} (iteratee : Nat → τ → β × τ) : Nat → Nat → τ → List β × τ
  | 0, _, t => ([], t)
  | count + 1, start, t =>
      let (r, t1) := iteratee start t
      let (rs, t2) := timesSeriesFrom iteratee count (start + 1) t1
      (r :: rs, t2)

/-- The call of `assignParams` that opens the scaled order command, with its
defaults. -/
def scaledOrderParams (rt : Runtime) (args : List (Param String)) : List (String × String) :=
  assignParams rt.toLowerCase
    [("from", "0"), ("to", "50"), ("orderCount", "10"), ("amount", "0"), ("side", "buy"),
      ("easing", "linear"), ("varyAmount", "0"), ("varyPrice", "0"), ("tag", ""),
      ("position", "")] args

/-- The order count of the scaled order command:
`Math.min(parseInt(p.orderCount, 10), 100)`. -/
def scaledOrderCount (rt : Runtime) (args : List (Param String)) : Int :=
  min (rt.parseInt (paramValue (scaledOrderParams rt args) "orderCount")) 100

/-- Source `commands/algo/scaled_order.js`, the scaled order command, run with
the argument list `args` in the context `{ ex, symbol, session }`. -/
def scaledOrder {ν ω : Type} (rt : Runtime) (co : Collaborators ν ω) (now : String)
    (context : Context) (args : List (Param String)) (t : Trading ν ω) :
    Except JsError (List (CommandResult ω)) × Trading ν ω :=
  let p := scaledOrderParams rt args
  let orderCount : Int := scaledOrderCount rt args
  let varyAmount := parsePercentage rt (paramValue p "varyAmount")
  let varyPrice := parsePercentage rt (paramValue p "varyPrice")
  if orderCount < 1 then
    (.ok [], t)
  else
    match positionToAmount rt co context.symbol (paramValue p "position")
        (paramValue p "side") (paramValue p "amount") t.venue with
    | (.error err, v1) => (.error err, { t with venue := v1 })
    | (.ok modifiedPosition, v1) =>
        if modifiedPosition.amount.value = 0 then
          (.ok [], { t with venue := v1 })
        else
          let side := modifiedPosition.side
          match offsetToAbsolutePrice rt co context.symbol side (paramValue p "from") v1 with
          | (.error err, v2) => (.error err, { t with venue := v2 })
          | (.ok from0, v2) =>
              match offsetToAbsolutePrice rt co context.symbol side (paramValue p "to") v2 with
              | (.error err, v3) => (.error err, { t with venue := v3 })
              | (.ok to0, v3) =>
                  let swap := (side = "buy" ∧ from0 < to0) ∨ (side = "sell" ∧ from0 > to0)
                  let fromPrice := if swap then to0 else from0
                  let toPrice := if swap then from0 else to0
                  if fromPrice ≤ 0 ∨ toPrice ≤ 0 then
                    (.ok [], { t with venue := v3 })
                  else
                    let asked : ScaledParams :=
                      { fromPrice := fromPrice, toPrice := toPrice, orderCount := orderCount,
                        amount := modifiedPosition.amount, side := side,
                        easing := paramValue p "easing", varyAmount := varyAmount,
                        varyPrice := varyPrice, tag := paramValue p "tag",
                        position := paramValue p "position" }
                    match co.scaledOrderSize context asked v3 with
                    | (.error err, v4) => (.error err, { t with venue := v4 })
                    | (.ok value, v4) =>
                        if value = 0 then
                          (.ok [], { t with venue := v4 })
                        else
                          let final : ScaledParams :=
                            { asked with amount := { asked.amount with value := value } }
                          let amounts := co.scaledAmounts orderCount value varyAmount
                          let prices :=
                            co.scaledPrices orderCount fromPrice toPrice varyPrice final.easing
                          let (orders, t5) :=
                            timesSeriesFrom
                              (scaledOrderRung rt co now context final amounts prices)
                              orderCount.toNat 0 { t with venue := v4 }
                          (.ok orders, t5)

/-! ## Sample runtime and venue for the commands -/

/-- The number written by a text of decimal digits. -/
def digitsValue (cs : List Char) : Nat :=
  cs.foldl (fun n c => 10 * n + (c.toNat - 48)) 0

/-- The number written by digits with an optional fraction part. -/
def unsignedDecimalValue (cs : List Char) : ℚ :=
  match cs.dropWhile Char.isDigit with
  | c :: more =>
      if c = '.' then
        (digitsValue (cs.takeWhile Char.isDigit) : ℚ)
          + (digitsValue (more.takeWhile Char.isDigit) : ℚ)
            / (10 : ℚ) ^ (more.takeWhile Char.isDigit).length
      else (digitsValue (cs.takeWhile Char.isDigit) : ℚ)
  | [] => (digitsValue (cs.takeWhile Char.isDigit) : ℚ)

/-- A sample `parseFloat`: an optional minus sign, digits, an optional fraction
part. -/
def decimalParseFloat (s : String) : ℚ :=
  match s.data with
  | c :: rest => if c = '-' then - unsignedDecimalValue rest else unsignedDecimalValue (c :: rest)
  | [] => 0

/-- A sample runtime: letter-by-letter lower-casing, decimal `parseFloat` and
`parseInt`, the decimal text of a whole number, no rounding, and a minimum order
size of 1/100. -/
def sampleRuntime : Runtime :=
  { toLowerCase := asciiToLowerCase,
    parseFloat := decimalParseFloat,
    parseInt := fun s => (digitsValue (s.data.takeWhile Char.isDigit) : Int),
    numberToString := fun q => if q.den = 1 then toString q.num else toString q.num ++ "/" ++ toString q.den,
    roundAsset := fun _ x => x,
    roundPrice := fun _ x => x,
    minOrderSize := fun _ => 1 / 100 }

/-- A sample venue with bid 3000 and ask 3050, 10 btc and 50000 usd, that accepts
every order and answers with the number of the request. -/
def sampleCollaborators : Collaborators Nat Nat :=
  { ticker := fun _ n => (.ok { bid := "3000", ask := "3050" }, n + 1),
    accountBalances := fun _ n =>
      (.ok [{ currency := "btc", amount := "10", available := "10" },
            { currency := "usd", amount := "50000", available := "50000" }], n + 1),
    limitOrder := fun _ n => (.ok n, n + 1),
    scaledOrderSize := fun _ p n => (.ok p.amount.value, n + 1),
    scaledAmounts := fun count total _ _ => total / count,
    scaledPrices := fun count fromPrice toPrice _ _ i =>
      fromPrice + (toPrice - fromPrice) * i / (count - 1) }

/-- A trading state with nothing placed yet. -/
def freshTrading : Trading Nat Nat :=
  { venue := 0, placed := [], sessionOrders := [] }

/-- The arguments `side=buy, amount=1, offset=100`. -/
def buyOneArgs : List (Param String) :=
  [{ name := "side", value := "buy", index := 0 },
   { name := "amount", value := "1", index := 1 },
   { name := "offset", value := "100", index := 2 }]

/-- A text that `parseQuantity` reads as a plain number: digits, optionally
followed by a point and more digits. -/
def isDecimalText (s : List Char) : Bool :=
  s.takeWhile Char.isDigit != []
  && (s.dropWhile Char.isDigit == []
      || (s.dropWhile Char.isDigit).head? == some '.'
          && (s.dropWhile Char.isDigit).tail != []
          && (s.dropWhile Char.isDigit).tail.all Char.isDigit)

/-- The size `calcOrderSize` hands to `roundAsset`, in the words of the contract:
0 when the smaller of the raw size and the available balance is below the minimum
order size, and that smaller value otherwise. -/
def sizeBeforeRounding (rt : Runtime) (symbol : String) (d : OrderSizeDetails) : ℚ :=
  if min d.rawOrderSize d.available < rt.minOrderSize symbol then 0
  else min d.rawOrderSize d.available

/-- A balance list with a negative available balance. -/
def debtBalances : List Balance :=
  [{ currency := "btc", amount := "-1", available := "-1" }]

/-- The balances of the sample venue: 10 btc and 50000 usd. -/
def sampleBalances : List Balance :=
  [{ currency := "btc", amount := "10", available := "10" },
   { currency := "usd", amount := "50000", available := "50000" }]

/-! ## Sample argument lists of the limit order command -/

/-- The arguments `side=hold, amount=1, offset=100`. -/
def holdArgs : List (Param String) :=
  [{ name := "side", value := "hold", index := 0 },
   { name := "amount", value := "1", index := 1 },
   { name := "offset", value := "100", index := 2 }]

/-- The arguments `side=buy, amount=0, offset=100`. -/
def buyNothingArgs : List (Param String) :=
  [{ name := "side", value := "buy", index := 0 },
   { name := "amount", value := "0", index := 1 },
   { name := "offset", value := "100", index := 2 }]

/-- The arguments `side=buy, amount=1, offset=5000`: further below the bid than
the bid is high. -/
def deepOffsetArgs : List (Param String) :=
  [{ name := "side", value := "buy", index := 0 },
   { name := "amount", value := "1", index := 1 },
   { name := "offset", value := "5000", index := 2 }]

/-- The arguments `side=buy, amount=1, offset=@9999999`: a price at which the
funds buy less than the minimum order size. -/
def costlyArgs : List (Param String) :=
  [{ name := "side", value := "buy", index := 0 },
   { name := "amount", value := "1", index := 1 },
   { name := "offset", value := "@9999999", index := 2 }]

/-- The single argument `position=5`: no amount is given. -/
def positionFiveArgs : List (Param String) :=
  [{ name := "position", value := "5", index := 0 }]

/-- The arguments `position=10, amount=1`: the position already held. -/
def heldPositionArgs : List (Param String) :=
  [{ name := "position", value := "10", index := 0 },
   { name := "amount", value := "1", index := 1 }]

/-- The context `{ symbol: 'BTCUSD', session: 's' }`. -/
def sampleContext : Context :=
  { symbol := "BTCUSD", session := "s" }

/-! ## Sample argument lists of the scaled order command -/

/-- The arguments `from=100, to=200, orderCount=0, amount=1`. -/
def noRungArgs : List (Param String) :=
  [{ name := "from", value := "100", index := 0 },
   { name := "to", value := "200", index := 1 },
   { name := "orderCount", value := "0", index := 2 },
   { name := "amount", value := "1", index := 3 }]

/-- The arguments `from=100, to=200, orderCount=4, amount=0`. -/
def emptyLadderArgs : List (Param String) :=
  [{ name := "from", value := "100", index := 0 },
   { name := "to", value := "200", index := 1 },
   { name := "orderCount", value := "4", index := 2 },
   { name := "amount", value := "0", index := 3 }]

/-- The arguments `from=100, to=200, orderCount=4, amount=1`. -/
def fourRungArgs : List (Param String) :=
  [{ name := "from", value := "100", index := 0 },
   { name := "to", value := "200", index := 1 },
   { name := "orderCount", value := "4", index := 2 },
   { name := "amount", value := "1", index := 3 }]

/-- The sample venue with funds that allow nothing: `support.scaledOrderSize`
answers 0. -/
def brokeCollaborators : Collaborators Nat Nat :=
  { sampleCollaborators with scaledOrderSize := fun _ _ n => (.ok 0, n + 1) }

/-! ## The scaled order command: its price range and sample ladders -/

/-- Lines 58 to 63 of the scaled order command: `p.from` and `p.to` after the
swap `if ((p.side === 'buy' && p.from < p.to) || (p.side === 'sell' && p.from > p.to))`. -/
def scaledOrderRange (side : String) (from0 to0 : ℚ) : ℚ × ℚ :=
  if (side = "buy" ∧ from0 < to0) ∨ (side = "sell" ∧ from0 > to0) then (to0, from0)
  else (from0, to0)

/-- The sample venue with a driver that rejects every order. -/
def refusingCollaborators : Collaborators Nat Nat :=
  { sampleCollaborators with limitOrder := fun _ n => (.error (.error "order rejected"), n + 1) }

/-- The arguments `from=100, to=200, orderCount=2, amount=2`. -/
def twoRungArgs : List (Param String) :=
  [{ name := "from", value := "100", index := 0 },
   { name := "to", value := "200", index := 1 },
   { name := "orderCount", value := "2", index := 2 },
   { name := "amount", value := "2", index := 3 }]

/-- The arguments `from=100, to=200, orderCount=2, amount=50%`. -/
def percentLadderArgs : List (Param String) :=
  [{ name := "from", value := "100", index := 0 },
   { name := "to", value := "200", index := 1 },
   { name := "orderCount", value := "2", index := 2 },
   { name := "amount", value := "50%", index := 3 }]

/-- The arguments `from=100, to=5000, orderCount=4, amount=1`: `to` resolves
below zero. -/
def deepLadderArgs : List (Param String) :=
  [{ name := "from", value := "100", index := 0 },
   { name := "to", value := "5000", index := 1 },
   { name := "orderCount", value := "4", index := 2 },
   { name := "amount", value := "1", index := 3 }]

/-! ## Session orders

`this.sessionOrders` is the list of `{ session, tag, order }` entries. Orders are
compared by identity (`!==`), which is equality of the values of `ω`. -/

/-- Source `removeFromSession(session, order)`:
`this.sessionOrders.filter(entry => entry.order !== order)`. The parameter
`session` is not read. -/
def removeFromSession {ω : Type} [DecidableEq ω] (sessionOrders : List (SessionOrder ω))
    (_session : String) (order : ω) : List (SessionOrder ω) :=
  sessionOrders.filter (fun entry => decide (entry.order ≠ order))

/-- Source `updateInSession(session, tag, oldOrder, newOrder)`. -/
def updateInSession {ω : Type} [DecidableEq ω] (sessionOrders : List (SessionOrder ω))
    (session tag : String) (oldOrder newOrder : ω) : List (SessionOrder ω) :=
  addToSession (removeFromSession sessionOrders session oldOrder) session tag newOrder

/-- Source `findInSession(session, tag)`; a `tag` of `none` is `null`. -/
def findInSession {ω : Type} (sessionOrders : List (SessionOrder ω)) (session : String)
    (tag : Option String) : List ω :=
  (sessionOrders.filter (fun entry =>
    decide (entry.session = session) && (decide (tag = none) || decide (some entry.tag = tag)))).map
    (fun entry => entry.order)

/-- A call that changes the session orders. -/
inductive SessionCall (ω : Type) where
  | add (session tag : String) (order : ω)
  | remove (session : String) (order : ω)
  | update (session tag : String) (oldOrder newOrder : ω)

/-- The session orders after one call. -/
def SessionCall.run {ω : Type} [DecidableEq ω] (sessionOrders : List (SessionOrder ω)) :
    SessionCall ω → List (SessionOrder ω)
  | .add session tag order => addToSession sessionOrders session tag order
  | .remove session order => removeFromSession sessionOrders session order
  | .update session tag oldOrder newOrder =>
      updateInSession sessionOrders session tag oldOrder newOrder

/-- The session orders after a sequence of calls, starting from none. -/
def sessionOrdersAfter {ω : Type} [DecidableEq ω] (calls : List (SessionCall ω)) :
    List (SessionOrder ω) :=
  calls.foldl SessionCall.run []

/-- The same order, number 7, added to the sessions `s1` and `s2`, then removed
from `s1`. -/
def sharedOrderCalls : List (SessionCall Nat) :=
  [.add "s1" "t" 7, .add "s2" "t" 7, .remove "s1" 7]

/-! ## Bitfinex: the order size from an amount -/

/-- A promise as the object that a call of an `async` method returns: what it
settles with, and the property `orderSize` that code may set on the promise
object itself (`none` while it has not been set; `some none` is `undefined`). -/
structure PromiseObject (α : Type) where
  outcome : Except JsError α
  orderSize : Option (Option ℚ)

/-- The read `orderInfo.rawOrderSize` on a promise: a promise has no such
property, so the read gives `undefined`. -/
def PromiseObject.rawOrderSize {α : Type} (_promise : PromiseObject α) : Option ℚ :=
  none

/-- Source `Bitfinex.orderSizeFromAmount(symbol, side, orderPrice, amountStr)`.
`super.orderSizeFromAmount` is declared `async` and is called without `await`, so
`orderInfo` is the promise of the base method; under `isMargin` the assignment
`orderInfo.orderSize = orderInfo.rawOrderSize` reads and writes properties of
that promise; `return orderInfo` makes the result settle as the promise does. -/
def Bitfinex.orderSizeFromAmount {ν ω : Type} (isMargin : Bool) (rt : Runtime)
    (co : Collaborators ν ω) (symbol side : String) (orderPrice : ℚ) (amountStr : String)
    (v : ν) : Except JsError OrderSizeDetails × ν :=
  let started := DOAIB.orderSizeFromAmount rt co symbol side orderPrice amountStr v
  let orderInfo : PromiseObject OrderSizeDetails := { outcome := started.1, orderSize := none }
  let adjusted : PromiseObject OrderSizeDetails :=
    if isMargin then { orderInfo with orderSize := some orderInfo.rawOrderSize } else orderInfo
  (adjusted.outcome, started.2)

/-! ## A venue with a negative bid -/

/-- A sample venue whose ticker shows a bid of -10 and an ask of -9. -/
def negativeBidCollaborators : Collaborators Nat Nat :=
  { sampleCollaborators with ticker := fun _ n => (.ok { bid := "-10", ask := "-9" }, n + 1) }

/-! ## A background task without a registry entry -/

/-- An exchange with two background tasks; the first is registered, the second
has no entry in the registry. -/
def orphanExchange : Exchange Nat Nat String :=
  { steadyExchange with
    backgroundTasks :=
      [{ task := keepGoingTask "a", state := .keepGoing },
       { task := keepGoingTask "gone", state := .keepGoing }] }

/-! ## The ping-pong loop (`commands/algo/ping_pong_loop.js`)

The loop keeps two lists of entries, the pings and the pongs, and polls the
venue once per turn. Numbers that the loop reads from an entry may be missing:
`none` stands for a property that is absent, `undefined` or `NaN`. The venue is
reached through `ex.api`; a call returns an answer or fails and leaves the venue
in a next state. -/

/-- An entry of the ping or pong list as the loop reads it: `order` (`none` is
`null`), `side`, `price` and `amount`. The bare `{ order: null }` that
`placeLimitOrder` returns after a failure has all four `none`. -/
structure PingPongEntry (ω : Type) where
  order : Option ω
  side : Option String
  price : Option ℚ
  amount : Option ℚ
  deriving DecidableEq

/-- JavaScript `a + b` on numbers that may be `NaN`. -/
def jsAdd (a b : Option ℚ) : Option ℚ :=
  match a, b with
  | some x, some y => some (x + y)
  | _, _ => none

/-- JavaScript `a - b` on numbers that may be `NaN`. -/
def jsSub (a b : Option ℚ) : Option ℚ :=
  match a, b with
  | some x, some y => some (x - y)
  | _, _ => none

/-- JavaScript `Math.abs(a)`. -/
def jsAbs (a : Option ℚ) : Option ℚ :=
  a.map (fun x => |x|)

/-- JavaScript `a <= b`, which is false when either side is `NaN`. -/
def jsLe (a b : Option ℚ) : Bool :=
  match a, b with
  | some x, some y => decide (x ≤ y)
  | _, _ => false

/-- JavaScript `a < b`, which is false when either side is `NaN`. -/
def jsLt (a b : Option ℚ) : Bool :=
  match a, b with
  | some x, some y => decide (x < y)
  | _, _ => false

/-- The arguments of one call `ex.api.limitOrder(symbol, amount, price, side, true, false)`
made by `placeLimitOrder`. -/
structure PingPongCall where
  symbol : String
  amount : Option ℚ
  price : Option ℚ
  side : Option String
  postOnly : Bool
  reduceOnly : Bool
  deriving DecidableEq, Repr

/-- The fields of the parameter object `p` that the loop reads. -/
structure PingPongParams where
  pingStep : ℚ
  pongStep : ℚ
  pongDistance : ℚ
  autoBalanceEvery : ℚ
  endless : Bool
  tag : String
  deriving DecidableEq, Repr

/-- What the loop reaches outside its own file: the driver calls `ex.api.ticker`,
`ex.api.limitOrder`, `ex.api.cancelOrders` and `ex.api.order`, the clock
`Date.now()`, and `ex.waitSeconds`, during which other commands may change the
registry of algorithmic orders. -/
structure PingPongVenue (ν ω : Type) where
  ticker : String → ν → Except JsError Ticker × ν
  limitOrder : PingPongCall → ν → Except JsError ω × ν
  cancelOrders : List (Option ω) → ν → Except JsError Unit × ν
  order : Option ω → ν → Except JsError Order × ν
  dateNow : ν → Int
  waitSeconds : Int → List AlgoOrder → ν → List AlgoOrder × ν

/-- An invocation of one of the two balancing helpers, with the list it was
handed. -/
structure BalancingCall (ω : Type) where
  helper : String
  orders : List (PingPongEntry ω)
  deriving DecidableEq

/-- What the helpers of the loop work on: the venue, the session orders, the
calls of `ex.api.limitOrder` made so far, and the invocations of `shuffleBook`
and `trackPrice` so far. -/
structure Desk (ν ω : Type) where
  venue : ν
  sessionOrders : List (SessionOrder ω)
  placed : List PingPongCall
  balancing : List (BalancingCall ω)

/-- The error of reading a property of `undefined`, as in `orders[0].price` on
an empty list. -/
def typeError : JsError :=
  .error "TypeError: Cannot read properties of undefined"

/-- Source `placeLimitOrder(context, side, price, amount, tag)`: the entry of the
placed order, or the bare `{ order: null }` when the driver failed. -/
def placeLimitOrder {ν ω : Type} (co : PingPongVenue ν ω) (context : Context)
    (side : Option String) (price amount : Option ℚ) (tag : String) (d : Desk ν ω) :
    PingPongEntry ω × Desk ν ω :=
  let call : PingPongCall :=
    { symbol := context.symbol, amount := amount, price := price, side := side,
      postOnly := true, reduceOnly := false }
  match co.limitOrder call d.venue with
  | (.error _, v1) =>
      ({ order := none, side := none, price := none, amount := none },
        { d with venue := v1, placed := d.placed ++ [call] })
  | (.ok order, v1) =>
      ({ order := some order, side := side, price := price, amount := amount },
        { d with venue := v1, placed := d.placed ++ [call],
                 sessionOrders := addToSession d.sessionOrders context.session tag order })

/-- The comparator `(a, b) => (a.side === 'buy' ? b.price - a.price : a.price - b.price)`. -/
def comparePrices {ω : Type} (a b : PingPongEntry ω) : Option ℚ :=
  if a.side = some "buy" then jsSub b.price a.price else jsSub a.price b.price

/-- Whether `sort` may leave `a` before `b`: the comparator does not return a
positive number (`NaN` counts as 0). -/
def mayPrecede {α : Type} (comparefn : α → α → Option ℚ) (a b : α) : Bool :=
  match comparefn a b with
  | some d => decide (d ≤ 0)
  | none => true

/-- The library function `Array.prototype.sort(comparefn)`, as the stable sort
that ECMAScript prescribes: each element is put before the first element of the
sorted rest that it may precede. -/
def jsSort {α : Type} (comparefn : α → α → Option ℚ) (l : List α) : List α :=
  l.insertionSort (fun a b => mayPrecede comparefn a b = true)

/-- Source `cleanOrderList(orders)`. -/
def cleanOrderList {ω : Type} (orders : List (PingPongEntry ω)) : List (PingPongEntry ω) :=
  jsSort comparePrices (orders.filter (fun order => order.order.isSome))

/-- The mid price `(parseFloat(ticker.bid) + parseFloat(ticker.ask)) / 2`. -/
def midPrice (rt : Runtime) (ticker : Ticker) : ℚ :=
  (rt.parseFloat ticker.bid + rt.parseFloat ticker.ask) / 2

/-- Source `shuffleBook(context, p, orders, stepSize)`. Reading `orders[0].price`
fails when the list is empty, before the comparison of the gap and again after
`orders.pop()`. -/
def shuffleBook {ν ω : Type} (rt : Runtime) (co : PingPongVenue ν ω) (context : Context)
    (p : PingPongParams) (orders : List (PingPongEntry ω)) (stepSize : ℚ) (d : Desk ν ω) :
    Except JsError (List (PingPongEntry ω)) × Desk ν ω :=
  let d0 : Desk ν ω :=
    { d with balancing := d.balancing ++ [{ helper := "shuffleBook", orders := orders }] }
  match co.ticker context.symbol d0.venue with
  | (.error e, v1) => (.error e, { d0 with venue := v1 })
  | (.ok ticker, v1) =>
      match orders with
      | [] => (.error typeError, { d0 with venue := v1 })
      | first :: more =>
          let gap := jsAbs (jsSub first.price (some (midPrice rt ticker)))
          if jsLe gap (some p.pongDistance) then
            (.ok orders, { d0 with venue := v1 })
          else
            let toCancel := (first :: more).getLast (List.cons_ne_nil first more)
            let rest := (first :: more).dropLast
            match co.cancelOrders [toCancel.order] v1 with
            | (.error e, v2) => (.error e, { d0 with venue := v2 })
            | (.ok _, v2) =>
                match rest with
                | [] => (.error typeError, { d0 with venue := v2 })
                | top :: _ =>
                    let price :=
                      if toCancel.side = some "buy" then jsAdd top.price (some stepSize)
                      else jsSub top.price (some stepSize)
                    let placed := placeLimitOrder co context toCancel.side price toCancel.amount
                      p.tag { d0 with venue := v2 }
                    (.ok (cleanOrderList (rest ++ [placed.1])), placed.2)

/-- Source `trackPrice(context, p, orders, stepSize, dist)`; `dist` is only
logged. Reading `orders[0].price` fails when the list is empty, and reading
`orders[0].side` fails when it is empty after `orders.pop()`. -/
def trackPrice {ν ω : Type} (rt : Runtime) (co : PingPongVenue ν ω) (context : Context)
    (p : PingPongParams) (orders : List (PingPongEntry ω)) (stepSize : ℚ) (d : Desk ν ω) :
    Except JsError (List (PingPongEntry ω)) × Desk ν ω :=
  let d0 : Desk ν ω :=
    { d with balancing := d.balancing ++ [{ helper := "trackPrice", orders := orders }] }
  match co.ticker context.symbol d0.venue with
  | (.error e, v1) => (.error e, { d0 with venue := v1 })
  | (.ok ticker, v1) =>
      match orders with
      | [] => (.error typeError, { d0 with venue := v1 })
      | first :: more =>
          let gap := jsAbs (jsSub first.price (some (midPrice rt ticker)))
          let currentStep :=
            if first.side = some "buy" then jsSub gap (some stepSize)
            else jsAdd gap (some stepSize)
          if jsLt (some stepSize) gap && decide (first.price ≠ currentStep)
              && jsLt gap (some 100) then
            let toCancel := (first :: more).getLast (List.cons_ne_nil first more)
            let rest := (first :: more).dropLast
            match co.cancelOrders [toCancel.order] v1 with
            | (.error e, v2) => (.error e, { d0 with venue := v2 })
            | (.ok _, v2) =>
                match rest with
                | [] => (.error typeError, { d0 with venue := v2 })
                | top :: _ =>
                    let price :=
                      if top.side = some "buy" then jsAdd top.price (some stepSize)
                      else jsSub top.price (some stepSize)
                    let placed := placeLimitOrder co context toCancel.side price toCancel.amount
                      p.tag { d0 with venue := v2 }
                    (.ok (cleanOrderList (rest ++ [placed.1])), placed.2)
          else
            (.ok orders, { d0 with venue := v1 })

/-- The variables of the loop: the desk, the registry of algorithmic orders, the
two lists, `waitTime`, `lastAutoBalance`, and the arguments of `ex.waitSeconds`
so far. -/
structure PingPong (ν ω : Type) where
  desk : Desk ν ω
  registry : List AlgoOrder
  pings : List (PingPongEntry ω)
  pongs : List (PingPongEntry ω)
  waitTime : Int
  lastAutoBalance : Int
  waits : List Int

/-- Lines 165 to 173: when the algorithmic order is found cancelled, reset the
wait, cancel every ping and pong at the venue and empty both lists. -/
def observeCancellation {ν ω : Type} (co : PingPongVenue ν ω) (minPollingDelay : Int)
    (id : String) (s : PingPong ν ω) : Option JsError × PingPong ν ω :=
  if isAlgoOrderCancelled s.registry id then
    match co.cancelOrders (s.pings.map (fun order => order.order)) s.desk.venue with
    | (.error e, v1) =>
        (some e, { s with waitTime := minPollingDelay, desk := { s.desk with venue := v1 } })
    | (.ok _, v1) =>
        match co.cancelOrders (s.pongs.map (fun order => order.order)) v1 with
        | (.error e, v2) =>
            (some e, { s with waitTime := minPollingDelay, desk := { s.desk with venue := v2 } })
        | (.ok _, v2) =>
            (none, { s with waitTime := minPollingDelay, desk := { s.desk with venue := v2 },
                            pings := [], pongs := [] })
  else
    (none, s)

/-- Lines 176 to 196, the check of the pings: sort them, ask the venue for the
first, and when it is filled push a replacement computed from the last, clean
the pongs, drop the first and, under `flow`, shuffle the pongs. With no pings
(`pings.length` is 0, and so is the length of the sorted list) nothing is done. -/
def checkPings {ν ω : Type} (rt : Runtime) (co : PingPongVenue ν ω) (minPollingDelay : Int)
    (context : Context) (p : PingPongParams) (autoBalance : String) (s : PingPong ν ω) :
    Option JsError × PingPong ν ω :=
  match jsSort comparePrices s.pings with
  | [] => (none, s)
  | firstPing :: others =>
      let bottomPing := (firstPing :: others).getLast (List.cons_ne_nil firstPing others)
      match co.order firstPing.order s.desk.venue with
      | (.error e, v1) =>
          (some e, { s with pings := firstPing :: others, desk := { s.desk with venue := v1 } })
      | (.ok orderInfo, v1) =>
          if orderInfo.is_filled then
            let placed := placeLimitOrder co context bottomPing.side
              (jsSub bottomPing.price (some p.pingStep)) bottomPing.amount p.tag
              { s.desk with venue := v1 }
            let pings1 := others ++ [placed.1]
            let pongs1 := cleanOrderList s.pongs
            if autoBalance = "flow" then
              match shuffleBook rt co context p pongs1 p.pongStep placed.2 with
              | (.error e, d3) => (some e, { s with desk := d3, pings := pings1, pongs := pongs1 })
              | (.ok pongs2, d3) =>
                  (none, { s with desk := d3, pings := pings1, pongs := pongs2,
                                  waitTime := minPollingDelay })
            else
              (none, { s with desk := placed.2, pings := pings1, pongs := pongs1,
                              waitTime := minPollingDelay })
          else if !orderInfo.is_open then
            (none, { s with pings := others, desk := { s.desk with venue := v1 },
                            waitTime := minPollingDelay })
          else
            (none, { s with pings := firstPing :: others, desk := { s.desk with venue := v1 } })

/-- Lines 198 to 218, the check of the pongs, made only under `p.endless`. -/
def checkPongs {ν ω : Type} (rt : Runtime) (co : PingPongVenue ν ω) (minPollingDelay : Int)
    (context : Context) (p : PingPongParams) (autoBalance : String) (s : PingPong ν ω) :
    Option JsError × PingPong ν ω :=
  if p.endless then
    match jsSort comparePrices s.pongs with
    | [] => (none, s)
    | firstPong :: others =>
        let topPong := (firstPong :: others).getLast (List.cons_ne_nil firstPong others)
        match co.order firstPong.order s.desk.venue with
        | (.error e, v1) =>
            (some e, { s with pongs := firstPong :: others, desk := { s.desk with venue := v1 } })
        | (.ok orderInfo, v1) =>
            if orderInfo.is_filled then
              let placed := placeLimitOrder co context topPong.side
                (jsAdd topPong.price (some p.pongStep)) topPong.amount p.tag
                { s.desk with venue := v1 }
              let pongs1 := others ++ [placed.1]
              let pings1 := cleanOrderList s.pings
              if autoBalance = "flow" then
                match shuffleBook rt co context p pings1 p.pingStep placed.2 with
                | (.error e, d3) =>
                    (some e, { s with desk := d3, pings := pings1, pongs := pongs1 })
                | (.ok pings2, d3) =>
                    (none, { s with desk := d3, pings := pings2, pongs := pongs1,
                                    waitTime := minPollingDelay })
              else
                (none, { s with desk := placed.2, pings := pings1, pongs := pongs1,
                                waitTime := minPollingDelay })
            else if !orderInfo.is_open then
              (none, { s with pongs := others, desk := { s.desk with venue := v1 },
                              waitTime := minPollingDelay })
            else
              (none, { s with pongs := firstPong :: others,
                              desk := { s.desk with venue := v1 } })
  else
    (none, s)

/-- Lines 220 to 237, the re-balancing under `shuffle`. -/
def rebalance {ν ω : Type} (rt : Runtime) (co : PingPongVenue ν ω) (minPollingDelay : Int)
    (context : Context) (p : PingPongParams) (autoBalance : String) (s : PingPong ν ω) :
    Option JsError × PingPong ν ω :=
  let couldAdjustPongs : Bool := s.pings.length == 0 && decide (s.pongs.length > 0)
  let couldAdjustPings : Bool := s.pongs.length == 0 && decide (s.pings.length > 0)
  let isIdle : Bool := decide (s.waitTime > minPollingDelay)
  let timeSinceLastAutoBalance : ℚ :=
    ((co.dateNow s.desk.venue - s.lastAutoBalance : Int) : ℚ) / 1000
  let waitedLongEnough : Bool := decide (timeSinceLastAutoBalance > p.autoBalanceEvery)
  if isIdle && autoBalance == "shuffle" && waitedLongEnough
      && (couldAdjustPings || couldAdjustPongs) then
    if couldAdjustPings then
      match shuffleBook rt co context p s.pings p.pingStep s.desk with
      | (.error e, d1) => (some e, { s with desk := d1 })
      | (.ok pings1, d1) =>
          (none, { s with desk := d1, pings := pings1, lastAutoBalance := co.dateNow d1.venue })
    else
      match shuffleBook rt co context p s.pongs p.pongStep s.desk with
      | (.error e, d1) => (some e, { s with desk := d1 })
      | (.ok pongs1, d1) =>
          (none, { s with desk := d1, pongs := pongs1, lastAutoBalance := co.dateNow d1.venue })
  else
    (none, s)

/-- Lines 239 to 248, the tracking under `track`: first the pings, then the
pongs. -/
def trackBooks {ν ω : Type} (rt : Runtime) (co : PingPongVenue ν ω) (context : Context)
    (p : PingPongParams) (autoBalance : String) (s : PingPong ν ω) :
    Option JsError × PingPong ν ω :=
  if autoBalance = "track" then
    match trackPrice rt co context p s.pings p.pingStep s.desk with
    | (.error e, d1) => (some e, { s with desk := d1 })
    | (.ok pings1, d1) =>
        match trackPrice rt co context p s.pongs p.pongStep d1 with
        | (.error e, d2) => (some e, { s with desk := d2, pings := pings1 })
        | (.ok pongs1, d2) => (none, { s with desk := d2, pings := pings1, pongs := pongs1 })
  else
    (none, s)

/-- Lines 250 to 252: `await ex.waitSeconds(waitTime)`, then
`if (waitTime < ex.maxPollingDelay) waitTime += 1`. -/
def waitAndBackOff {ν ω : Type} (co : PingPongVenue ν ω) (maxPollingDelay : Int)
    (s : PingPong ν ω) : Option JsError × PingPong ν ω :=
  let waited := co.waitSeconds s.waitTime s.registry s.desk.venue
  (none, { s with desk := { s.desk with venue := waited.2 }, registry := waited.1,
                  waits := s.waits ++ [s.waitTime],
                  waitTime := if s.waitTime < maxPollingDelay then s.waitTime + 1
                    else s.waitTime })

/-- One step after another: the second step runs when the first did not
throw. -/
def andThen {σ : Type} (first second : σ → Option JsError × σ) (s : σ) : Option JsError × σ :=
  match first s with
  | (some e, s1) => (some e, s1)
  | (none, s1) => second s1

/-- One turn of the `while` loop, lines 165 to 252. -/
def pingPongTurn {ν ω : Type} (rt : Runtime) (co : PingPongVenue ν ω)
    (minPollingDelay maxPollingDelay : Int) (id : String) (context : Context)
    (p : PingPongParams) (autoBalance : String) : PingPong ν ω → Option JsError × PingPong ν ω :=
  andThen (observeCancellation co minPollingDelay id)
    (andThen (checkPings rt co minPollingDelay context p autoBalance)
      (andThen (checkPongs rt co minPollingDelay context p autoBalance)
        (andThen (rebalance rt co minPollingDelay context p autoBalance)
          (andThen (trackBooks rt co context p autoBalance)
            (waitAndBackOff co maxPollingDelay)))))

/-- The loop `while ((p.endless && pongs.length) || pings.length)`, cut off after
`fuel` turns. -/
def pingPongTurns {ν ω : Type} (rt : Runtime) (co : PingPongVenue ν ω)
    (minPollingDelay maxPollingDelay : Int) (id : String) (context : Context)
    (p : PingPongParams) (autoBalance : String) :
    Nat → PingPong ν ω → LoopOutcome × PingPong ν ω
  | 0, s =>
      (if (p.endless && s.pongs.length != 0) || s.pings.length != 0 then .stillRunning
        else .returned, s)
  | fuel + 1, s =>
      if (p.endless && s.pongs.length != 0) || s.pings.length != 0 then
        match pingPongTurn rt co minPollingDelay maxPollingDelay id context p autoBalance s with
        | (some e, s1) => (.threw e, s1)
        | (none, s1) =>
            pingPongTurns rt co minPollingDelay maxPollingDelay id context p autoBalance fuel s1
      else
        (.returned, s)

/-- Source `ping_pong_loop.js`, the exported function, with the loop cut off
after `fuel` turns. `id` is the value of `uuid()`; a side that is `undefined` is
registered as the empty text, which no selector of `cancelAlgorithmicOrders`
matches. -/
def pingPongLoop {ν ω : Type} (fuel : Nat) (rt : Runtime) (co : PingPongVenue ν ω)
    (minPollingDelay maxPollingDelay : Int) (id : String) (context : Context)
    (startingPings startingPongs : List (PingPongEntry ω)) (p : PingPongParams)
    (autoBalance : String) (registry : List AlgoOrder) (d : Desk ν ω) :
    LoopOutcome × PingPong ν ω :=
  match co.ticker context.symbol d.venue with
  | (.error e, v1) =>
      (.threw e, { desk := { d with venue := v1 }, registry := registry,
                   pings := startingPings, pongs := startingPongs,
                   waitTime := minPollingDelay, lastAutoBalance := 0, waits := [] })
  | (.ok _, v1) =>
      let pongs := cleanOrderList startingPongs
      let pings := cleanOrderList startingPings
      let defaultSide : Option String :=
        match pings, pongs with
        | ping :: _, _ => ping.side
        | [], pong :: _ => pong.side
        | [], [] => some "buy"
      let started : PingPong ν ω :=
        { desk := { d with venue := v1 },
          registry := startAlgoOrder registry id (defaultSide.getD "") context.session
            (some p.tag),
          pings := pings, pongs := pongs, waitTime := minPollingDelay,
          lastAutoBalance := co.dateNow v1, waits := [] }
      match pingPongTurns rt co minPollingDelay maxPollingDelay id context p autoBalance fuel
          started with
      | (.returned, s) => (.returned, { s with registry := endAlgoOrder s.registry id })
      | (outcome, s) => (outcome, s)

/-! ## Sample entries and venues for the ping-pong loop -/

/-- Three buy entries out of order, and the bare entry of a failed placement. -/
def sampleBuyEntries : List (PingPongEntry Nat) :=
  [{ order := some 1, side := some "buy", price := some 2900, amount := some 1 },
   { order := none, side := none, price := none, amount := none },
   { order := some 2, side := some "buy", price := some 2950, amount := some 1 },
   { order := some 3, side := some "buy", price := some 2850, amount := some 1 }]

/-- Three sell entries above the market, out of order. -/
def sampleSellEntries : List (PingPongEntry Nat) :=
  [{ order := some 3, side := some "sell", price := some 3120, amount := some 1 },
   { order := some 1, side := some "sell", price := some 3100, amount := some 1 },
   { order := some 2, side := some "sell", price := some 3110, amount := some 1 }]

/-- A sample venue for the loop: bid 3000 and ask 3050, a driver that accepts
every order and answers with 100 plus the number of the request, order 1 filled
and every other order open, a clock that moves on by 1000 seconds per request,
and nothing else touching the registry during a wait. -/
def samplePingPongVenue : PingPongVenue Nat Nat :=
  { ticker := fun _ n => (.ok { bid := "3000", ask := "3050" }, n + 1),
    limitOrder := fun _ n => (.ok (100 + n), n + 1),
    cancelOrders := fun _ n => (.ok (), n + 1),
    order := fun o n =>
      (.ok { id := "", side := "", amount := 1, remaining := 0, executed := 0,
             is_filled := o == some 1, is_open := o != some 1 }, n + 1),
    dateNow := fun n => 1000000 * n,
    waitSeconds := fun _ reg n => (reg, n + 1) }

/-- The same venue, where during every wait some other command cancels all
algorithmic orders. -/
def cancellingPingPongVenue : PingPongVenue Nat Nat :=
  { samplePingPongVenue with
    waitSeconds := fun _ reg n => (cancelAlgorithmicOrders reg "all" none "", n + 1) }

/-- Sample parameters: steps of 10, a pong distance of 50, re-balancing after 1
second, not endless. -/
def sampleParams : PingPongParams :=
  { pingStep := 10, pongStep := 10, pongDistance := 50, autoBalanceEvery := 1,
    endless := false, tag := "pp" }

/-- A desk on which nothing has happened yet. -/
def freshDesk : Desk Nat Nat :=
  { venue := 0, sessionOrders := [], placed := [], balancing := [] }

/-- The loop variables with the three sample sells as pings and no pongs. -/
def sellPingsState : PingPong Nat Nat :=
  { desk := freshDesk, registry := [], pings := sampleSellEntries, pongs := [],
    waitTime := 0, lastAutoBalance := 0, waits := [] }

/-- One open buy ping close to the mid price of 3025. -/
def nearBuyPing : PingPongEntry Nat :=
  { order := some 2, side := some "buy", price := some 3020, amount := some 1 }

/-- One open buy ping far below the mid price. -/
def farBuyPing : PingPongEntry Nat :=
  { order := some 2, side := some "buy", price := some 2900, amount := some 1 }

/-- One open sell pong close to the mid price of 3025. -/
def nearSellPong : PingPongEntry Nat :=
  { order := some 3, side := some "sell", price := some 3030, amount := some 1 }

/-- Every interval of the list lies between the two polling delays. -/
def WaitsWithin (minPollingDelay maxPollingDelay : Int) (waits : List Int) : Prop :=
  ∀ w ∈ waits, minPollingDelay ≤ w ∧ w ≤ maxPollingDelay

/-! ## Sample venues whose lookups fail -/

/-- The sample venue with a ticker that cannot be looked up. -/
def tickerDownCollaborators : Collaborators Nat Nat :=
  { sampleCollaborators with ticker := fun _ n => (.error (.error "ticker unavailable"), n + 1) }

/-- The sample venue with balances that cannot be looked up. -/
def balancesDownCollaborators : Collaborators Nat Nat :=
  { sampleCollaborators with
    accountBalances := fun _ n => (.error (.error "balances unavailable"), n + 1) }

/-! ## Properties of one scheduler pass -/

theorem passFrom_updateWait {σ ρ α : Type} (minDelay : Int) (items : List (BackgroundTask σ ρ α)) :
    ∀ (pos : Nat) (reg : List AlgoOrder) (w : Int),
      (passFrom minDelay pos items reg w).updateWait =
        if (passFrom minDelay pos items reg w).log.any Call.returnedKeepGoing then minDelay
        else w := by
  induction items with
  | nil => intro pos reg w; simp [passFrom]
  | cons item rest ih =>
    intro pos reg w
    unfold passFrom
    split
    · split
      · simp [Call.returnedKeepGoing]
      · simp [Call.returnedKeepGoing, ih]
    · split
      · simp [Call.returnedKeepGoing]
      · rename_i state s hbe
        cases state <;> simp [Call.returnedKeepGoing, ih]

theorem passFrom_threw {σ ρ α : Type} (minDelay : Int) (items : List (BackgroundTask σ ρ α)) :
    ∀ (pos : Nat) (reg : List AlgoOrder) (w : Int),
      ((passFrom minDelay pos items reg w).threw = none ↔
        (passFrom minDelay pos items reg w).log.all Call.returnedNormally = true) := by
  induction items with
  | nil => intro pos reg w; simp [passFrom]
  | cons item rest ih =>
    intro pos reg w
    unfold passFrom
    split
    · split
      · simp [Call.returnedNormally]
      · simp [Call.returnedNormally, ih]
    · split
      · simp [Call.returnedNormally]
      · simp [Call.returnedNormally, ih]

theorem mem_endAlgoOrder (reg : List AlgoOrder) (id : String) (o : AlgoOrder) :
    o ∈ endAlgoOrder reg id ↔ o ∈ reg ∧ o.id ≠ id := by
  simp [endAlgoOrder]

theorem isAlgoOrderCancelled_of_not_mem (reg : List AlgoOrder) (x : String)
    (h : ∀ o ∈ reg, o.id ≠ x) : isAlgoOrderCancelled reg x = true := by
  unfold isAlgoOrderCancelled
  have hnone : reg.find? (fun item => item.id == x) = none := by
    rw [List.find?_eq_none]
    intro o ho
    simpa using h o ho
  rw [hnone]

theorem find?_endAlgoOrder_of_ne (reg : List AlgoOrder) (x y : String) (hxy : x ≠ y) :
    (endAlgoOrder reg y).find? (fun item => item.id == x) =
      reg.find? (fun item => item.id == x) := by
  unfold endAlgoOrder
  rw [List.find?_filter]
  congr 1
  funext a
  by_cases hx : a.id = x
  · have hy : a.id ≠ y := fun h => hxy (hx ▸ h)
    simp [hx, hy, hxy]
  · simp [hx]

theorem isAlgoOrderCancelled_endAlgoOrder (reg : List AlgoOrder) (x y : String)
    (h : isAlgoOrderCancelled reg x = true) :
    isAlgoOrderCancelled (endAlgoOrder reg y) x = true := by
  by_cases hxy : x = y
  · subst hxy
    apply isAlgoOrderCancelled_of_not_mem
    intro o ho
    exact ((mem_endAlgoOrder reg x o).mp ho).2
  · unfold isAlgoOrderCancelled at h ⊢
    rw [find?_endAlgoOrder_of_ne reg x y hxy]
    exact h

theorem passFrom_ids {σ ρ α : Type} (minDelay : Int) (items : List (BackgroundTask σ ρ α)) :
    ∀ (pos : Nat) (reg : List AlgoOrder) (w : Int),
      (passFrom minDelay pos items reg w).tasks.map (fun b => b.task.id) =
        items.map (fun b => b.task.id) := by
  induction items with
  | nil => intro pos reg w; simp [passFrom]
  | cons item rest ih =>
    intro pos reg w
    unfold passFrom
    split
    · split
      · simp
      · simp [ih]
    · split
      · simp
      · simp [ih]

theorem passFrom_registry_subset {σ ρ α : Type} (minDelay : Int)
    (items : List (BackgroundTask σ ρ α)) :
    ∀ (pos : Nat) (reg : List AlgoOrder) (w : Int),
      ∀ o ∈ (passFrom minDelay pos items reg w).registry, o ∈ reg := by
  induction items with
  | nil => intro pos reg w o ho; simpa [passFrom] using ho
  | cons item rest ih =>
    intro pos reg w o
    unfold passFrom
    split
    · split
      · intro ho; simpa using ho
      · intro ho
        exact ((mem_endAlgoOrder reg item.task.id o).mp (ih _ _ _ o ho)).1
    · split
      · intro ho; simpa using ho
      · rename_i state s hbe
        intro ho
        have hin := ih _ _ _ o ho
        cases state
        · simpa using hin
        · exact ((mem_endAlgoOrder reg item.task.id o).mp (by simpa using hin)).1

theorem passFrom_finished_unregistered {σ ρ α : Type} (minDelay : Int)
    (items : List (BackgroundTask σ ρ α)) :
    ∀ (pos : Nat) (reg : List AlgoOrder) (w : Int),
      (passFrom minDelay pos items reg w).threw = none →
      ∀ b ∈ (passFrom minDelay pos items reg w).tasks, b.state = CommandState.finished →
      ∀ o ∈ (passFrom minDelay pos items reg w).registry, o.id ≠ b.task.id := by
  induction items with
  | nil => intro pos reg w _ b hb; simp [passFrom] at hb
  | cons item rest ih =>
    intro pos reg w
    unfold passFrom
    split
    · split
      · intro hthrew; simp at hthrew
      · intro hthrew b hb hfin o ho
        simp only [List.mem_cons] at hb
        rcases hb with hb | hb
        · subst hb
          have hin := passFrom_registry_subset minDelay rest _ _ _ o ho
          exact ((mem_endAlgoOrder reg item.task.id o).mp hin).2
        · exact ih _ _ _ hthrew b hb hfin o ho
    · split
      · intro hthrew; simp at hthrew
      · rename_i state s hbe
        intro hthrew b hb hfin o ho
        simp only [List.mem_cons] at hb
        rcases hb with hb | hb
        · subst hb
          have hst : state = CommandState.finished := hfin
          subst hst
          have hin := passFrom_registry_subset minDelay rest _ _ _ o ho
          exact ((mem_endAlgoOrder reg item.task.id o).mp (by simpa using hin)).2
        · exact ih _ _ _ hthrew b hb hfin o ho

theorem passFrom_log_pos_ge {σ ρ α : Type} (minDelay : Int)
    (items : List (BackgroundTask σ ρ α)) :
    ∀ (pos : Nat) (reg : List AlgoOrder) (w : Int),
      ∀ c ∈ (passFrom minDelay pos items reg w).log, pos ≤ c.pos := by
  induction items with
  | nil => intro pos reg w c hc; simp [passFrom] at hc
  | cons item rest ih =>
    intro pos reg w c
    unfold passFrom
    split
    · split
      · intro hc
        simp only [List.mem_singleton] at hc
        subst hc
        simp [Call.pos]
      · intro hc
        simp only [List.mem_cons] at hc
        rcases hc with hc | hc
        · subst hc
          simp [Call.pos]
        · exact Nat.le_of_succ_le (ih _ _ _ c hc)
    · split
      · intro hc
        simp only [List.mem_singleton] at hc
        subst hc
        simp [Call.pos]
      · intro hc
        simp only [List.mem_cons] at hc
        rcases hc with hc | hc
        · subst hc
          simp [Call.pos]
        · exact Nat.le_of_succ_le (ih _ _ _ c hc)

theorem countP_eq_zero_of_pos_lt (log : List Call) (q : Call → Bool) (p : Nat)
    (h : ∀ c ∈ log, p < c.pos) :
    log.countP (fun c => q c && c.pos == p) = 0 := by
  rw [List.countP_eq_zero]
  intro c hc
  have := h c hc
  have hne : c.pos ≠ p := by omega
  simp [hne]

theorem passFrom_cancelled_finished {σ ρ α : Type} (minDelay : Int) (x : String)
    (items : List (BackgroundTask σ ρ α)) :
    ∀ (pos : Nat) (reg : List AlgoOrder) (w : Int),
      isAlgoOrderCancelled reg x = true →
      (passFrom minDelay pos items reg w).threw = none →
      ∀ b ∈ (passFrom minDelay pos items reg w).tasks, b.task.id = x →
        b.state = CommandState.finished := by
  induction items with
  | nil => intro pos reg w _ _ b hb; simp [passFrom] at hb
  | cons item rest ih =>
    intro pos reg w hcan
    unfold passFrom
    split
    · split
      · intro hthrew; simp at hthrew
      · intro hthrew b hb hid
        simp only [List.mem_cons] at hb
        rcases hb with hb | hb
        · subst hb; rfl
        · exact ih _ _ _ (isAlgoOrderCancelled_endAlgoOrder reg x _ hcan) hthrew b hb hid
    · rename_i hnot
      split
      · intro hthrew; simp at hthrew
      · rename_i state s hbe
        intro hthrew b hb hid
        simp only [List.mem_cons] at hb
        rcases hb with hb | hb
        · subst hb
          have hid2 : item.task.id = x := hid
          rw [hid2] at hnot
          exact absurd hcan hnot
        · cases state
          · exact ih _ _ _ (by simpa using hcan) hthrew b hb hid
          · exact ih _ _ _ (by simpa using isAlgoOrderCancelled_endAlgoOrder reg x _ hcan)
              hthrew b hb hid

theorem passFrom_cancelled_at {σ ρ α : Type} (minDelay : Int) (x : String)
    (items : List (BackgroundTask σ ρ α)) :
    ∀ (pos : Nat) (reg : List AlgoOrder) (w : Int) (i : Nat) (item : BackgroundTask σ ρ α),
      isAlgoOrderCancelled reg x = true →
      (passFrom minDelay pos items reg w).threw = none →
      items[i]? = some item → item.task.id = x →
      (passFrom minDelay pos items reg w).log.countP
          (fun c => c.isOnCancelled && c.pos == pos + i) = 1
      ∧ (passFrom minDelay pos items reg w).log.countP
          (fun c => c.isBackgroundExecute && c.pos == pos + i) = 0
      ∧ ∃ b, (passFrom minDelay pos items reg w).tasks[i]? = some b ∧ b.task.id = x
          ∧ b.state = CommandState.finished := by
  induction items with
  | nil => intro pos reg w i item _ _ hi; simp at hi
  | cons head rest ih =>
    intro pos reg w i item hcan
    cases i with
    | zero =>
      intro hthrew hi hid
      simp only [List.getElem?_cons_zero, Option.some.injEq] at hi
      subst hi
      have hc : isAlgoOrderCancelled reg head.task.id = true := hid ▸ hcan
      unfold passFrom at hthrew ⊢
      rw [if_pos hc] at hthrew ⊢
      split at hthrew
      · simp at hthrew
      · rename_i u s hoc
        have hlt : ∀ c ∈ (passFrom minDelay (pos + 1) rest (endAlgoOrder reg head.task.id)
            w).log, pos < c.pos := fun c hc => passFrom_log_pos_ge minDelay rest _ _ _ c hc
        have h1 := countP_eq_zero_of_pos_lt _ Call.isOnCancelled pos hlt
        have h2 := countP_eq_zero_of_pos_lt _ Call.isBackgroundExecute pos hlt
        refine ⟨?_, ?_, ?_⟩
        · change List.countP _ (Call.onCancelled pos true :: _) = 1
          rw [List.countP_cons, Nat.add_zero, h1]
          simp [Call.isOnCancelled, Call.pos]
        · change List.countP _ (Call.onCancelled pos true :: _) = 0
          rw [List.countP_cons, Nat.add_zero, h2]
          simp [Call.isBackgroundExecute]
        · exact ⟨{ task := { head.task with st := s }, state := CommandState.finished },
            by simp, hid, rfl⟩
    | succ k =>
      intro hthrew hi hid
      simp only [List.getElem?_cons_succ] at hi
      have hpos : pos + (k + 1) = pos + 1 + k := by omega
      have hne : pos ≠ pos + 1 + k := by omega
      rw [hpos]
      unfold passFrom at hthrew ⊢
      split at hthrew
      · rename_i hc
        rw [if_pos hc]
        split at hthrew
        · simp at hthrew
        · rename_i u s hoc
          have hrec := ih (pos + 1) _ w k item
            (isAlgoOrderCancelled_endAlgoOrder reg x head.task.id hcan) hthrew hi hid
          obtain ⟨h1, h2, b, hb, hbid, hbst⟩ := hrec
          refine ⟨?_, ?_, ?_⟩
          · change List.countP _ (Call.onCancelled pos true :: _) = 1
            rw [List.countP_cons, h1]
            simp [Call.pos, hne]
          · change List.countP _ (Call.onCancelled pos true :: _) = 0
            rw [List.countP_cons, h2]
            simp [Call.pos, hne]
          · exact ⟨b, by simpa using hb, hbid, hbst⟩
      · rename_i hc
        rw [if_neg hc]
        split at hthrew
        · simp at hthrew
        · rename_i state s hbe
          have hreg : isAlgoOrderCancelled
              (if state = CommandState.finished then endAlgoOrder reg head.task.id else reg)
              x = true := by
            split
            · exact isAlgoOrderCancelled_endAlgoOrder reg x head.task.id hcan
            · exact hcan
          have hrec := ih (pos + 1) _ _ k item hreg hthrew hi hid
          obtain ⟨h1, h2, b, hb, hbid, hbst⟩ := hrec
          refine ⟨?_, ?_, ?_⟩
          · change List.countP _ (Call.backgroundExecute pos (some state) :: _) = 1
            rw [List.countP_cons, h1]
            simp [Call.pos, hne]
          · change List.countP _ (Call.backgroundExecute pos (some state) :: _) = 0
            rw [List.countP_cons, h2]
            simp [Call.pos, hne]
          · exact ⟨b, by simpa using hb, hbid, hbst⟩

theorem passResult_returned {σ ρ α : Type} (ex : Exchange σ ρ α) (w : Int) :
    (backgroundTasksSinglePass ex w).returned =
      if (backgroundTasksSinglePass ex w).log.all Call.returnedNormally then
        some (if (backgroundTasksSinglePass ex w).log.any Call.returnedKeepGoing then
          ex.minPollingDelay else w)
      else none := by
  have h1 := passFrom_updateWait ex.minPollingDelay ex.backgroundTasks 0 ex.algorithicOrders w
  have h2 := passFrom_threw ex.minPollingDelay ex.backgroundTasks 0 ex.algorithicOrders w
  unfold PassResult.returned backgroundTasksSinglePass
  cases hthrew : (passFrom ex.minPollingDelay 0 ex.backgroundTasks ex.algorithicOrders w).threw with
  | none =>
    rw [if_pos (h2.mp hthrew), ← h1]
  | some e =>
    have hne : ¬ (passFrom ex.minPollingDelay 0 ex.backgroundTasks ex.algorithicOrders
        w).log.all Call.returnedNormally = true := by
      intro hall
      rw [h2.mpr hall] at hthrew
      cases hthrew
    rw [if_neg hne]

theorem nextPassArgument_eq (maxDelay w : Int) :
    nextPassArgument maxDelay w = if w < maxDelay then w + 1 else maxDelay := by
  unfold nextPassArgument
  by_cases h : w < maxDelay
  · rw [if_pos h, if_neg (by omega)]
  · rw [if_neg h, if_pos (by omega)]

theorem schedulerIteration_log {σ ρ α : Type} (ex : Exchange σ ρ α) (w : Int) :
    (schedulerIteration ex w).log =
      (backgroundTasksSinglePass ex (nextPassArgument ex.maxPollingDelay w)).log := by
  unfold schedulerIteration
  cases h : (backgroundTasksSinglePass ex (nextPassArgument ex.maxPollingDelay w)).threw <;>
    simp [h]

theorem schedulerIteration_threw {σ ρ α : Type} (ex : Exchange σ ρ α) (w : Int) :
    (schedulerIteration ex w).threw =
      (backgroundTasksSinglePass ex (nextPassArgument ex.maxPollingDelay w)).threw := by
  unfold schedulerIteration
  cases h : (backgroundTasksSinglePass ex (nextPassArgument ex.maxPollingDelay w)).threw <;>
    simp [h]

theorem schedulerIteration_nextWait {σ ρ α : Type} (ex : Exchange σ ρ α) (w : Int) :
    (schedulerIteration ex w).nextWait =
      (backgroundTasksSinglePass ex (nextPassArgument ex.maxPollingDelay w)).returned := by
  unfold schedulerIteration IterationResult.nextWait PassResult.returned
  cases h : (backgroundTasksSinglePass ex (nextPassArgument ex.maxPollingDelay w)).threw <;>
    simp [h]

theorem schedulerIteration_single_keepGoing {σ ρ α : Type} (ex : Exchange σ ρ α)
    (t : Task σ ρ α) (s : σ) (c : CommandState) (w : Int)
    (htasks : ex.backgroundTasks = [{ task := { t with st := s }, state := c }])
    (hreg : isAlgoOrderCancelled ex.algorithicOrders t.id = false)
    (hk : ∀ s, (t.backgroundExecute s).1 = .ok .keepGoing) :
    schedulerIteration ex w =
      { threw := none, waitTime := ex.minPollingDelay,
        ex := { ex with backgroundTasks :=
          [{ task := { t with st := (t.backgroundExecute s).2 }, state := .keepGoing }] },
        log := [Call.backgroundExecute 0 (some .keepGoing)] } := by
  have hk1 := hk s
  unfold schedulerIteration backgroundTasksSinglePass
  rw [htasks]
  cases hbe : t.backgroundExecute s with
  | mk r s1 =>
    rw [hbe] at hk1
    simp only at hk1
    subst hk1
    simp [passFrom, hreg, hbe, removeFinished]

theorem backgroundTaskLoop_single_keepGoing {σ ρ α : Type} (t : Task σ ρ α)
    (hk : ∀ s, (t.backgroundExecute s).1 = .ok .keepGoing) (n : Nat) :
    ∀ (ex : Exchange σ ρ α) (s : σ) (c : CommandState),
      ex.backgroundTasks = [{ task := { t with st := s }, state := c }] →
      isAlgoOrderCancelled ex.algorithicOrders t.id = false →
      (backgroundTaskLoop n ex ex.minPollingDelay).waits = List.replicate n ex.minPollingDelay
      ∧ (backgroundTaskLoop n ex ex.minPollingDelay).outcome = LoopOutcome.stillRunning := by
  induction n with
  | zero =>
    intro ex s c htasks _
    simp [backgroundTaskLoop, htasks]
  | succ k ih =>
    intro ex s c htasks hreg
    have hit := schedulerIteration_single_keepGoing ex t s c ex.minPollingDelay htasks hreg hk
    have hrec := ih { ex with backgroundTasks :=
        [{ task := { t with st := (t.backgroundExecute s).2 }, state := .keepGoing }] }
      (t.backgroundExecute s).2 .keepGoing rfl hreg
    unfold backgroundTaskLoop
    rw [htasks, hit]
    simp only [List.length_singleton, Nat.lt_one_iff, if_true, List.replicate_succ]
    exact ⟨by simpa using hrec.1, by simpa using hrec.2⟩

/-- C1: one scheduler pass returns `minPollingDelay` if some `backgroundExecute()`
it called (these are the calls on non-cancelled tasks) returned `keepGoing`, and
its argument otherwise, whenever no call threw; the loop hands the pass `w + 1`
when `w < maxPollingDelay` and `maxPollingDelay` otherwise, so the next wait is
`minPollingDelay` or the previous wait plus one, capped at `maxPollingDelay`. -/
theorem scheduler_next_wait {σ ρ α : Type} (ex : Exchange σ ρ α) (w : Int) :
    (backgroundTasksSinglePass ex w).returned =
        (if (backgroundTasksSinglePass ex w).log.all Call.returnedNormally then
          some (if (backgroundTasksSinglePass ex w).log.any Call.returnedKeepGoing then
            ex.minPollingDelay else w)
        else none)
    ∧ (schedulerIteration ex w).log =
        (backgroundTasksSinglePass ex
          (if w < ex.maxPollingDelay then w + 1 else ex.maxPollingDelay)).log
    ∧ (schedulerIteration ex w).nextWait =
        (backgroundTasksSinglePass ex
          (if w < ex.maxPollingDelay then w + 1 else ex.maxPollingDelay)).returned
    ∧ (schedulerIteration ex w).nextWait =
        (if (schedulerIteration ex w).log.all Call.returnedNormally then
          some (if (schedulerIteration ex w).log.any Call.returnedKeepGoing then
            ex.minPollingDelay
          else min (w + 1) ex.maxPollingDelay)
        else none) := by
  have harg := nextPassArgument_eq ex.maxPollingDelay w
  refine ⟨passResult_returned ex w, ?_, ?_, ?_⟩
  · rw [schedulerIteration_log, harg]
  · rw [schedulerIteration_nextWait, harg]
  · rw [schedulerIteration_nextWait, schedulerIteration_log, passResult_returned, harg]
    have hmin : (if w < ex.maxPollingDelay then w + 1 else ex.maxPollingDelay) =
        min (w + 1) ex.maxPollingDelay := by
      by_cases h : w < ex.maxPollingDelay
      · rw [if_pos h, min_eq_left (by omega)]
      · rw [if_neg h, min_eq_right (by omega)]
    rw [hmin]

/-- C1, at sample exchanges: a task that returns `keepGoing` resets the wait to
`minPollingDelay` (0); when the only task finishes, a wait of 2 becomes 3 and a
wait of 5 or 7 becomes `maxPollingDelay` (5). -/
theorem scheduler_next_wait_witness :
    (schedulerIteration mixedExchange 2).nextWait = some 0
    ∧ (schedulerIteration idleExchange 2).nextWait = some 3
    ∧ (schedulerIteration idleExchange 5).nextWait = some 5
    ∧ (schedulerIteration idleExchange 7).nextWait = some 5 :=
  ⟨(scheduler_next_wait mixedExchange 2).2.2.2.trans (by decide),
   (scheduler_next_wait idleExchange 2).2.2.2.trans (by decide),
   (scheduler_next_wait idleExchange 5).2.2.2.trans (by decide),
   (scheduler_next_wait idleExchange 7).2.2.2.trans (by decide)⟩

/-- C2 (as stated, refuted): with the constructor's delays (0 and 5) and one
registered task whose `backgroundExecute()` always returns `keepGoing`, the
scheduler sleeps 0, 0, 0: the intervals do not increase. -/
theorem keepGoing_task_intervals_do_not_increase :
    (∀ s, ((keepGoingTask "a").backgroundExecute s).1 = .ok .keepGoing)
    ∧ (waitForBackgroundTasks 3 steadyExchange).waits = [0, 0, 0]
    ∧ ¬ BackoffStrictlyIncreases steadyExchange.maxPollingDelay
        (waitForBackgroundTasks 3 steadyExchange).waits := by
  have hw : (waitForBackgroundTasks 3 steadyExchange).waits = [0, 0, 0] := by decide
  refine ⟨fun _ => rfl, hw, ?_⟩
  rw [hw]
  intro h
  have h01 := (List.chain'_cons.mp h.1).1
  exact absurd (h01 (by decide)) (by decide)

/-- C2 (amended): for a scheduler holding a single registered, non-cancelled
background task whose `backgroundExecute()` always returns `keepGoing`, every
poll interval equals `minPollingDelay` and the loop does not end; when
`minPollingDelay <= maxPollingDelay` no interval exceeds `maxPollingDelay`. -/
theorem keepGoing_task_polled_at_min {σ ρ α : Type} (ex : Exchange σ ρ α)
    (t : Task σ ρ α) (n : Nat)
    (hwaiting : ex.isAlreadyWaiting = false)
    (htasks : ex.backgroundTasks = [{ task := t, state := .keepGoing }])
    (hreg : isAlgoOrderCancelled ex.algorithicOrders t.id = false)
    (hk : ∀ s, (t.backgroundExecute s).1 = .ok .keepGoing) :
    (waitForBackgroundTasks n ex).waits = List.replicate n ex.minPollingDelay
    ∧ (waitForBackgroundTasks n ex).outcome = LoopOutcome.stillRunning
    ∧ (ex.minPollingDelay ≤ ex.maxPollingDelay →
        ∀ w ∈ (waitForBackgroundTasks n ex).waits, w ≤ ex.maxPollingDelay) := by
  have hloop := backgroundTaskLoop_single_keepGoing t hk n
    { ex with isAlreadyWaiting := true, backgroundTasks := removeFinished ex.backgroundTasks }
    t.st .keepGoing (by simp [htasks, removeFinished]) hreg
  have hwaits : (waitForBackgroundTasks n ex).waits = List.replicate n ex.minPollingDelay := by
    unfold waitForBackgroundTasks
    simp only [hwaiting, Bool.false_eq_true, if_false]
    rw [hloop.2]
    exact hloop.1
  refine ⟨hwaits, ?_, ?_⟩
  · unfold waitForBackgroundTasks
    simp only [hwaiting, Bool.false_eq_true, if_false]
    rw [hloop.2]
    exact hloop.2
  · intro hle w hw
    rw [hwaits] at hw
    rw [(List.mem_replicate.mp hw).2]
    exact hle

/-- C2 (amended), at the sample exchange: four polls, each after 0 seconds. -/
theorem keepGoing_task_polled_at_min_witness :
    (waitForBackgroundTasks 4 steadyExchange).waits = [0, 0, 0, 0]
    ∧ (waitForBackgroundTasks 4 steadyExchange).outcome = LoopOutcome.stillRunning :=
  ⟨(keepGoing_task_polled_at_min steadyExchange (keepGoingTask "a") 4 rfl rfl (by decide)
      (fun _ => rfl)).1,
   (keepGoing_task_polled_at_min steadyExchange (keepGoingTask "a") 4 rfl rfl (by decide)
      (fun _ => rfl)).2.1⟩

/-- C3: in a scheduler pass that runs to its end, a task whose AlgoOrder is
marked cancelled gets exactly one `onCancelled()` call and no
`backgroundExecute()` call, its recorded state becomes `finished`, and after the
clean-up that follows the pass no background task and no registry entry carries
its id. -/
theorem cancelled_task_is_ended {σ ρ α : Type} (ex : Exchange σ ρ α) (w : Int) (i : Nat)
    (item : BackgroundTask σ ρ α) (order : AlgoOrder)
    (hitem : ex.backgroundTasks[i]? = some item)
    (horder : ex.algorithicOrders.find? (fun a => a.id == item.task.id) = some order)
    (hcancelled : order.cancelled = true)
    (hend : (schedulerIteration ex w).threw = none) :
    (schedulerIteration ex w).log.countP (fun c => c.isOnCancelled && c.pos == i) = 1
    ∧ (schedulerIteration ex w).log.countP (fun c => c.isBackgroundExecute && c.pos == i) = 0
    ∧ (∃ b, (backgroundTasksSinglePass ex (nextPassArgument ex.maxPollingDelay w)).tasks[i]?
          = some b ∧ b.task.id = item.task.id ∧ b.state = CommandState.finished)
    ∧ (∀ b ∈ (schedulerIteration ex w).ex.backgroundTasks, b.task.id ≠ item.task.id)
    ∧ (∀ a ∈ (schedulerIteration ex w).ex.algorithicOrders, a.id ≠ item.task.id) := by
  have hcan : isAlgoOrderCancelled ex.algorithicOrders item.task.id = true := by
    unfold isAlgoOrderCancelled
    rw [horder]
    exact hcancelled
  have hthrew : (backgroundTasksSinglePass ex (nextPassArgument ex.maxPollingDelay w)).threw
      = none := by
    rw [← schedulerIteration_threw]; exact hend
  have hat := passFrom_cancelled_at ex.minPollingDelay item.task.id ex.backgroundTasks 0
    ex.algorithicOrders (nextPassArgument ex.maxPollingDelay w) i item hcan hthrew hitem rfl
  rw [Nat.zero_add] at hat
  obtain ⟨h1, h2, b, hb, hbid, hbst⟩ := hat
  have hbmem : b ∈ (backgroundTasksSinglePass ex
      (nextPassArgument ex.maxPollingDelay w)).tasks := List.getElem?_mem hb
  have hex : (schedulerIteration ex w).ex =
      { ex with
        backgroundTasks := removeFinished
          (backgroundTasksSinglePass ex (nextPassArgument ex.maxPollingDelay w)).tasks,
        algorithicOrders :=
          (backgroundTasksSinglePass ex (nextPassArgument ex.maxPollingDelay w)).registry } := by
    unfold schedulerIteration
    simp only [hthrew]
  refine ⟨?_, ?_, ⟨b, hb, hbid, hbst⟩, ?_, ?_⟩
  · rw [schedulerIteration_log]; exact h1
  · rw [schedulerIteration_log]; exact h2
  · intro b1 hb1 hid
    rw [hex] at hb1
    simp only [removeFinished, List.mem_filter] at hb1
    have hfin := passFrom_cancelled_finished ex.minPollingDelay item.task.id ex.backgroundTasks 0
      ex.algorithicOrders (nextPassArgument ex.maxPollingDelay w) hcan hthrew b1 hb1.1 hid
    simp [hfin] at hb1
  · intro a ha
    rw [hex] at ha
    have := passFrom_finished_unregistered ex.minPollingDelay ex.backgroundTasks 0
      ex.algorithicOrders (nextPassArgument ex.maxPollingDelay w) hthrew b hbmem hbst a ha
    rw [hbid] at this
    exact this

/-- C3, at the sample exchange: the second task is cancelled; the pass calls its
`onCancelled()` once and removes it from both lists. -/
theorem cancelled_task_is_ended_witness :
    (schedulerIteration mixedExchange 0).log =
        [Call.backgroundExecute 0 (some .keepGoing), Call.onCancelled 1 true]
    ∧ (schedulerIteration mixedExchange 0).log.countP
        (fun c => c.isOnCancelled && c.pos == 1) = 1
    ∧ (∀ b ∈ (schedulerIteration mixedExchange 0).ex.backgroundTasks, b.task.id ≠ "b")
    ∧ (∀ a ∈ (schedulerIteration mixedExchange 0).ex.algorithicOrders, a.id ≠ "b") :=
  have h := cancelled_task_is_ended mixedExchange 0 1
    { task := keepGoingTask "b", state := .keepGoing }
    { id := "b", side := "sell", session := "session-1", tag := none, cancelled := true }
    rfl (by decide) rfl (by decide)
  ⟨by decide, h.1, h.2.2.2.1, h.2.2.2.2⟩

theorem schedulerIteration_ex {σ ρ α : Type} (ex : Exchange σ ρ α) (w : Int)
    (hend : (schedulerIteration ex w).threw = none) :
    (schedulerIteration ex w).ex =
      { ex with
        backgroundTasks := removeFinished
          (backgroundTasksSinglePass ex (nextPassArgument ex.maxPollingDelay w)).tasks,
        algorithicOrders :=
          (backgroundTasksSinglePass ex (nextPassArgument ex.maxPollingDelay w)).registry } := by
  have hthrew : (backgroundTasksSinglePass ex (nextPassArgument ex.maxPollingDelay w)).threw
      = none := by
    rw [← schedulerIteration_threw]; exact hend
  unfold schedulerIteration
  simp only [hthrew]

/-- C4: after a turn of the scheduler loop that runs to its end, the background
list is the list the pass recorded (the registered tasks, position by position)
with exactly the entries whose state is not `finished` kept, in registration
order, and the registry holds no entry with the id of a task whose recorded
state is `finished`. -/
theorem iteration_keeps_exactly_unfinished {σ ρ α : Type} (ex : Exchange σ ρ α) (w : Int)
    (hend : (schedulerIteration ex w).threw = none) :
    (backgroundTasksSinglePass ex (nextPassArgument ex.maxPollingDelay w)).tasks.map
        (fun b => b.task.id) = ex.backgroundTasks.map (fun b => b.task.id)
    ∧ (schedulerIteration ex w).ex.backgroundTasks =
        (backgroundTasksSinglePass ex (nextPassArgument ex.maxPollingDelay w)).tasks.filter
          (fun b => b.state != CommandState.finished)
    ∧ (∀ b, b ∈ (schedulerIteration ex w).ex.backgroundTasks ↔
        b ∈ (backgroundTasksSinglePass ex (nextPassArgument ex.maxPollingDelay w)).tasks
          ∧ b.state ≠ CommandState.finished)
    ∧ List.Sublist (schedulerIteration ex w).ex.backgroundTasks
        (backgroundTasksSinglePass ex (nextPassArgument ex.maxPollingDelay w)).tasks
    ∧ List.Sublist ((schedulerIteration ex w).ex.backgroundTasks.map (fun b => b.task.id))
        (ex.backgroundTasks.map (fun b => b.task.id))
    ∧ (∀ b ∈ (backgroundTasksSinglePass ex (nextPassArgument ex.maxPollingDelay w)).tasks,
        b.state = CommandState.finished →
        ∀ a ∈ (schedulerIteration ex w).ex.algorithicOrders, a.id ≠ b.task.id) := by
  have hthrew : (backgroundTasksSinglePass ex (nextPassArgument ex.maxPollingDelay w)).threw
      = none := by
    rw [← schedulerIteration_threw]; exact hend
  have hex := schedulerIteration_ex ex w hend
  have hids := passFrom_ids ex.minPollingDelay ex.backgroundTasks 0 ex.algorithicOrders
    (nextPassArgument ex.maxPollingDelay w)
  have hsub : List.Sublist (schedulerIteration ex w).ex.backgroundTasks
      (backgroundTasksSinglePass ex (nextPassArgument ex.maxPollingDelay w)).tasks := by
    rw [hex]
    exact List.filter_sublist _
  refine ⟨hids, ?_, ?_, hsub, ?_, ?_⟩
  · rw [hex]; rfl
  · intro b
    rw [hex]
    simp [removeFinished, List.mem_filter]
  · have := List.Sublist.map (fun b : BackgroundTask σ ρ α => b.task.id) hsub
    exact hids ▸ this
  · intro b hb hfin a ha
    rw [hex] at ha
    exact passFrom_finished_unregistered ex.minPollingDelay ex.backgroundTasks 0
      ex.algorithicOrders (nextPassArgument ex.maxPollingDelay w) hthrew b hb hfin a ha

/-- C4, at the sample exchange: of the two tasks the first, still `keepGoing`,
stays; the cancelled second one is gone from the list and from the registry. -/
theorem iteration_keeps_exactly_unfinished_witness :
    (schedulerIteration mixedExchange 3).ex.backgroundTasks.map (fun b => b.task.id) = ["a"]
    ∧ (schedulerIteration mixedExchange 3).ex.algorithicOrders.map (fun a => a.id) = ["a"]
    ∧ List.Sublist
        ((schedulerIteration mixedExchange 3).ex.backgroundTasks.map (fun b => b.task.id))
        (mixedExchange.backgroundTasks.map (fun b => b.task.id)) :=
  ⟨by decide, by decide,
    (iteration_keeps_exactly_unfinished mixedExchange 3 (by decide)).2.2.2.2.1⟩

/-- C5 (as stated, refuted): handed an object that is not an `ExchangeCommand`,
`addTask` returns `{}` and not what the object's `results()` returns. -/
theorem addTask_ignores_foreign_object :
    (addTask steadyExchange foreignObject).outcome = .ok .emptyObject
    ∧ (foreignObject.results foreignObject.st).1 = .ok 7
    ∧ (addTask steadyExchange foreignObject).outcome ≠ .ok (.value 7) := by
  refine ⟨rfl, rfl, ?_⟩
  intro h
  have h1 : (addTask steadyExchange foreignObject).outcome = .ok .emptyObject := rfl
  rw [h1] at h
  cases h

/-- C5 (amended): for an object that is not an `ExchangeCommand`, `addTask`
returns `{}` and changes nothing. For an `ExchangeCommand` whose calls return
normally, `addTask` returns `task.results()`; when `execute()` returns
`finished` the exchange is unchanged, and when it returns `keepGoing` exactly one
AlgoOrder `{id: task.id, side: task.args.side or 'buy', session: task.session,
tag: task.args.tag, cancelled: false}` is appended to the registry and exactly
one BackgroundTask for the task, with the state `maybeRunToCompletion` returned,
is appended to the background list. -/
theorem addTask_registers_unfinished {σ ρ α : Type} (ex : Exchange σ ρ α)
    (task : Task σ ρ α) :
    (task.instanceOfExchangeCommand = false →
      addTask ex task = { outcome := .ok .emptyObject, ex := ex })
    ∧ (task.instanceOfExchangeCommand = true →
        ∀ (s s1 : σ) (r : ρ),
          task.execute task.st = (.ok .finished, s) →
          task.results s = (.ok r, s1) →
          addTask ex task = { outcome := .ok (.value r), ex := ex })
    ∧ (task.instanceOfExchangeCommand = true →
        ∀ (s s1 s2 : σ) (state1 : CommandState) (r : ρ),
          task.execute task.st = (.ok .keepGoing, s) →
          task.maybeRunToCompletion .keepGoing s = (.ok state1, s1) →
          task.results s1 = (.ok r, s2) →
          addTask ex task =
            { outcome := .ok (.value r),
              ex := { ex with
                algorithicOrders := ex.algorithicOrders ++
                  [{ id := task.id,
                     side := if task.hasArg "side" s then (task.args s).side else "buy",
                     session := task.session,
                     tag := (task.args s).tag,
                     cancelled := false }],
                backgroundTasks := ex.backgroundTasks ++
                  [{ task := { task with st := s2 }, state := state1 }] } }) := by
  refine ⟨?_, ?_, ?_⟩
  · intro h
    simp [addTask, h]
  · intro h s s1 r hexec hres
    simp [addTask, h, hexec, hres]
  · intro h s s1 s2 state1 r hexec hrun hres
    simp [addTask, h, hexec, hrun, hres, startAlgoOrder, taskSide]

/-- C5 (amended), at sample commands: a command that wants more is registered
(with side `'buy'`, having no side argument) and queued; one that is done leaves
the exchange as it was. -/
theorem addTask_registers_unfinished_witness :
    addTask steadyExchange (keepGoingTask "c") =
      { outcome := .ok (.value 0),
        ex := { steadyExchange with
          algorithicOrders := steadyExchange.algorithicOrders ++
            [{ id := "c", side := "buy", session := "session-1", tag := some "t1",
               cancelled := false }],
          backgroundTasks := steadyExchange.backgroundTasks ++
            [{ task := keepGoingTask "c", state := .keepGoing }] } }
    ∧ addTask steadyExchange (finishedTask "d") =
      { outcome := .ok (.value 1), ex := steadyExchange } :=
  ⟨(addTask_registers_unfinished steadyExchange (keepGoingTask "c")).2.2 rfl 0 0 0 .keepGoing 0
      rfl rfl rfl,
   (addTask_registers_unfinished steadyExchange (finishedTask "d")).2.1 rfl 1 1 1 rfl rfl⟩

theorem cancelAlgorithmicOrders_eq_map (reg : List AlgoOrder) (which : String)
    (tag : Option String) (session : String) :
    cancelAlgorithmicOrders reg which tag session =
      reg.map (fun o =>
        { o with cancelled := o.cancelled || selectorMatches which tag session o }) := by
  unfold cancelAlgorithmicOrders
  apply List.map_congr_left
  intro o _
  obtain ⟨oid, oside, osession, otag, ocancelled⟩ := o
  by_cases hall : which = "all"
  · simp [selectorMatches, hall]
  · by_cases hbuy : which = "buy"
    · by_cases hs : oside = "buy" <;> cases ocancelled <;> simp [selectorMatches, hbuy, hs]
    · by_cases hsell : which = "sell"
      · by_cases hs : oside = "sell" <;> cases ocancelled <;>
          simp [selectorMatches, hsell, hs]
      · by_cases htagged : which = "tagged"
        · by_cases ht : otag = tag <;> cases ocancelled <;>
            simp [selectorMatches, htagged, ht]
        · by_cases hsession : which = "session"
          · by_cases hs : osession = session <;> cases ocancelled <;>
              simp [selectorMatches, hsession, hs]
          · cases ocancelled <;>
              simp [selectorMatches, hall, hbuy, hsell, htagged, hsession]

/-- C6: `cancelAlgorithmicOrders` keeps the registry's length and order and every
entry's id, side, session and tag, and sets each entry's cancelled flag to the
old flag OR the selector match (`all`; `buy` / `sell` with equal side; `tagged`
with equal tag; `session` with equal session). With any other selector the
registry is unchanged, and a flag that is true stays true. -/
theorem cancelAlgorithmicOrders_marks_matching (reg : List AlgoOrder) (which : String)
    (tag : Option String) (session : String) :
    (cancelAlgorithmicOrders reg which tag session).length = reg.length
    ∧ (∀ (i : Nat) (o : AlgoOrder), reg[i]? = some o →
        ∃ o1, (cancelAlgorithmicOrders reg which tag session)[i]? = some o1
          ∧ o1.id = o.id ∧ o1.side = o.side ∧ o1.session = o.session ∧ o1.tag = o.tag
          ∧ o1.cancelled = (o.cancelled || selectorMatches which tag session o)
          ∧ (o.cancelled = true → o1.cancelled = true))
    ∧ (which ≠ "all" ∧ which ≠ "buy" ∧ which ≠ "sell" ∧ which ≠ "tagged" ∧ which ≠ "session" →
        cancelAlgorithmicOrders reg which tag session = reg) := by
  rw [cancelAlgorithmicOrders_eq_map]
  refine ⟨by simp, ?_, ?_⟩
  · intro i o hi
    refine ⟨{ o with cancelled := o.cancelled || selectorMatches which tag session o }, ?_,
      rfl, rfl, rfl, rfl, rfl, ?_⟩
    · simp [List.getElem?_map, hi]
    · intro hc
      simp [hc]
  · rintro ⟨hall, hbuy, hsell, htagged, hsession⟩
    have hno : ∀ o : AlgoOrder, selectorMatches which tag session o = false := by
      intro o
      simp [selectorMatches, hall, hbuy, hsell, htagged, hsession]
    have hid : (fun o : AlgoOrder =>
        ({ o with cancelled := o.cancelled || selectorMatches which tag session o } : AlgoOrder))
        = id := by
      funext o
      simp [hno o]
    rw [hid, List.map_id]

/-- C6, at a sample registry: `sell` marks the sell-side entry, leaves the
buy-side entry alone, and an unknown selector changes nothing. -/
theorem cancelAlgorithmicOrders_marks_matching_witness :
    cancelAlgorithmicOrders steadyExchange.algorithicOrders "Sell" none "session-1"
      = steadyExchange.algorithicOrders
    ∧ (cancelAlgorithmicOrders mixedExchange.algorithicOrders "buy" none "").map
        (fun o => o.cancelled) = [true, true] :=
  ⟨(cancelAlgorithmicOrders_marks_matching steadyExchange.algorithicOrders "Sell" none
      "session-1").2.2 (by decide),
   by decide⟩

theorem executeCommand_outcome {σ ρ α : Type} (toLowerCase : String → String)
    (m : Modules σ ρ α) (ex : Exchange σ ρ α) (symbol name : String)
    (params : List (Param α)) (session : String) :
    (executeCommand toLowerCase m ex symbol name params session).outcome =
      match (executeCommandTry toLowerCase m ex symbol name params session).outcome with
      | .ok r => .ok r
      | .error err => if err.isAbortSequence then .error err else .ok .undefined := by
  unfold executeCommand
  generalize executeCommandTry toLowerCase m ex symbol name params session = r
  obtain ⟨o, ex1⟩ := r
  cases o with
  | ok r => rfl
  | error err =>
    by_cases habort : err.isAbortSequence = true <;> simp [habort]

/-- C7: `executeCommand` rejects exactly when the command it dispatched raised an
`AbortSequenceError`, and then with that same error; after any other error of
the `try` block it resolves with `undefined`; and for a name that is not on the
allow-list it resolves with `undefined` whatever the command modules are,
leaving the exchange as it was (no command is run). -/
theorem executeCommand_rejects_only_on_abort {σ ρ α : Type} (toLowerCase : String → String)
    (m : Modules σ ρ α) (ex : Exchange σ ρ α) (symbol name : String)
    (params : List (Param α)) (session : String) :
    (∀ e, (executeCommand toLowerCase m ex symbol name params session).outcome = .error e ↔
      ∃ toExecute, resolveCommand toLowerCase name = some toExecute
        ∧ (dispatch m ex toExecute { symbol := symbol, session := session } params).outcome
            = .error e
        ∧ e.isAbortSequence = true)
    ∧ (∀ e, (executeCommandTry toLowerCase m ex symbol name params session).outcome = .error e →
        e.isAbortSequence = false →
        (executeCommand toLowerCase m ex symbol name params session).outcome = .ok .undefined)
    ∧ (resolveCommand toLowerCase name = none →
        executeCommand toLowerCase m ex symbol name params session
          = { outcome := .ok .undefined, ex := ex }) := by
  have hout := executeCommand_outcome toLowerCase m ex symbol name params session
  refine ⟨?_, ?_, ?_⟩
  · intro e
    rw [hout]
    unfold executeCommandTry
    cases hres : resolveCommand toLowerCase name with
    | none => simp [JsError.isAbortSequence]
    | some toExecute =>
      simp only [Option.some.injEq, exists_eq_left']
      cases hd : (dispatch m ex toExecute { symbol := symbol, session := session }
          params).outcome with
      | ok r => simp
      | error err =>
        by_cases habort : err.isAbortSequence = true
        · simp only [habort, if_true]
          constructor
          · intro h
            injection h with h
            subst h
            exact ⟨rfl, habort⟩
          · intro h
            exact h.1
        · simp only [habort, if_false]
          constructor
          · intro h
            cases h
          · intro h
            have h1 := h.1
            injection h1 with h1
            subst h1
            exact absurd h.2 habort
  · intro e htry habort
    rw [hout, htry]
    simp [habort]
  · intro hres
    unfold executeCommand executeCommandTry
    simp [hres, JsError.isAbortSequence]

/-- C7, at the sample modules: `STOP` raises an `AbortSequenceError` and
`executeCommand` rejects with it; `LimitOrder` raises a plain error and an
unknown name is not dispatched, and both resolve with `undefined`. -/
theorem executeCommand_rejects_only_on_abort_witness :
    (executeCommand asciiToLowerCase sampleModules steadyExchange "BTCUSD" "STOP" []
        "session-1").outcome = .error (.abortSequence "stop")
    ∧ (executeCommand asciiToLowerCase sampleModules steadyExchange "BTCUSD" "LimitOrder" []
        "session-1").outcome = .ok .undefined
    ∧ (executeCommand asciiToLowerCase sampleModules steadyExchange "BTCUSD" "limit order" []
        "session-1").outcome = .ok .undefined :=
  ⟨((executeCommand_rejects_only_on_abort asciiToLowerCase sampleModules steadyExchange
      "BTCUSD" "STOP" [] "session-1").1 (.abortSequence "stop")).mpr
      ⟨"stop", by decide, by rfl, rfl⟩,
   (executeCommand_rejects_only_on_abort asciiToLowerCase sampleModules steadyExchange
      "BTCUSD" "LimitOrder" [] "session-1").2.1 (.error "Invalid side") (by rfl) rfl,
   congrArg CallResult.outcome
    ((executeCommand_rejects_only_on_abort asciiToLowerCase sampleModules steadyExchange
      "BTCUSD" "limit order" [] "session-1").2.2 (by decide))⟩

theorem lookup_isSome_of_mem_keys {β : Type} (l : List (String × β)) (k : String)
    (h : k ∈ l.map Prod.fst) : (l.lookup k).isSome = true := by
  induction l with
  | nil => simp at h
  | cons kv rest ih =>
    obtain ⟨k1, v⟩ := kv
    by_cases hk : k = k1
    · subst hk
      simp [List.lookup]
    · have hne : (k == k1) = false := by simpa using hk
      simp only [List.map_cons, List.mem_cons] at h
      rcases h with h | h
      · exact absurd h hk
      · simp [List.lookup, hne, ih h]

theorem commands_keys {σ ρ α : Type} (m : Modules σ ρ α) :
    (commands m).map Prod.fst =
      [ "aggressiveEntryOrder", "aggressiveEntry", "stopOrTakeProfitOrder", "stopOrTakeProfit",
        "icebergOrder", "iceberg", "scaledOrder", "scaled", "twapOrder", "twap",
        "pingPongOrder", "pingPong", "marketMakerOrder", "marketMaker",
        "trailingStopLossOrder", "trailingStopLoss", "trailingTakeProfitOrder",
        "trailingTakeProfit", "steppedMarketOrder", "accDisOrder", "limitOrder", "limit",
        "marketOrder", "market", "stopMarketOrder", "stopMarket", "cancelOrders", "cancel",
        "wait", "notify", "balance", "continue", "stop" ] := rfl

theorem whiteList_subset_keys :
    ∀ k ∈ commandWhiteList, k ∈
      [ "aggressiveEntryOrder", "aggressiveEntry", "stopOrTakeProfitOrder", "stopOrTakeProfit",
        "icebergOrder", "iceberg", "scaledOrder", "scaled", "twapOrder", "twap",
        "pingPongOrder", "pingPong", "marketMakerOrder", "marketMaker",
        "trailingStopLossOrder", "trailingStopLoss", "trailingTakeProfitOrder",
        "trailingTakeProfit", "steppedMarketOrder", "accDisOrder", "limitOrder", "limit",
        "marketOrder", "market", "stopMarketOrder", "stopMarket", "cancelOrders", "cancel",
        "wait", "notify", "balance", "continue", "stop" ] := by
  decide

theorem keys_subset_whiteList :
    ∀ k ∈
      [ "aggressiveEntryOrder", "aggressiveEntry", "stopOrTakeProfitOrder", "stopOrTakeProfit",
        "icebergOrder", "iceberg", "scaledOrder", "scaled", "twapOrder", "twap",
        "pingPongOrder", "pingPong", "marketMakerOrder", "marketMaker",
        "trailingStopLossOrder", "trailingStopLoss", "trailingTakeProfitOrder",
        "trailingTakeProfit", "steppedMarketOrder", "accDisOrder", "limitOrder", "limit",
        "marketOrder", "market", "stopMarketOrder", "stopMarket", "cancelOrders", "cancel",
        "wait", "notify", "balance", "continue", "stop" ], k ∈ commandWhiteList := by
  decide

theorem whiteList_lower_nodup : (commandWhiteList.map asciiToLowerCase).Nodup := by
  decide

/-- C8: `executeCommand` resolves the name by comparing lower-cased strings
against the allow-list; the allow-list and the command table hold the same
names, no two allow-list entries are equal ignoring case, every name that
matches an entry resolves, and what it resolves to is the one allow-list entry
that matches, is a key of the command table, and is what gets dispatched. The
hypothesis says that `toLowerCase` lower-cases the (ASCII) allow-list names
letter by letter. -/
theorem allowed_name_dispatches {σ ρ α : Type} (toLowerCase : String → String)
    (hlower : ∀ el ∈ commandWhiteList, toLowerCase el = asciiToLowerCase el)
    (m : Modules σ ρ α) (ex : Exchange σ ρ α) (symbol name : String)
    (params : List (Param α)) (session : String) :
    resolveCommand toLowerCase name =
        commandWhiteList.find? (fun el => toLowerCase el == toLowerCase name)
    ∧ (∀ k, k ∈ commandWhiteList ↔ k ∈ (commands m).map Prod.fst)
    ∧ List.Pairwise (fun a b => toLowerCase a ≠ toLowerCase b) commandWhiteList
    ∧ ((∃ el ∈ commandWhiteList, toLowerCase el = toLowerCase name) →
        (resolveCommand toLowerCase name).isSome = true)
    ∧ (∀ el, resolveCommand toLowerCase name = some el →
        el ∈ commandWhiteList
        ∧ toLowerCase el = toLowerCase name
        ∧ (∀ el1 ∈ commandWhiteList, toLowerCase el1 = toLowerCase name → el1 = el)
        ∧ (∃ command, lookupCommand m el = some command)
        ∧ executeCommandTry toLowerCase m ex symbol name params session =
            dispatch m ex el { symbol := symbol, session := session } params) := by
  have hnodup : (commandWhiteList.map toLowerCase).Nodup := by
    rw [List.map_congr_left hlower]
    exact whiteList_lower_nodup
  have hkeys : ∀ k, k ∈ commandWhiteList ↔ k ∈ (commands m).map Prod.fst := by
    intro k
    rw [commands_keys]
    exact ⟨whiteList_subset_keys k, keys_subset_whiteList k⟩
  refine ⟨rfl, hkeys, ?_, ?_, ?_⟩
  · exact List.pairwise_map.mp hnodup
  · rintro ⟨el, hel, heq⟩
    unfold resolveCommand
    rw [List.find?_isSome]
    exact ⟨el, hel, by simpa using heq⟩
  · intro el hres
    have hmem : el ∈ commandWhiteList := List.mem_of_find?_eq_some hres
    have heq : toLowerCase el = toLowerCase name := by
      have := List.find?_some hres
      simpa using this
    refine ⟨hmem, heq, ?_, ?_, ?_⟩
    · intro el1 hel1 heq1
      exact List.inj_on_of_nodup_map hnodup hel1 hmem (heq1.trans heq.symm)
    · have hsome := lookup_isSome_of_mem_keys (commands m) el ((hkeys el).mp hmem)
      exact Option.isSome_iff_exists.mp hsome
    · unfold executeCommandTry
      rw [hres]

/-- C8, with letter-by-letter lower-casing: `PINGPONG` resolves to the allow-list
entry `pingPong`, which is a key of the command table. -/
theorem allowed_name_dispatches_witness :
    resolveCommand asciiToLowerCase "PINGPONG" = some "pingPong"
    ∧ "pingPong" ∈ commandWhiteList
    ∧ (∃ command, lookupCommand sampleModules "pingPong" = some command) :=
  have h := (allowed_name_dispatches asciiToLowerCase (fun _ _ => rfl) sampleModules
    steadyExchange "BTCUSD" "PINGPONG" [] "session-1").2.2.2.2 "pingPong" (by decide)
  ⟨by decide, h.1, h.2.2.2.1⟩

theorem foldl_last_match {α : Type} (q : Param α → Bool) (named : List (Param α)) :
    ∀ dflt : α,
      named.foldl (fun best p => if q p then p.value else best) dflt =
        match named.reverse.find? q with
        | some p => p.value
        | none => dflt := by
  induction named with
  | nil => intro dflt; rfl
  | cons x rest ih =>
    intro dflt
    rw [List.foldl_cons, ih, List.reverse_cons, List.find?_append]
    cases hfind : rest.reverse.find? q with
    | some p => rfl
    | none =>
      by_cases hq : q x = true
      · simp [List.find?_cons, hq]
      · simp [List.find?_cons, hq]

theorem assignParamsFrom_keys {α : Type} (toLowerCase : String → String)
    (named : List (Param α)) (expected : List (String × α)) :
    ∀ k, (assignParamsFrom toLowerCase named k expected).map Prod.fst =
      expected.map Prod.fst := by
  induction expected with
  | nil => intro k; rfl
  | cons e rest ih =>
    intro k
    obtain ⟨item, dflt⟩ := e
    simp [assignParamsFrom, ih]

theorem assignParamsFrom_getElem? {α : Type} (toLowerCase : String → String)
    (named : List (Param α)) (expected : List (String × α)) :
    ∀ (k i : Nat) (item : String) (dflt : α), expected[i]? = some (item, dflt) →
      (assignParamsFrom toLowerCase named k expected)[i]? =
        some (item,
          match named.reverse.find? (argumentMatches toLowerCase item (k + i)) with
          | some p => p.value
          | none => dflt) := by
  induction expected with
  | nil => intro k i item dflt h; simp at h
  | cons e rest ih =>
    intro k i item dflt h
    obtain ⟨item0, dflt0⟩ := e
    cases i with
    | zero =>
      simp only [List.getElem?_cons_zero, Option.some.injEq, Prod.mk.injEq] at h
      obtain ⟨h1, h2⟩ := h
      subst h1 h2
      simp only [assignParamsFrom, List.getElem?_cons_zero, Nat.add_zero]
      rw [← foldl_last_match]
      rfl
    | succ j =>
      simp only [List.getElem?_cons_succ] at h
      have := ih (k + 1) j item dflt h
      simp only [assignParamsFrom, List.getElem?_cons_succ]
      rw [this]
      have hk : k + 1 + j = k + (j + 1) := by omega
      rw [hk]

/-- C9 (as stated, refuted): for `(to=9000, 7000)` the parameter `to`, at
position 1, has an argument with its name, yet `assignParams` gives it the value
of the positional argument that comes later in the list. -/
theorem assignParams_positional_overrides_named :
    assignParams asciiToLowerCase ladderDefaults ladderArgs = [("from", "0"), ("to", "7000")]
    ∧ ¬ ResolvedAsClaimed asciiToLowerCase ladderArgs 1 "to" "50" "7000" := by
  refine ⟨by decide, ?_⟩
  unfold ResolvedAsClaimed
  decide

/-- C9 (amended): `assignParams` returns a map with exactly the expected keys, in
which each parameter takes the value of the last argument of the list that
either has the parameter's name ignoring case or has an empty name and the
parameter's position as index, and the declared default if no argument matches
in either way. -/
theorem assignParams_last_match_wins {α : Type} (toLowerCase : String → String)
    (expected : List (String × α)) (named : List (Param α)) :
    (assignParams toLowerCase expected named).map Prod.fst = expected.map Prod.fst
    ∧ (∀ (i : Nat) (item : String) (dflt : α), expected[i]? = some (item, dflt) →
        (assignParams toLowerCase expected named)[i]? =
          some (item,
            match named.reverse.find? (argumentMatches toLowerCase item i) with
            | some p => p.value
            | none => dflt)) := by
  refine ⟨assignParamsFrom_keys toLowerCase named expected 0, ?_⟩
  intro i item dflt h
  have := assignParamsFrom_getElem? toLowerCase named expected 0 i item dflt h
  rw [Nat.zero_add] at this
  exact this

/-- C9 (amended), at the sample ladder: `to` takes the later, positional value
and `from`, matched by nothing, keeps its default. -/
theorem assignParams_last_match_wins_witness :
    (assignParams asciiToLowerCase ladderDefaults ladderArgs)[1]? = some ("to", "7000")
    ∧ (assignParams asciiToLowerCase ladderDefaults ladderArgs)[0]? = some ("from", "0") :=
  ⟨(assignParams_last_match_wins asciiToLowerCase ladderDefaults ladderArgs).2 1 "to" "50" rfl,
   (assignParams_last_match_wins asciiToLowerCase ladderDefaults ladderArgs).2 0 "from" "0" rfl⟩

/-- C10 (as stated, refuted): with `nextCallAt` 5 ms ahead of the clock,
`rateLimit` waits 6 ms, not `max(1, nextCallAt - now) = 5`. -/
theorem rateLimit_waits_one_more :
    (Coinbase.rateLimit { nextCallAt := 1005, minTimeBetweenCalls := 250 } 1000).1 = 6
    ∧ (Coinbase.rateLimit { nextCallAt := 1005, minTimeBetweenCalls := 250 } 1000).1
        ≠ max 1 (1005 - 1000) := by
  decide

/-- C10 (amended): for every clock reading `now` and every stored `nextCallAt`,
`rateLimit` schedules the call after `wait = max(1, nextCallAt - now + 1)`
milliseconds (`nextCallAt - now + 1` when `nextCallAt` lies ahead, 1 otherwise)
and then sets `nextCallAt = now + wait + minTimeBetweenCalls`. -/
theorem rateLimit_wait_and_advance (c : Coinbase) (now : Int) :
    (c.rateLimit now).1 = max 1 (c.nextCallAt - now + 1)
    ∧ (c.rateLimit now).1 = (if c.nextCallAt > now then c.nextCallAt - now + 1 else 1)
    ∧ (c.rateLimit now).2.nextCallAt = now + (c.rateLimit now).1 + c.minTimeBetweenCalls
    ∧ (c.rateLimit now).2.minTimeBetweenCalls = c.minTimeBetweenCalls := by
  refine ⟨?_, rfl, rfl, rfl⟩
  unfold Coinbase.rateLimit
  by_cases h : c.nextCallAt > now
  · simp only [h, if_true]
    rw [max_eq_right (by omega)]
  · simp only [h, if_false]
    rw [max_eq_left (by omega)]

theorem rateLimit_minTimeBetweenCalls (c : Coinbase) (now : Int) :
    (c.rateLimit now).2.minTimeBetweenCalls = c.minTimeBetweenCalls := rfl

theorem rateLimit_dispatch_after_nextCallAt (c : Coinbase) (now : Int) :
    c.nextCallAt + 1 ≤ now + (c.rateLimit now).1 := by
  unfold Coinbase.rateLimit
  by_cases h : c.nextCallAt > now
  · simp only [h, if_true]; omega
  · simp only [h, if_false]; omega

theorem dispatchTimes_chain (rest : List Int) :
    ∀ (c : Coinbase) (gap : Int), c.minTimeBetweenCalls = gap →
      List.Chain (fun a b => a + gap ≤ b) (c.nextCallAt - gap) (c.dispatchTimes rest) := by
  induction rest with
  | nil => intro c gap _; exact List.Chain.nil
  | cons now rest ih =>
    intro c gap hgap
    unfold Coinbase.dispatchTimes
    refine List.Chain.cons ?_ ?_
    · have := rateLimit_dispatch_after_nextCallAt c now
      omega
    · have h := ih (c.rateLimit now).2 gap hgap
      have hnext : (c.rateLimit now).2.nextCallAt - gap = now + (c.rateLimit now).1 := by
        show now + (c.rateLimit now).1 + c.minTimeBetweenCalls - gap = _
        omega
      rw [hnext] at h
      exact h

theorem dispatchTimes_length (times : List Int) :
    ∀ c : Coinbase, (c.dispatchTimes times).length = times.length := by
  induction times with
  | nil => intro c; rfl
  | cons now rest ih => intro c; simp [Coinbase.dispatchTimes, ih]

/-- C11: for every driver state and every sequence of clock readings (in
particular every non-decreasing one, of any length N), the scheduled dispatch
times of successive `rateLimit` calls, call time plus computed wait, lie at
least `minTimeBetweenCalls` apart from one call to the next; for a driver as
constructed that is 250 ms. -/
theorem dispatch_times_spaced (c : Coinbase) (times : List Int) :
    List.Chain' (fun a b => a + c.minTimeBetweenCalls ≤ b) (c.dispatchTimes times)
    ∧ (∀ now, List.Chain' (fun a b => a + 250 ≤ b) ((Coinbase.create now).dispatchTimes times))
    ∧ (c.dispatchTimes times).length = times.length := by
  have hchain : ∀ (c : Coinbase),
      List.Chain' (fun a b => a + c.minTimeBetweenCalls ≤ b) (c.dispatchTimes times) := by
    intro c
    cases times with
    | nil => exact List.chain'_nil
    | cons now rest =>
      exact (List.chain_of_chain_cons (dispatchTimes_chain (now :: rest) c
        c.minTimeBetweenCalls rfl))
  exact ⟨hchain c, fun now => hchain (Coinbase.create now), dispatchTimes_length times c⟩

/-- C11, at a sample run: four calls issued back to back at clock reading 1000 on
a driver constructed at 1000 are scheduled 251 ms apart. -/
theorem dispatch_times_spaced_witness :
    (Coinbase.create 1000).dispatchTimes [1000, 1000, 1000, 1000] = [1001, 1252, 1503, 1754]
    ∧ List.Chain' (fun a b => a + 250 ≤ b)
        ((Coinbase.create 1000).dispatchTimes [1000, 1000, 1000, 1000]) :=
  ⟨by decide, (dispatch_times_spaced (Coinbase.create 1000) [1000, 1000, 1000, 1000]).2.1 1000⟩

theorem attemptResult_retried_iff {β : Type} (jsonParse : String → ParsedBody β)
    (o : RequestOutcome) :
    (∃ e, attemptResult jsonParse o = .error e ∧ errorFilter e = true) ↔
      o.isTransientFailure = true := by
  cases o with
  | error connectionReset message =>
    cases connectionReset <;>
      simp [attemptResult, errorFilter, RequestOutcome.isTransientFailure]
  | response statusCode body =>
    by_cases h200 : statusCode = 200
    · subst h200
      simp only [attemptResult, RequestOutcome.isTransientFailure]
      constructor
      · rintro ⟨e, he, hf⟩
        revert he
        simp only [bne_self_eq_false, Bool.false_eq_true, if_false]
        split
        · intro he; cases he
        · intro he
          injection he with he
          subst he
          simp [errorFilter] at hf
        · intro he; cases he
      · intro h
        simp at h
    · simp only [attemptResult, RequestOutcome.isTransientFailure, bne_iff_ne, ne_eq, h200,
        not_false_eq_true, if_true]
      constructor
      · rintro ⟨e, he, hf⟩
        injection he with he
        subst he
        simp only [errorFilter, Bool.or_eq_true, beq_iff_eq] at hf
        simp only [Bool.or_eq_true, beq_iff_eq]
        tauto
      · intro h
        refine ⟨.status statusCode, rfl, ?_⟩
        simp only [Bool.or_eq_true, beq_iff_eq] at h
        simp only [errorFilter, Bool.or_eq_true, beq_iff_eq]
        tauto

theorem retryFrom_attempts_le {ε β : Type} (errorFilter : ε → Bool)
    (task : Nat → Except ε β) (remaining : Nat) :
    ∀ attempt, (retryFrom errorFilter task remaining attempt).attempts ≤ attempt + remaining := by
  induction remaining with
  | zero => intro attempt; simp [retryFrom]
  | succ n ih =>
    intro attempt
    unfold retryFrom
    split
    · simp
    · split
      · have := ih (attempt + 1)
        omega
      · simp

theorem retryFrom_skip {ε β : Type} (errorFilter : ε → Bool) (task : Nat → Except ε β)
    (k : Nat) :
    ∀ (remaining attempt : Nat), k ≤ remaining →
      (∀ i, attempt ≤ i → i < attempt + k → ∃ e, task i = .error e ∧ errorFilter e = true) →
      retryFrom errorFilter task remaining attempt =
        retryFrom errorFilter task (remaining - k) (attempt + k) := by
  induction k with
  | zero => intro remaining attempt _ _; rfl
  | succ n ih =>
    intro remaining attempt hle hfail
    obtain ⟨e, he, hf⟩ := hfail attempt (Nat.le_refl _) (by omega)
    cases remaining with
    | zero => omega
    | succ m =>
      have hstep : retryFrom errorFilter task (m + 1) attempt =
          retryFrom errorFilter task m (attempt + 1) := by
        rw [retryFrom]
        simp [he, hf]
      rw [hstep, ih m (attempt + 1) (by omega) (fun i h1 h2 => hfail i (by omega) (by omega))]
      have h1 : m - n = m + 1 - (n + 1) := by omega
      have h2 : attempt + 1 + n = attempt + (n + 1) := by omega
      rw [h1, h2]

theorem retryFrom_stop {ε β : Type} (errorFilter : ε → Bool) (task : Nat → Except ε β)
    (remaining attempt : Nat)
    (h : remaining = 0 ∨ (∃ r, task attempt = .ok r) ∨
      ∃ e, task attempt = .error e ∧ errorFilter e = false) :
    retryFrom errorFilter task remaining attempt =
      { outcome := task attempt, attempts := attempt } := by
  cases remaining with
  | zero => rfl
  | succ m =>
    rcases h with h | ⟨r, hr⟩ | ⟨e, he, hf⟩
    · omega
    · rw [retryFrom]; simp [hr]
    · rw [retryFrom]; simp [he, hf]

/-- C12: for `callAPIWithRetries` with `maxAttempts >= 1` attempts, a failure is
retried exactly when it is transient (status 429, 502 or 503, or a connection
reset, which is turned into 429). A call that fails transiently exactly
`k < maxAttempts` times and then succeeds returns the success result after
`k + 1` attempts; a call that fails transiently on every attempt surfaces the
error of the last attempt after exactly `maxAttempts` attempts; never are there
more than `maxAttempts` attempts; and a non-transient failure is surfaced right
after the attempt that met it. -/
theorem retry_contract {β : Type} (jsonParse : String → ParsedBody β)
    (request : Nat → RequestOutcome) (maxAttempts : Nat) (hpos : 0 < maxAttempts) :
    (∀ o : RequestOutcome,
      (∃ e, attemptResult jsonParse o = .error e ∧ errorFilter e = true) ↔
        o.isTransientFailure = true)
    ∧ (∀ (k : Nat) (r : ApiResponse β), k < maxAttempts →
        (∀ i, 1 ≤ i → i ≤ k → (request i).isTransientFailure = true) →
        attemptResult jsonParse (request (k + 1)) = .ok r →
        callAPIWithRetries jsonParse request maxAttempts = { outcome := .ok r, attempts := k + 1 })
    ∧ ((∀ i, 1 ≤ i → i ≤ maxAttempts → (request i).isTransientFailure = true) →
        ∃ e, attemptResult jsonParse (request maxAttempts) = .error e
          ∧ callAPIWithRetries jsonParse request maxAttempts =
              { outcome := .error e, attempts := maxAttempts })
    ∧ (callAPIWithRetries jsonParse request maxAttempts).attempts ≤ maxAttempts
    ∧ (∀ (k : Nat) (e : RetryError), k < maxAttempts →
        (∀ i, 1 ≤ i → i ≤ k → (request i).isTransientFailure = true) →
        attemptResult jsonParse (request (k + 1)) = .error e → errorFilter e = false →
        callAPIWithRetries jsonParse request maxAttempts =
          { outcome := .error e, attempts := k + 1 }) := by
  have htimes : (if maxAttempts = 0 then 5 else maxAttempts) = maxAttempts := by
    rw [if_neg (by omega)]
  have hskip : ∀ k, k < maxAttempts →
      (∀ i, 1 ≤ i → i ≤ k → (request i).isTransientFailure = true) →
      callAPIWithRetries jsonParse request maxAttempts =
        retryFrom errorFilter (fun n => attemptResult jsonParse (request n))
          (maxAttempts - 1 - k) (1 + k) := by
    intro k hk hfail
    unfold callAPIWithRetries asyncRetry
    rw [htimes]
    exact retryFrom_skip errorFilter _ k (maxAttempts - 1) 1 (by omega)
      (fun i h1 h2 => (attemptResult_retried_iff jsonParse (request i)).mpr
        (hfail i h1 (by omega)))
  refine ⟨attemptResult_retried_iff jsonParse, ?_, ?_, ?_, ?_⟩
  · intro k r hk hfail hok
    rw [hskip k hk hfail, retryFrom_stop _ _ _ _ (Or.inr (Or.inl ⟨r, by rw [Nat.add_comm]; exact hok⟩))]
    simp only [Nat.add_comm 1 k, hok]
  · intro hfail
    obtain ⟨e, he, _⟩ := (attemptResult_retried_iff jsonParse (request maxAttempts)).mpr
      (hfail maxAttempts hpos (Nat.le_refl _))
    refine ⟨e, he, ?_⟩
    rw [hskip (maxAttempts - 1) (by omega) (fun i h1 h2 => hfail i h1 (by omega)),
      retryFrom_stop _ _ _ _ (Or.inl (by omega))]
    have h1 : 1 + (maxAttempts - 1) = maxAttempts := by omega
    simp only [h1, he]
  · unfold callAPIWithRetries asyncRetry
    rw [htimes]
    have := retryFrom_attempts_le errorFilter (fun n => attemptResult jsonParse (request n))
      (maxAttempts - 1) 1
    omega
  · intro k e hk hfail herr hf
    rw [hskip k hk hfail, retryFrom_stop _ _ _ _
      (Or.inr (Or.inr ⟨e, by rw [Nat.add_comm]; exact herr, hf⟩))]
    simp only [Nat.add_comm 1 k, herr]

/-- C12, at sample venues with 10 attempts allowed: two transient failures and
then an answer give the answer after 3 attempts; a venue that always answers 503
is given up on after 10 attempts with error 503; a venue error after one
transient failure is surfaced after 2 attempts. -/
theorem retry_contract_witness :
    callAPIWithRetries sampleJsonParse busyThenOk 10 =
      { outcome := .ok { message := none, result := some 1 }, attempts := 3 }
    ∧ callAPIWithRetries sampleJsonParse alwaysBusy 10 =
      { outcome := .error (.status 503), attempts := 10 }
    ∧ callAPIWithRetries sampleJsonParse busyThenBad 10 =
      { outcome := .error (.other "10001 - order not found"), attempts := 2 } :=
  ⟨(retry_contract sampleJsonParse busyThenOk 10 (by decide)).2.1 2 _ (by decide)
      (by decide) rfl,
   by
    obtain ⟨e, he, hrun⟩ := (retry_contract sampleJsonParse alwaysBusy 10 (by decide)).2.2.1
      (fun _ _ _ => rfl)
    rw [hrun]
    have : e = .status 503 := by
      have h : attemptResult sampleJsonParse (alwaysBusy 10) = .error (.status 503) := rfl
      rw [h] at he
      injection he with he
      exact he.symm
    rw [this],
   (retry_contract sampleJsonParse busyThenBad 10 (by decide)).2.2.2.2 1 _ (by decide)
      (by decide) rfl rfl⟩

theorem coinbase_order_found {ν : Type} (parseFloat : String → ℚ)
    (respond : CoinbaseRequest → ν → Except JsError CoinbaseOrder × ν)
    (orderInfo order : CoinbaseOrder) (w : World ν CoinbaseRequest)
    (h : (respond (.getOrder orderInfo.id) w.venue).1 = .ok order) :
    (Coinbase.order parseFloat respond orderInfo w).1 =
      { id := order.id,
        side := order.side,
        amount := parseFloat order.size,
        remaining := parseFloat order.size - parseFloat order.filled_size,
        executed := parseFloat order.filled_size,
        is_filled := parseFloat order.size == parseFloat order.filled_size,
        is_open := order.status == "open" } := by
  unfold Coinbase.order callVenue
  simp only [h]

theorem coinbase_order_not_found {ν : Type} (parseFloat : String → ℚ)
    (respond : CoinbaseRequest → ν → Except JsError CoinbaseOrder × ν)
    (orderInfo : CoinbaseOrder) (w : World ν CoinbaseRequest) (err : JsError)
    (h : (respond (.getOrder orderInfo.id) w.venue).1 = .error err) :
    (Coinbase.order parseFloat respond orderInfo w).1 =
      { id := orderInfo.id,
        side := orderInfo.side,
        amount := parseFloat orderInfo.size,
        remaining := 0,
        executed := parseFloat orderInfo.size,
        is_filled := false,
        is_open := false } := by
  unfold Coinbase.order callVenue
  simp only [h]

theorem coinbase_order_requests {ν : Type} (parseFloat : String → ℚ)
    (respond : CoinbaseRequest → ν → Except JsError CoinbaseOrder × ν)
    (orderInfo : CoinbaseOrder) (w : World ν CoinbaseRequest) :
    (Coinbase.order parseFloat respond orderInfo w).2.requests =
      w.requests ++ [.getOrder orderInfo.id] := by
  unfold Coinbase.order callVenue
  cases h : (respond (.getOrder orderInfo.id) w.venue).1 <;> simp only [h]

/-- C13: every canonical order produced by `DeribitApi.remapOrder`, and by
`Coinbase.order` whatever the venue answers (so on its success path and on its
fallback path), has `remaining = amount - executed`, and `remaining = 0` when
`is_filled` is set. -/
theorem canonical_order_invariant {ν : Type} (o : DeribitOrder) (parseFloat : String → ℚ)
    (respond : CoinbaseRequest → ν → Except JsError CoinbaseOrder × ν)
    (orderInfo : CoinbaseOrder) (w : World ν CoinbaseRequest) :
    (DeribitApi.remapOrder o).remaining =
        (DeribitApi.remapOrder o).amount - (DeribitApi.remapOrder o).executed
    ∧ ((DeribitApi.remapOrder o).is_filled = true → (DeribitApi.remapOrder o).remaining = 0)
    ∧ (Coinbase.order parseFloat respond orderInfo w).1.remaining =
        (Coinbase.order parseFloat respond orderInfo w).1.amount
          - (Coinbase.order parseFloat respond orderInfo w).1.executed
    ∧ ((Coinbase.order parseFloat respond orderInfo w).1.is_filled = true →
        (Coinbase.order parseFloat respond orderInfo w).1.remaining = 0) := by
  refine ⟨rfl, ?_, ?_, ?_⟩
  · intro h
    have hq : o.quantity = o.filledQuantity := by
      simpa [DeribitApi.remapOrder] using h
    simp [DeribitApi.remapOrder, hq]
  · cases h : (respond (.getOrder orderInfo.id) w.venue).1 with
    | ok order => rw [coinbase_order_found parseFloat respond orderInfo order w h]
    | error err =>
      rw [coinbase_order_not_found parseFloat respond orderInfo w err h]
      simp
  · cases h : (respond (.getOrder orderInfo.id) w.venue).1 with
    | ok order =>
      rw [coinbase_order_found parseFloat respond orderInfo order w h]
      intro hf
      have hq : parseFloat order.size = parseFloat order.filled_size := by
        simpa using hf
      simp [hq]
    | error err =>
      rw [coinbase_order_not_found parseFloat respond orderInfo w err h]
      simp

/-- C13, at samples: a Deribit order of 5 contracts with 2 filled, and the
Coinbase fallback record for an order of size 2. -/
theorem canonical_order_invariant_witness :
    (DeribitApi.remapOrder sampleDeribitOrder).remaining = 5 - 2
    ∧ (Coinbase.order digitsParseFloat deafVenue (sampleCoinbaseOrder "o-1")
        { venue := 0, requests := [] }).1.remaining
      = (Coinbase.order digitsParseFloat deafVenue (sampleCoinbaseOrder "o-1")
          { venue := 0, requests := [] }).1.amount
        - (Coinbase.order digitsParseFloat deafVenue (sampleCoinbaseOrder "o-1")
          { venue := 0, requests := [] }).1.executed :=
  ⟨(canonical_order_invariant sampleDeribitOrder
      digitsParseFloat deafVenue (sampleCoinbaseOrder "o-1") { venue := 0, requests := [] }).1,
   (canonical_order_invariant sampleDeribitOrder
      digitsParseFloat deafVenue (sampleCoinbaseOrder "o-1")
      { venue := 0, requests := [] }).2.2.1⟩

/-- C14 (as stated, refuted): when the look-up fails, the record `Coinbase.order`
builds from the local reference has `amount` equal to `executed` and yet
`is_filled` false. -/
theorem fallback_order_not_filled :
    (Coinbase.order digitsParseFloat deafVenue (sampleCoinbaseOrder "o-1")
        { venue := 0, requests := [] }).1.amount
      = (Coinbase.order digitsParseFloat deafVenue (sampleCoinbaseOrder "o-1")
        { venue := 0, requests := [] }).1.executed
    ∧ (Coinbase.order digitsParseFloat deafVenue (sampleCoinbaseOrder "o-1")
        { venue := 0, requests := [] }).1.is_filled = false :=
  ⟨rfl, rfl⟩

/-- C14 (amended): for an order `Coinbase.order` builds from the venue's answer,
`is_filled` is true exactly when `amount == executed`; the best-effort order
built from the local reference when the look-up fails is marked not filled and
not open, although its `amount` equals its `executed`. -/
theorem is_filled_on_success_path {ν : Type} (parseFloat : String → ℚ)
    (respond : CoinbaseRequest → ν → Except JsError CoinbaseOrder × ν)
    (orderInfo : CoinbaseOrder) (w : World ν CoinbaseRequest) :
    (∀ order, (respond (.getOrder orderInfo.id) w.venue).1 = .ok order →
      ((Coinbase.order parseFloat respond orderInfo w).1.is_filled = true ↔
        (Coinbase.order parseFloat respond orderInfo w).1.amount
          = (Coinbase.order parseFloat respond orderInfo w).1.executed))
    ∧ (∀ err, (respond (.getOrder orderInfo.id) w.venue).1 = .error err →
      (Coinbase.order parseFloat respond orderInfo w).1.is_filled = false
      ∧ (Coinbase.order parseFloat respond orderInfo w).1.is_open = false
      ∧ (Coinbase.order parseFloat respond orderInfo w).1.amount
          = (Coinbase.order parseFloat respond orderInfo w).1.executed) := by
  constructor
  · intro order h
    rw [coinbase_order_found parseFloat respond orderInfo order w h]
    simp
  · intro err h
    rw [coinbase_order_not_found parseFloat respond orderInfo w err h]
    simp

/-- C14 (amended), at the sample venue: the order found there, of size 2 with
nothing filled, is not filled, and its amount differs from its executed. -/
theorem is_filled_on_success_path_witness :
    ((Coinbase.order digitsParseFloat sampleVenue (sampleCoinbaseOrder "o-1")
        { venue := 0, requests := [] }).1.is_filled = true ↔
      (Coinbase.order digitsParseFloat sampleVenue (sampleCoinbaseOrder "o-1")
        { venue := 0, requests := [] }).1.amount
      = (Coinbase.order digitsParseFloat sampleVenue (sampleCoinbaseOrder "o-1")
        { venue := 0, requests := [] }).1.executed) :=
  (is_filled_on_success_path digitsParseFloat sampleVenue (sampleCoinbaseOrder "o-1")
    { venue := 0, requests := [] }).1 _ rfl

theorem eachSeries_always_next {α ν κ β : Type} (respond : κ → ν → Except JsError β × ν)
    (toRequest : α → κ) (items : List α) :
    ∀ w : World ν κ,
      (eachSeries (ε := JsError)
          (fun item w1 => (none, (callVenue respond (toRequest item) w1).2)) items w).1 = none
      ∧ (eachSeries (ε := JsError)
          (fun item w1 => (none, (callVenue respond (toRequest item) w1).2)) items w).2.requests
        = w.requests ++ items.map toRequest := by
  induction items with
  | nil => intro w; simp [eachSeries]
  | cons x rest ih =>
    intro w
    have h := ih (callVenue respond (toRequest x) w).2
    simp only [eachSeries]
    refine ⟨h.1, ?_⟩
    rw [h.2]
    simp [callVenue]

theorem cancelOrders_requests {ν : Type}
    (respond : CoinbaseRequest → ν → Except JsError CoinbaseOrder × ν)
    (orders : List CoinbaseOrder) (w : World ν CoinbaseRequest) :
    (Coinbase.cancelOrders respond orders w).1 = .ok ()
    ∧ (Coinbase.cancelOrders respond orders w).2.requests =
        w.requests ++ orders.map (fun o => CoinbaseRequest.cancelOrder o.id) := by
  have hc := eachSeries_always_next respond
    (fun o : CoinbaseOrder => CoinbaseRequest.cancelOrder o.id) orders w
  unfold Coinbase.cancelOrders
  constructor
  · split
    · rename_i err w1 heq
      rw [heq] at hc
      exact absurd hc.1 (by simp)
    · rfl
  · split
    · rename_i err w1 heq
      rw [heq] at hc
      exact absurd hc.1 (by simp)
    · rename_i w1 heq
      rw [heq] at hc
      exact hc.2

theorem deribit_cancelOrders_requests {ν β : Type}
    (makeAuthRequest : DeribitRequest → ν → Except JsError β × ν)
    (orders : List Order) (w : World ν DeribitRequest) :
    (DeribitApi.cancelOrders makeAuthRequest orders w).1 = .ok ()
    ∧ (DeribitApi.cancelOrders makeAuthRequest orders w).2.requests =
        w.requests ++ orders.map
          (fun o => { action := "/api/v1/private/cancel", orderId := o.id }) := by
  have hd := eachSeries_always_next makeAuthRequest
    (fun o : Order => ({ action := "/api/v1/private/cancel", orderId := o.id } : DeribitRequest))
    orders w
  unfold DeribitApi.cancelOrders
  constructor
  · split
    · rename_i err w1 heq
      rw [heq] at hd
      exact absurd hd.1 (by simp)
    · rfl
  · split
    · rename_i err w1 heq
      rw [heq] at hd
      exact absurd hd.1 (by simp)
    · rename_i w1 heq
      rw [heq] at hd
      exact hd.2

/-- C15: for every list of orders and every behaviour of the venue, `cancelOrders`
of the Coinbase driver makes exactly one `cancelOrder` call per order and
`cancelOrders` of the Deribit driver exactly one cancel request through
`makeAuthRequest` per order, in list order, whatever failed before, and the call
as a whole resolves. -/
theorem cancelOrders_attempts_every_order {ν β : Type}
    (respond : CoinbaseRequest → ν → Except JsError CoinbaseOrder × ν)
    (makeAuthRequest : DeribitRequest → ν → Except JsError β × ν)
    (coinbaseOrders : List CoinbaseOrder) (deribitOrders : List Order)
    (wc : World ν CoinbaseRequest) (wd : World ν DeribitRequest) :
    (Coinbase.cancelOrders respond coinbaseOrders wc).1 = .ok ()
    ∧ (Coinbase.cancelOrders respond coinbaseOrders wc).2.requests =
        wc.requests ++ coinbaseOrders.map (fun o => CoinbaseRequest.cancelOrder o.id)
    ∧ (DeribitApi.cancelOrders makeAuthRequest deribitOrders wd).1 = .ok ()
    ∧ (DeribitApi.cancelOrders makeAuthRequest deribitOrders wd).2.requests =
        wd.requests ++ deribitOrders.map
          (fun o => { action := "/api/v1/private/cancel", orderId := o.id }) := by
  have hc := cancelOrders_requests respond coinbaseOrders wc
  have hd := deribit_cancelOrders_requests makeAuthRequest deribitOrders wd
  exact ⟨hc.1, hc.2, hd.1, hd.2⟩

/-- C15, at sample venues where the cancel of the second of three orders fails:
all three are attempted in order and the call resolves, in both drivers. -/
theorem cancelOrders_attempts_every_order_witness :
    (Coinbase.cancelOrders sampleVenue
        [sampleCoinbaseOrder "o-1", sampleCoinbaseOrder "o-2", sampleCoinbaseOrder "o-3"]
        { venue := 0, requests := [] }).1 = .ok ()
    ∧ (Coinbase.cancelOrders sampleVenue
        [sampleCoinbaseOrder "o-1", sampleCoinbaseOrder "o-2", sampleCoinbaseOrder "o-3"]
        { venue := 0, requests := [] }).2.requests =
      [.cancelOrder "o-1", .cancelOrder "o-2", .cancelOrder "o-3"]
    ∧ (sampleVenue (.cancelOrder "o-2") 1).1 = .error (.error "order not found")
    ∧ (DeribitApi.cancelOrders sampleDeribitVenue
        [sampleOrder "o-1", sampleOrder "o-2", sampleOrder "o-3"]
        { venue := 0, requests := [] }).2.requests =
      [⟨"/api/v1/private/cancel", "o-1"⟩, ⟨"/api/v1/private/cancel", "o-2"⟩,
        ⟨"/api/v1/private/cancel", "o-3"⟩] :=
  have h := cancelOrders_attempts_every_order sampleVenue sampleDeribitVenue
    [sampleCoinbaseOrder "o-1", sampleCoinbaseOrder "o-2", sampleCoinbaseOrder "o-3"]
    [sampleOrder "o-1", sampleOrder "o-2", sampleOrder "o-3"]
    { venue := 0, requests := [] } { venue := 0, requests := [] }
  ⟨h.1, h.2.1, rfl, h.2.2.2⟩

/-- C16 (the code evaluated): for every order, price and venue,
`Coinbase.updateOrderPrice` looks the order up, cancels it, and then fails in
`orderTypeFromOrder`, because the record `order()` returns has no `type`; no
replacement order is ever placed. -/
theorem updateOrderPrice_always_fails {ν : Type} (parseFloat : String → ℚ)
    (respond : CoinbaseRequest → ν → Except JsError CoinbaseOrder × ν)
    (order : CoinbaseOrder) (price : ℚ) (w : World ν CoinbaseRequest) :
    (Coinbase.updateOrderPrice parseFloat respond order price w).1 =
        .error (.error "orderTypeFromOrder(): unknown order type.")
    ∧ (Coinbase.updateOrderPrice parseFloat respond order price w).2.requests =
        w.requests ++ [.getOrder order.id, .cancelOrder order.id] := by
  have hc := cancelOrders_requests respond [order] (Coinbase.order parseFloat respond order w).2
  have ho := coinbase_order_requests parseFloat respond order w
  unfold Coinbase.updateOrderPrice
  simp only [Coinbase.orderTypeFromOrder, Order.absentProperty]
  constructor
  · split
    · rename_i err w2 heq
      rw [heq] at hc
      exact absurd hc.1 (by simp)
    · simp
  · split
    · rename_i err w2 heq
      rw [heq] at hc
      exact absurd hc.1 (by simp)
    · rename_i u w2 heq
      rw [heq] at hc
      simp only [reduceCtorEq, if_false]
      rw [hc.2, ho]
      simp

/-- C16, at the sample venue, which knows the open limit order `o-1`: asked to
move it to 100, the driver cancels it and fails without placing anything. -/
theorem updateOrderPrice_sample_run :
    (Coinbase.updateOrderPrice digitsParseFloat sampleVenue (sampleCoinbaseOrder "o-1") 100
        { venue := 0, requests := [] }).1
      = .error (.error "orderTypeFromOrder(): unknown order type.")
    ∧ (Coinbase.updateOrderPrice digitsParseFloat sampleVenue (sampleCoinbaseOrder "o-1") 100
        { venue := 0, requests := [] }).2.requests
      = [.getOrder "o-1", .cancelOrder "o-1"] :=
  updateOrderPrice_always_fails digitsParseFloat sampleVenue (sampleCoinbaseOrder "o-1") 100
    { venue := 0, requests := [] }

theorem splitSymbol_currency_length (rt : Runtime) (symbol : String) :
    (splitSymbol rt symbol).currency.length = 3 := by
  unfold splitSymbol
  simp only []
  split
  · rename_i h
    simp only [String.length]
    rw [List.length_take, List.length_drop]
    omega
  · split
    · rename_i h
      simp only [String.length]
      rw [List.length_take, List.length_drop]
      omega
    · rfl

theorem splitSymbol_currency_ne (rt : Runtime) (symbol : String) :
    (splitSymbol rt symbol).currency ≠ "" ∧ (splitSymbol rt symbol).currency ≠ "%"
    ∧ (splitSymbol rt symbol).currency ≠ "%%" := by
  have h := splitSymbol_currency_length rt symbol
  refine ⟨?_, ?_, ?_⟩ <;> intro heq <;> rw [heq] at h <;> exact absurd h (by decide)

theorem calcOrderSize_fields (rt : Runtime) (symbol side : String) (amount : Quantity)
    (balances : List Balance) (price : ℚ) :
    (calcOrderSize rt symbol side amount balances price).total =
        balanceTotalAsset rt symbol balances price
    ∧ (calcOrderSize rt symbol side amount balances price).available =
        balanceAvailableAsset rt symbol balances price side
    ∧ (calcOrderSize rt symbol side amount balances price).rawOrderSize =
        (if rt.toLowerCase amount.units = (splitSymbol rt symbol).currency then
          amount.value / price
        else if amount.units = "%%" then
          balanceAvailableAsset rt symbol balances price side * (amount.value / 100)
        else if amount.units = "%" then
          balanceTotalAsset rt symbol balances price * (amount.value / 100)
        else amount.value)
    ∧ (calcOrderSize rt symbol side amount balances price).orderSize =
        rt.roundAsset symbol
          (sizeBeforeRounding rt symbol (calcOrderSize rt symbol side amount balances price)) := by
  refine ⟨rfl, rfl, rfl, ?_⟩
  unfold sizeBeforeRounding
  simp only [calcOrderSize]
  congr 1
  generalize (if rt.toLowerCase amount.units = (splitSymbol rt symbol).currency then
      amount.value / price else _) = raw
  generalize balanceAvailableAsset rt symbol balances price side = available
  by_cases h : raw > available
  · have hmin : min raw available = available := min_eq_right (le_of_lt h)
    simp only [h, if_true, hmin]
  · have hmin : min raw available = raw := min_eq_left (not_lt.mp h)
    simp only [h, if_false, hmin]

/-- C17 (as stated, refuted): with an available balance of -1 and a request to
sell 1, the size handed to `roundAsset` is 0, which exceeds the available
balance. -/
theorem order_size_exceeds_negative_balance :
    (calcOrderSize sampleRuntime "BTCUSD" "sell" { value := 1, units := "" } debtBalances
        100).available = -1
    ∧ sizeBeforeRounding sampleRuntime "BTCUSD"
        (calcOrderSize sampleRuntime "BTCUSD" "sell" { value := 1, units := "" } debtBalances
          100) = 0
    ∧ ¬ sizeBeforeRounding sampleRuntime "BTCUSD"
          (calcOrderSize sampleRuntime "BTCUSD" "sell" { value := 1, units := "" } debtBalances
            100)
        ≤ (calcOrderSize sampleRuntime "BTCUSD" "sell" { value := 1, units := "" } debtBalances
            100).available := by
  decide!

/-- C17 (amended): `calcOrderSize` computes the raw size as `value` (no units),
`total * value / 100` (units `%`), `available * value / 100` (units `%%`) or
`value / price` (units equal, ignoring case, to the quote currency) and reports
it as `rawOrderSize`; the size it hands to `roundAsset` as `orderSize` is 0 when
`min(raw, available)` is below the minimum order size and `min(raw, available)`
otherwise, for every positive price. That size is never a non-zero value below
the minimum order size and never exceeds the larger of the available balance and
0, so it does not exceed the available balance unless that balance is negative;
with a negative balance and a minimum order size that is not negative it is 0.
The raw size of an amount in the quote currency, times the price, is the value
again. The first hypothesis says that `toLowerCase` leaves the empty text, `%`
and `%%` as they are, the second that the price is positive. -/
theorem calcOrderSize_caps_and_floors (rt : Runtime) (symbol side : String)
    (amount : Quantity) (balances : List Balance) (price : ℚ)
    (hlower : rt.toLowerCase "" = "" ∧ rt.toLowerCase "%" = "%" ∧ rt.toLowerCase "%%" = "%%")
    (hprice : 0 < price) :
    (amount.units = "" →
      (calcOrderSize rt symbol side amount balances price).rawOrderSize = amount.value)
    ∧ (amount.units = "%" →
      (calcOrderSize rt symbol side amount balances price).rawOrderSize =
        (calcOrderSize rt symbol side amount balances price).total * amount.value / 100)
    ∧ (amount.units = "%%" →
      (calcOrderSize rt symbol side amount balances price).rawOrderSize =
        (calcOrderSize rt symbol side amount balances price).available * amount.value / 100)
    ∧ (rt.toLowerCase amount.units = (splitSymbol rt symbol).currency →
      (calcOrderSize rt symbol side amount balances price).rawOrderSize = amount.value / price)
    ∧ (calcOrderSize rt symbol side amount balances price).orderSize =
        rt.roundAsset symbol
          (sizeBeforeRounding rt symbol (calcOrderSize rt symbol side amount balances price))
    ∧ (sizeBeforeRounding rt symbol (calcOrderSize rt symbol side amount balances price) = 0
        ∨ rt.minOrderSize symbol ≤
          sizeBeforeRounding rt symbol (calcOrderSize rt symbol side amount balances price))
    ∧ sizeBeforeRounding rt symbol (calcOrderSize rt symbol side amount balances price)
        ≤ max (calcOrderSize rt symbol side amount balances price).available 0
    ∧ (0 ≤ (calcOrderSize rt symbol side amount balances price).available →
        sizeBeforeRounding rt symbol (calcOrderSize rt symbol side amount balances price)
          ≤ (calcOrderSize rt symbol side amount balances price).available)
    ∧ (0 ≤ rt.minOrderSize symbol →
        (calcOrderSize rt symbol side amount balances price).available < 0 →
        sizeBeforeRounding rt symbol (calcOrderSize rt symbol side amount balances price) = 0)
    ∧ (rt.toLowerCase amount.units = (splitSymbol rt symbol).currency →
        (calcOrderSize rt symbol side amount balances price).rawOrderSize * price
          = amount.value) := by
  obtain ⟨hne0, hne1, hne2⟩ := splitSymbol_currency_ne rt symbol
  obtain ⟨hl0, hl1, hl2⟩ := hlower
  obtain ⟨htotal, havailable, hraw, hsize⟩ :=
    calcOrderSize_fields rt symbol side amount balances price
  have hcap : sizeBeforeRounding rt symbol (calcOrderSize rt symbol side amount balances price)
      ≤ max (calcOrderSize rt symbol side amount balances price).available 0 := by
    unfold sizeBeforeRounding
    split
    · exact le_max_right _ _
    · exact le_trans (min_le_right _ _) (le_max_left _ _)
  refine ⟨?_, ?_, ?_, ?_, hsize, ?_, hcap, ?_, ?_, ?_⟩
  · intro hu
    rw [hraw, hu, hl0, if_neg (Ne.symm hne0), if_neg (by decide), if_neg (by decide)]
  · intro hu
    rw [hraw, htotal, hu, hl1, if_neg (Ne.symm hne1), if_neg (by decide), if_pos rfl,
      mul_div_assoc]
  · intro hu
    rw [hraw, havailable, hu, hl2, if_neg (Ne.symm hne2), if_pos rfl, mul_div_assoc]
  · intro hu
    rw [hraw, if_pos hu]
  · unfold sizeBeforeRounding
    split
    · exact Or.inl rfl
    · rename_i h
      exact Or.inr (not_lt.mp h)
  · intro hav
    rw [max_eq_left hav] at hcap
    exact hcap
  · intro hmin hav
    unfold sizeBeforeRounding
    rw [if_pos (lt_of_le_of_lt (min_le_right _ _) (lt_of_lt_of_le hav hmin))]
  · intro hu
    rw [hraw, if_pos hu]
    exact div_mul_cancel₀ _ (ne_of_gt hprice)

/-- C17 (amended), at the sample venue (10 btc, 50000 usd, no rounding, minimum
size 1/100): buying 50% at 2500 is sized 15 raw and 15 after the cap of 20,
buying 2500 usd worth is sized 1, and selling 1 from a balance of -1 is sized
0. -/
theorem calcOrderSize_caps_and_floors_witness :
    (0 : ℚ) < 2500
    ∧ (calcOrderSize sampleRuntime "BTCUSD" "buy" { value := 50, units := "%" } sampleBalances
        2500).rawOrderSize = 30 * 50 / 100
    ∧ (calcOrderSize sampleRuntime "BTCUSD" "buy" { value := 50, units := "%" } sampleBalances
        2500) = { total := 30, available := 20, isAllAvailable := false, rawOrderSize := 15,
                  orderSize := 15 }
    ∧ (calcOrderSize sampleRuntime "BTCUSD" "buy" { value := 2500, units := "USD" }
        sampleBalances 2500).rawOrderSize = 2500 / 2500
    ∧ sizeBeforeRounding sampleRuntime "BTCUSD"
        (calcOrderSize sampleRuntime "BTCUSD" "sell" { value := 1, units := "" } debtBalances
          100) = 0 :=
  ⟨by decide!,
   ((calcOrderSize_caps_and_floors sampleRuntime "BTCUSD" "buy" { value := 50, units := "%" }
      sampleBalances 2500 (by decide) (by decide!)).2.1 rfl).trans (by decide!),
   by decide!,
   (calcOrderSize_caps_and_floors sampleRuntime "BTCUSD" "buy" { value := 2500, units := "USD" }
      sampleBalances 2500 (by decide) (by decide!)).2.2.2.1 (by decide),
   (calcOrderSize_caps_and_floors sampleRuntime "BTCUSD" "sell" { value := 1, units := "" }
      debtBalances 100 (by decide) (by decide!)).2.2.2.2.2.2.2.2.1 (by decide!) (by decide!)⟩

/-! ## Price offsets and the limit order command -/

theorem isDecimalText_cases (s : List Char) (h : isDecimalText s = true) :
    ∃ whole, whole ≠ [] ∧ (∀ c ∈ whole, c.isDigit = true)
      ∧ (s = whole ∨ ∃ frac, frac ≠ [] ∧ (∀ c ∈ frac, c.isDigit = true)
          ∧ s = whole ++ '.' :: frac) := by
  unfold isDecimalText at h
  simp only [Bool.and_eq_true, Bool.or_eq_true, bne_iff_ne, ne_eq, beq_iff_eq] at h
  obtain ⟨hwhole, hrest⟩ := h
  have hsplit := List.takeWhile_append_dropWhile Char.isDigit s
  refine ⟨s.takeWhile Char.isDigit, hwhole, fun c hc => List.mem_takeWhile_imp hc, ?_⟩
  rcases hrest with hnil | ⟨⟨hhead, htail⟩, hall⟩
  · left
    rw [hnil, List.append_nil] at hsplit
    exact hsplit.symm
  · right
    cases hdrop : s.dropWhile Char.isDigit with
    | nil => rw [hdrop] at hhead; simp at hhead
    | cons c tail =>
      rw [hdrop] at hhead htail hall hsplit
      simp only [List.head?_cons, Option.some.injEq] at hhead
      subst hhead
      simp only [List.tail_cons] at htail hall
      exact ⟨tail, htail, by simpa using hall, hsplit.symm⟩

theorem matchNumber_digits (whole rest : List Char) (hne : whole ≠ [])
    (hwhole : ∀ c ∈ whole, c.isDigit = true)
    (hrest : ∀ c, rest.head? = some c → c.isDigit = false) :
    matchNumber (whole ++ rest) =
      match rest with
      | [] => some (whole, [])
      | c :: more =>
          if c = '.' ∧ more.takeWhile Char.isDigit ≠ [] then
            some (whole ++ '.' :: more.takeWhile Char.isDigit,
              (more.dropWhile Char.isDigit).dropWhile isJsWhitespace)
          else
            some (whole, rest.dropWhile isJsWhitespace) := by
  have htake : (whole ++ rest).takeWhile Char.isDigit = whole := by
    rw [List.takeWhile_append_of_pos hwhole]
    cases rest with
    | nil => simp
    | cons c more =>
      have := hrest c rfl
      simp [this]
  have hdrop : (whole ++ rest).dropWhile Char.isDigit = rest := by
    rw [List.dropWhile_append_of_pos hwhole]
    cases rest with
    | nil => simp
    | cons c more =>
      have := hrest c rfl
      simp [this]
  unfold matchNumber
  simp only [htake, hdrop, hne, if_false]
  cases rest <;> rfl

theorem matchNumber_decimal (s rest : List Char) (h : isDecimalText s = true)
    (hrest : ∀ c, rest.head? = some c → c.isDigit = false ∧ c ≠ '.') :
    matchNumber (s ++ rest) = some (s, rest.dropWhile isJsWhitespace) := by
  obtain ⟨whole, hne, hwhole, hs | ⟨frac, hfne, hfrac, hs⟩⟩ := isDecimalText_cases s h
  · subst hs
    rw [matchNumber_digits s rest hne hwhole (fun c hc => (hrest c hc).1)]
    cases rest with
    | nil => rfl
    | cons c more =>
      have hc := (hrest c rfl).2
      simp [hc]
  · subst hs
    rw [List.append_assoc, matchNumber_digits whole _ hne hwhole
      (fun c hc => by simp at hc; subst hc; decide)]
    have htake : (frac ++ rest).takeWhile Char.isDigit = frac := by
      rw [List.takeWhile_append_of_pos hfrac]
      cases rest with
      | nil => simp
      | cons c more =>
        have := (hrest c rfl).1
        simp [this]
    have hdrop : (frac ++ rest).dropWhile Char.isDigit = rest := by
      rw [List.dropWhile_append_of_pos hfrac]
      cases rest with
      | nil => simp
      | cons c more =>
        have := (hrest c rfl).1
        simp [this]
    simp only [List.cons_append, htake, hdrop, true_and, ne_eq, hfne, not_false_eq_true,
      if_true, List.append_assoc]

theorem matchQuantity_decimal (s : List Char) (h : isDecimalText s = true) :
    matchQuantity s = some (s, none) := by
  have := matchNumber_decimal s [] h (fun c hc => by simp at hc)
  rw [List.append_nil] at this
  unfold matchQuantity
  rw [this]
  simp

theorem matchQuantity_percent (s : List Char) (h : isDecimalText s = true) :
    matchQuantity (s ++ ['%']) = some (s, some ['%']) := by
  have := matchNumber_decimal s ['%'] h (fun c hc => by simp at hc; subst hc; decide)
  unfold matchQuantity
  rw [this]
  simp [isJsWhitespace]

theorem matchAbsolutePrice_none (s : List Char) (h : ∀ c ∈ s, c ≠ '@') :
    matchAbsolutePrice s = none := by
  induction s with
  | nil => rfl
  | cons c rest ih =>
    unfold matchAbsolutePrice
    have hc : c ≠ '@' := h c (List.mem_cons_self _ _)
    simp only [hc, false_and, if_false]
    exact ih (fun d hd => h d (List.mem_cons_of_mem _ hd))

theorem isDecimalText_no_at (s : List Char) (h : isDecimalText s = true) :
    ∀ c ∈ s, c ≠ '@' := by
  obtain ⟨whole, _, hwhole, hs | ⟨frac, _, hfrac, hs⟩⟩ := isDecimalText_cases s h
  · subst hs
    intro c hc heq
    have := hwhole c hc
    rw [heq] at this
    exact absurd this (by decide)
  · subst hs
    intro c hc heq
    simp only [List.mem_append, List.mem_cons] at hc
    rcases hc with hc | hc | hc
    · have := hwhole c hc
      rw [heq] at this
      exact absurd this (by decide)
    · rw [heq] at hc
      exact absurd hc (by decide)
    · have := hfrac c hc
      rw [heq] at this
      exact absurd this (by decide)

theorem matchAbsolutePrice_at (s : List Char) (h : isDecimalText s = true) :
    matchAbsolutePrice ('@' :: s) = some s := by
  obtain ⟨whole, hne, hwhole, hs | ⟨frac, hfne, hfrac, hs⟩⟩ := isDecimalText_cases s h
  · subst hs
    have htake : s.takeWhile Char.isDigit = s := List.takeWhile_eq_self_iff.mpr hwhole
    have hdrop : s.dropWhile Char.isDigit = [] := List.dropWhile_eq_nil_iff.mpr hwhole
    unfold matchAbsolutePrice
    simp only [htake, hdrop, ne_eq, hne, not_false_eq_true, and_self, if_true]
  · subst hs
    have htake : (whole ++ '.' :: frac).takeWhile Char.isDigit = whole := by
      rw [List.takeWhile_append_of_pos hwhole]
      simp
    have hdrop : (whole ++ '.' :: frac).dropWhile Char.isDigit = '.' :: frac := by
      rw [List.dropWhile_append_of_pos hwhole]
      simp
    have hf : frac.takeWhile Char.isDigit = frac := List.takeWhile_eq_self_iff.mpr hfrac
    unfold matchAbsolutePrice
    simp only [htake, hdrop, ne_eq, hne, not_false_eq_true, and_self, if_true, hf]


theorem parseQuantity_decimal (rt : Runtime) (d : List Char) (h : isDecimalText d = true) :
    parseQuantity rt ⟨d⟩ = { value := rt.parseFloat ⟨d⟩, units := "" } := by
  unfold parseQuantity
  rw [matchQuantity_decimal d h]

theorem parseQuantity_percent (rt : Runtime) (d : List Char) (h : isDecimalText d = true) :
    parseQuantity rt ⟨d ++ ['%']⟩ = { value := rt.parseFloat ⟨d⟩, units := "%" } := by
  unfold parseQuantity
  rw [matchQuantity_percent d h]

theorem limitOrder_record {ν ω : Type} (rt : Runtime) (co : Collaborators ν ω) (now : String)
    (context : Context) (args : List (Param String)) (t t1 : Trading ν ω) (r : OrderRecord ω)
    (h : limitOrder rt co now context args t = (.ok (.record r), t1)) :
    ∃ (order : ω) (v1 v2 : ν) (details : OrderSizeDetails) (v3 : ν),
      r.order = some order ∧ r.units = "" ∧ r.amount = details.orderSize
      ∧ offsetToAbsolutePrice rt co context.symbol r.side
          (paramValue (limitOrderParams rt now args) "offset") v1 = (.ok r.price, v2)
      ∧ ¬ r.price < 0 ∧ details.orderSize ≠ 0
      ∧ co.limitOrder
          { symbol := context.symbol, amount := r.amount, price := r.price, side := r.side,
            postOnly :=
              rt.toLowerCase (paramValue (limitOrderParams rt now args) "postOnly") == "true",
            reduceOnly :=
              rt.toLowerCase (paramValue (limitOrderParams rt now args) "reduceOnly") == "true" }
          v3 = (.ok order, t1.venue)
      ∧ t1.placed = t.placed ++
          [{ symbol := context.symbol, amount := r.amount, price := r.price, side := r.side,
             postOnly :=
               rt.toLowerCase (paramValue (limitOrderParams rt now args) "postOnly") == "true",
             reduceOnly :=
               rt.toLowerCase (paramValue (limitOrderParams rt now args) "reduceOnly") == "true" }]
      ∧ t1.sessionOrders = addToSession t.sessionOrders context.session
          (paramValue (limitOrderParams rt now args) "tag") order := by
  unfold limitOrder at h
  simp only [] at h
  by_cases hside : paramValue (limitOrderParams rt now args) "side" ≠ "buy"
      ∧ paramValue (limitOrderParams rt now args) "side" ≠ "sell"
  · rw [if_pos hside] at h
    simp at h
  rw [if_neg hside] at h
  rcases hpos : positionToAmount rt co context.symbol
      (paramValue (limitOrderParams rt now args) "position")
      (paramValue (limitOrderParams rt now args) "side")
      (paramValue (limitOrderParams rt now args) "amount") t.venue with ⟨err | mp, v1⟩
  · rw [hpos] at h
    simp at h
  rw [hpos] at h
  simp only [] at h
  by_cases hzero : mp.amount.value = 0
  · rw [if_pos hzero] at h
    simp at h
  rw [if_neg hzero] at h
  rcases hprice : offsetToAbsolutePrice rt co context.symbol mp.side
      (paramValue (limitOrderParams rt now args) "offset") v1 with ⟨err | price, v2⟩
  · rw [hprice] at h
    simp at h
  rw [hprice] at h
  simp only [] at h
  by_cases hneg : price < 0
  · rw [if_pos hneg] at h
    simp at h
  rw [if_neg hneg] at h
  rcases hsize : orderSizeFromAmount rt co context.symbol mp.side price
      (rt.numberToString mp.amount.value ++ mp.amount.units) v2 with ⟨err | details, v3⟩
  · rw [hsize] at h
    simp at h
  rw [hsize] at h
  simp only [] at h
  by_cases hnz : details.orderSize = 0
  · rw [if_pos hnz] at h
    simp at h
  rw [if_neg hnz] at h
  rcases hplace : co.limitOrder
      { symbol := context.symbol, amount := details.orderSize, price := price, side := mp.side,
        postOnly :=
          rt.toLowerCase (paramValue (limitOrderParams rt now args) "postOnly") == "true",
        reduceOnly :=
          rt.toLowerCase (paramValue (limitOrderParams rt now args) "reduceOnly") == "true" }
      v3 with ⟨err | order, v4⟩
  · rw [hplace] at h
    simp at h
  rw [hplace] at h
  simp only [Prod.mk.injEq, Except.ok.injEq, CommandResult.record.injEq] at h
  obtain ⟨hr, ht⟩ := h
  subst hr
  subst ht
  exact ⟨order, v1, v2, details, v3, rfl, rfl, rfl, hprice, hneg, hnz, hplace, rfl, rfl⟩


/-- C18: `offsetToAbsolutePrice` resolves `@p` to `roundPrice(p)` whatever the
side, the ticker and the venue, a plain number `d` to `roundPrice(bid - d)` for a
buy and `roundPrice(ask + d)` otherwise, and `d%` to `roundPrice(bid - bid*d/100)`
for a buy and `roundPrice(ask + ask*d/100)` otherwise; and whenever the limit
order command resolves with a full record, that record has an order and units
`''`, its price is the one `offsetToAbsolutePrice` resolved for its side and
the `offset` parameter, and the one call of the driver made is at that price,
amount and side. -/
theorem offset_price_resolution {ν ω : Type} (rt : Runtime) (co : Collaborators ν ω)
    (symbol : String) (ticker : Ticker) (v v1 : ν) (d : List Char)
    (hd : isDecimalText d = true) (hticker : co.ticker symbol v = (.ok ticker, v1)) :
    (∀ (other : Collaborators ν ω) (side : String) (w : ν),
        offsetToAbsolutePrice rt other symbol side ⟨'@' :: d⟩ w
          = (.ok (rt.roundPrice symbol (rt.parseFloat ⟨d⟩)), w))
    ∧ offsetToAbsolutePrice rt co symbol "buy" ⟨d⟩ v
        = (.ok (rt.roundPrice symbol (rt.parseFloat ticker.bid - rt.parseFloat ⟨d⟩)), v1)
    ∧ (∀ side : String, side ≠ "buy" →
        offsetToAbsolutePrice rt co symbol side ⟨d⟩ v
          = (.ok (rt.roundPrice symbol (rt.parseFloat ticker.ask + rt.parseFloat ⟨d⟩)), v1))
    ∧ offsetToAbsolutePrice rt co symbol "buy" ⟨d ++ ['%']⟩ v
        = (.ok (rt.roundPrice symbol
            (rt.parseFloat ticker.bid
              - rt.parseFloat ticker.bid * rt.parseFloat ⟨d⟩ / 100)), v1)
    ∧ (∀ side : String, side ≠ "buy" →
        offsetToAbsolutePrice rt co symbol side ⟨d ++ ['%']⟩ v
          = (.ok (rt.roundPrice symbol
              (rt.parseFloat ticker.ask
                + rt.parseFloat ticker.ask * rt.parseFloat ⟨d⟩ / 100)), v1))
    ∧ (∀ (now : String) (context : Context) (args : List (Param String))
        (t t1 : Trading ν ω) (r : OrderRecord ω),
        limitOrder rt co now context args t = (.ok (.record r), t1) →
        r.units = "" ∧ r.order.isSome = true
        ∧ (∃ w w1 : ν, offsetToAbsolutePrice rt co context.symbol r.side
              (paramValue (limitOrderParams rt now args) "offset") w = (.ok r.price, w1))
        ∧ ∃ call : LimitOrderCall, t1.placed = t.placed ++ [call]
            ∧ call.price = r.price ∧ call.amount = r.amount ∧ call.side = r.side
            ∧ call.symbol = context.symbol) := by
  have hnone : matchAbsolutePrice d = none :=
    matchAbsolutePrice_none d (isDecimalText_no_at d hd)
  have hnonePct : matchAbsolutePrice (d ++ ['%']) = none := by
    apply matchAbsolutePrice_none
    intro c hc
    rcases List.mem_append.mp hc with hc | hc
    · exact isDecimalText_no_at d hd c hc
    · simp only [List.mem_singleton] at hc
      rw [hc]
      decide
  refine ⟨?_, ?_, ?_, ?_, ?_, ?_⟩
  · intro other side w
    unfold offsetToAbsolutePrice
    simp only [matchAbsolutePrice_at d hd]
  · unfold offsetToAbsolutePrice
    simp only [hnone, hticker, parseQuantity_decimal rt d hd, if_true]
    simp
  · intro side hside
    unfold offsetToAbsolutePrice
    simp only [hnone, hticker, parseQuantity_decimal rt d hd, if_neg hside]
    simp
  · unfold offsetToAbsolutePrice
    simp only [hnonePct, hticker, parseQuantity_percent rt d hd, if_true, mul_div_assoc]
  · intro side hside
    unfold offsetToAbsolutePrice
    simp only [hnonePct, hticker, parseQuantity_percent rt d hd, if_neg hside, if_true,
      mul_div_assoc]
  · intro now context args t t1 r h
    obtain ⟨order, w, w1, details, w2, horder, hunits, hamount, hprice, _, _, _, hplaced, _⟩ :=
      limitOrder_record rt co now context args t t1 r h
    refine ⟨hunits, by rw [horder]; rfl, ⟨w, w1, hprice⟩, _, hplaced, rfl, rfl, rfl, rfl⟩

/-- The scenario of the contract: a buy of 1 at offset 100 with bid 3000 and ask
3050 resolves to 2900 (and a sell to 3150, `@100` to 100), and the limit order
command places the order at 2900 for size 1 and reports
`{order, side: 'buy', price: 2900, amount: 1, units: ''}`. -/
theorem offset_price_resolution_witness :
    isDecimalText "100".data = true
    ∧ sampleCollaborators.ticker "BTCUSD" 0 = (.ok { bid := "3000", ask := "3050" }, 1)
    ∧ offsetToAbsolutePrice sampleRuntime sampleCollaborators "BTCUSD" "buy" "100" 0
        = (.ok 2900, 1)
    ∧ offsetToAbsolutePrice sampleRuntime sampleCollaborators "BTCUSD" "sell" "100" 0
        = (.ok 3150, 1)
    ∧ offsetToAbsolutePrice sampleRuntime sampleCollaborators "BTCUSD" "sell" "@100" 0
        = (.ok 100, 0)
    ∧ limitOrder sampleRuntime sampleCollaborators "now"
        { symbol := "BTCUSD", session := "s" } buyOneArgs freshTrading
        = (.ok (.record { order := some 2, side := "buy", price := 2900, amount := 1,
                          units := "" }),
            { venue := 3,
              placed := [{ symbol := "BTCUSD", amount := 1, price := 2900, side := "buy",
                           postOnly := true, reduceOnly := false }],
              sessionOrders := [{ session := "s", tag := "now", order := 2 }] })
    ∧ ∃ call : LimitOrderCall,
        [({ symbol := "BTCUSD", amount := 1, price := 2900, side := "buy",
            postOnly := true, reduceOnly := false } : LimitOrderCall)]
          = freshTrading.placed ++ [call]
        ∧ call.price = 2900 ∧ call.amount = 1 ∧ call.side = "buy"
        ∧ call.symbol = "BTCUSD" := by
  have h := offset_price_resolution sampleRuntime sampleCollaborators "BTCUSD"
    { bid := "3000", ask := "3050" } 0 1 "100".data (by decide) rfl
  have hrun : limitOrder sampleRuntime sampleCollaborators "now"
      { symbol := "BTCUSD", session := "s" } buyOneArgs freshTrading
      = (.ok (.record { order := some 2, side := "buy", price := 2900, amount := 1,
                        units := "" }),
          { venue := 3,
            placed := [{ symbol := "BTCUSD", amount := 1, price := 2900, side := "buy",
                         postOnly := true, reduceOnly := false }],
            sessionOrders := [{ session := "s", tag := "now", order := 2 }] }) := by
    with_unfolding_all rfl
  refine ⟨by decide, rfl, ?_, ?_, ?_, hrun, ?_⟩
  · exact h.2.1.trans (by with_unfolding_all rfl)
  · exact (h.2.2.1 "sell" (by decide)).trans (by with_unfolding_all rfl)
  · exact (h.1 sampleCollaborators "sell" 0).trans (by with_unfolding_all rfl)
  · exact (h.2.2.2.2.2 "now" _ buyOneArgs freshTrading _ _ hrun).2.2.2

/-! ## Validation in the limit order command -/

theorem limitOrder_at_most_one_call {ν ω : Type} (rt : Runtime) (co : Collaborators ν ω)
    (now : String) (context : Context) (args : List (Param String)) (t : Trading ν ω) :
    (limitOrder rt co now context args t).2.placed = t.placed
    ∨ ∃ call : LimitOrderCall,
        (limitOrder rt co now context args t).2.placed = t.placed ++ [call] := by
  unfold limitOrder
  simp only []
  by_cases hside : paramValue (limitOrderParams rt now args) "side" ≠ "buy"
      ∧ paramValue (limitOrderParams rt now args) "side" ≠ "sell"
  · rw [if_pos hside]
    exact Or.inl rfl
  rw [if_neg hside]
  rcases hpos : positionToAmount rt co context.symbol
      (paramValue (limitOrderParams rt now args) "position")
      (paramValue (limitOrderParams rt now args) "side")
      (paramValue (limitOrderParams rt now args) "amount") t.venue with ⟨err | mp, v1⟩
  · exact Or.inl rfl
  simp only []
  by_cases hzero : mp.amount.value = 0
  · rw [if_pos hzero]
    exact Or.inl rfl
  rw [if_neg hzero]
  rcases hprice : offsetToAbsolutePrice rt co context.symbol mp.side
      (paramValue (limitOrderParams rt now args) "offset") v1 with ⟨err | price, v2⟩
  · exact Or.inl rfl
  simp only []
  by_cases hneg : price < 0
  · rw [if_pos hneg]
    exact Or.inl rfl
  rw [if_neg hneg]
  rcases hsize : orderSizeFromAmount rt co context.symbol mp.side price
      (rt.numberToString mp.amount.value ++ mp.amount.units) v2 with ⟨err | details, v3⟩
  · exact Or.inl rfl
  simp only []
  by_cases hnz : details.orderSize = 0
  · rw [if_pos hnz]
    exact Or.inl rfl
  rw [if_neg hnz]
  rcases hplace : co.limitOrder
      { symbol := context.symbol, amount := details.orderSize, price := price, side := mp.side,
        postOnly :=
          rt.toLowerCase (paramValue (limitOrderParams rt now args) "postOnly") == "true",
        reduceOnly :=
          rt.toLowerCase (paramValue (limitOrderParams rt now args) "reduceOnly") == "true" }
      v3 with ⟨err | order, v4⟩
  · exact Or.inr ⟨_, rfl⟩
  · exact Or.inr ⟨_, rfl⟩

/-- C19 as stated fails when a position is given: with `position=5` and no amount,
the requested amount parses to 0, yet holding 10 the command sells 5 at the ask;
and with `position=10, amount=1` and a valid side the command resolves with
`{order: null}` and does not call the driver, although the requested amount
parses to 1. -/
theorem position_overrides_requested_amount :
    (parseQuantity sampleRuntime
        (paramValue (limitOrderParams sampleRuntime "now" positionFiveArgs) "amount")).value = 0
    ∧ (limitOrder sampleRuntime sampleCollaborators "now" sampleContext positionFiveArgs
          freshTrading).2.placed
        = [{ symbol := "BTCUSD", amount := 5, price := 3050, side := "sell",
             postOnly := true, reduceOnly := false }]
    ∧ (parseQuantity sampleRuntime
        (paramValue (limitOrderParams sampleRuntime "now" heldPositionArgs) "amount")).value = 1
    ∧ paramValue (limitOrderParams sampleRuntime "now" heldPositionArgs) "side" = "buy"
    ∧ limitOrder sampleRuntime sampleCollaborators "now" sampleContext heldPositionArgs
          freshTrading
        = (.ok .orderNull, { freshTrading with venue := 1 }) := by
  refine ⟨by decide!, by decide!, by decide!, by decide, ?_⟩
  with_unfolding_all rfl

/-- C19, as amended: the limit order command rejects without a call of the
driver when side is neither `buy` nor `sell`, when the resolved price is below
zero and when the resolved order size is 0; it resolves with `{order: null}`
without a call when the amount `positionToAmount` returns is 0; when side,
amount, price and size pass these checks it calls the driver exactly once, with
the resolved size, price and side; and in no run does it call the driver more
than once. With no position given `positionToAmount` returns the side and the
requested amount as parsed, without a lookup; with a position given it returns
the absolute value of `roundAsset(target - total)`, where `total` is the sum of
the balances of the asset, with side `sell` when that difference is negative and
`buy` otherwise, whatever amount was requested. When the lookup of the balances
fails, for the position or for the order size, or the lookup of the ticker fails
for an offset that is not an `@price`, the command rejects with that error and
the calls placed are those before the run. -/
theorem limitOrder_validation {ν ω : Type} (rt : Runtime) (co : Collaborators ν ω)
    (now : String) (context : Context) (args : List (Param String)) (t : Trading ν ω) :
    ((paramValue (limitOrderParams rt now args) "side" ≠ "buy"
        ∧ paramValue (limitOrderParams rt now args) "side" ≠ "sell") →
      limitOrder rt co now context args t = (.error (.error "side must be buy or sell"), t))
    ∧ ((paramValue (limitOrderParams rt now args) "side" = "buy"
          ∨ paramValue (limitOrderParams rt now args) "side" = "sell") →
        paramValue (limitOrderParams rt now args) "position" = "" →
        (parseQuantity rt (paramValue (limitOrderParams rt now args) "amount")).value = 0 →
        limitOrder rt co now context args t = (.ok .orderNull, t))
    ∧ (∀ (mp : PositionAmount) (v1 : ν),
        (paramValue (limitOrderParams rt now args) "side" = "buy"
          ∨ paramValue (limitOrderParams rt now args) "side" = "sell") →
        positionToAmount rt co context.symbol
          (paramValue (limitOrderParams rt now args) "position")
          (paramValue (limitOrderParams rt now args) "side")
          (paramValue (limitOrderParams rt now args) "amount") t.venue = (.ok mp, v1) →
        (mp.amount.value = 0 →
          limitOrder rt co now context args t = (.ok .orderNull, { t with venue := v1 }))
        ∧ (mp.amount.value ≠ 0 → ∀ (price : ℚ) (v2 : ν),
            offsetToAbsolutePrice rt co context.symbol mp.side
              (paramValue (limitOrderParams rt now args) "offset") v1 = (.ok price, v2) →
            (price < 0 →
              limitOrder rt co now context args t
                = (.error (.error "Order price below zero not possible."),
                    { t with venue := v2 }))
            ∧ (¬ price < 0 → ∀ (details : OrderSizeDetails) (v3 : ν),
                orderSizeFromAmount rt co context.symbol mp.side price
                  (rt.numberToString mp.amount.value ++ mp.amount.units) v2
                  = (.ok details, v3) →
                (details.orderSize = 0 →
                  limitOrder rt co now context args t
                    = (.error (.error "No funds available or order size is 0"),
                        { t with venue := v3 }))
                ∧ (details.orderSize ≠ 0 →
                  (limitOrder rt co now context args t).2.placed
                    = t.placed ++
                      [{ symbol := context.symbol, amount := details.orderSize,
                         price := price, side := mp.side,
                         postOnly := rt.toLowerCase
                           (paramValue (limitOrderParams rt now args) "postOnly") == "true",
                         reduceOnly := rt.toLowerCase
                           (paramValue (limitOrderParams rt now args) "reduceOnly")
                             == "true" }]))))
    ∧ ((limitOrder rt co now context args t).2.placed = t.placed
        ∨ ∃ call : LimitOrderCall,
            (limitOrder rt co now context args t).2.placed = t.placed ++ [call])
    ∧ (paramValue (limitOrderParams rt now args) "position" = "" →
        positionToAmount rt co context.symbol
          (paramValue (limitOrderParams rt now args) "position")
          (paramValue (limitOrderParams rt now args) "side")
          (paramValue (limitOrderParams rt now args) "amount") t.venue
          = (.ok { side := paramValue (limitOrderParams rt now args) "side",
                   amount := parseQuantity rt (paramValue (limitOrderParams rt now args) "amount") },
              t.venue))
    ∧ (paramValue (limitOrderParams rt now args) "position" ≠ "" →
        ∀ (balances : List Balance) (v1 : ν) (requested : String),
        co.accountBalances context.symbol t.venue = (.ok balances, v1) →
        positionToAmount rt co context.symbol
          (paramValue (limitOrderParams rt now args) "position")
          (paramValue (limitOrderParams rt now args) "side") requested t.venue
          = (.ok { side :=
                     if rt.roundAsset context.symbol
                         (rt.parseFloat (paramValue (limitOrderParams rt now args) "position")
                           - balances.foldl (fun total item =>
                               if item.currency = (splitSymbol rt context.symbol).asset then
                                 total + rt.parseFloat item.amount
                               else total) 0) < 0
                     then "sell" else "buy",
                   amount :=
                     { value :=
                         |rt.roundAsset context.symbol
                           (rt.parseFloat (paramValue (limitOrderParams rt now args) "position")
                             - balances.foldl (fun total item =>
                                 if item.currency = (splitSymbol rt context.symbol).asset then
                                   total + rt.parseFloat item.amount
                                 else total) 0)|,
                       units := "" } }, v1))
    ∧ (∀ (err : JsError) (v1 : ν),
        (paramValue (limitOrderParams rt now args) "side" = "buy"
          ∨ paramValue (limitOrderParams rt now args) "side" = "sell") →
        paramValue (limitOrderParams rt now args) "position" ≠ "" →
        co.accountBalances context.symbol t.venue = (.error err, v1) →
        limitOrder rt co now context args t = (.error err, { t with venue := v1 }))
    ∧ (∀ (mp : PositionAmount) (v1 : ν) (err : JsError) (v2 : ν),
        (paramValue (limitOrderParams rt now args) "side" = "buy"
          ∨ paramValue (limitOrderParams rt now args) "side" = "sell") →
        positionToAmount rt co context.symbol
          (paramValue (limitOrderParams rt now args) "position")
          (paramValue (limitOrderParams rt now args) "side")
          (paramValue (limitOrderParams rt now args) "amount") t.venue = (.ok mp, v1) →
        mp.amount.value ≠ 0 →
        matchAbsolutePrice (paramValue (limitOrderParams rt now args) "offset").data = none →
        co.ticker context.symbol v1 = (.error err, v2) →
        limitOrder rt co now context args t = (.error err, { t with venue := v2 }))
    ∧ (∀ (mp : PositionAmount) (v1 : ν) (price : ℚ) (v2 : ν) (err : JsError) (v3 : ν),
        (paramValue (limitOrderParams rt now args) "side" = "buy"
          ∨ paramValue (limitOrderParams rt now args) "side" = "sell") →
        positionToAmount rt co context.symbol
          (paramValue (limitOrderParams rt now args) "position")
          (paramValue (limitOrderParams rt now args) "side")
          (paramValue (limitOrderParams rt now args) "amount") t.venue = (.ok mp, v1) →
        mp.amount.value ≠ 0 →
        offsetToAbsolutePrice rt co context.symbol mp.side
          (paramValue (limitOrderParams rt now args) "offset") v1 = (.ok price, v2) →
        ¬ price < 0 →
        co.accountBalances context.symbol v2 = (.error err, v3) →
        limitOrder rt co now context args t = (.error err, { t with venue := v3 })) := by
  have hvalid : (paramValue (limitOrderParams rt now args) "side" = "buy"
        ∨ paramValue (limitOrderParams rt now args) "side" = "sell") →
      ¬ (paramValue (limitOrderParams rt now args) "side" ≠ "buy"
        ∧ paramValue (limitOrderParams rt now args) "side" ≠ "sell") := by
    intro h hn
    rcases h with h | h
    · exact hn.1 h
    · exact hn.2 h
  refine ⟨?_, ?_, ?_, limitOrder_at_most_one_call rt co now context args t, ?_, ?_, ?_, ?_, ?_⟩
  · intro hside
    unfold limitOrder
    simp only []
    rw [if_pos hside]
  · intro hside hposition hamount
    unfold limitOrder
    simp only []
    rw [if_neg (hvalid hside)]
    unfold positionToAmount
    rw [if_pos hposition]
    simp only []
    rw [if_pos hamount]
  · intro mp v1 hside hpos
    constructor
    · intro hzero
      unfold limitOrder
      simp only []
      rw [if_neg (hvalid hside), hpos]
      simp only []
      rw [if_pos hzero]
    · intro hzero price v2 hprice
      constructor
      · intro hneg
        unfold limitOrder
        simp only []
        rw [if_neg (hvalid hside), hpos]
        simp only []
        rw [if_neg hzero, hprice]
        simp only []
        rw [if_pos hneg]
      · intro hneg details v3 hsize
        constructor
        · intro hnz
          unfold limitOrder
          simp only []
          rw [if_neg (hvalid hside), hpos]
          simp only []
          rw [if_neg hzero, hprice]
          simp only []
          rw [if_neg hneg, hsize]
          simp only []
          rw [if_pos hnz]
        · intro hnz
          unfold limitOrder
          simp only []
          rw [if_neg (hvalid hside), hpos]
          simp only []
          rw [if_neg hzero, hprice]
          simp only []
          rw [if_neg hneg, hsize]
          simp only []
          rw [if_neg hnz]
          rcases hplace : co.limitOrder
              { symbol := context.symbol, amount := details.orderSize, price := price,
                side := mp.side,
                postOnly := rt.toLowerCase
                  (paramValue (limitOrderParams rt now args) "postOnly") == "true",
                reduceOnly := rt.toLowerCase
                  (paramValue (limitOrderParams rt now args) "reduceOnly") == "true" }
              v3 with ⟨err | order, v4⟩
          · rfl
          · rfl

  · intro hposition
    unfold positionToAmount
    rw [if_pos hposition]
  · intro hposition balances v1 requested hbalances
    unfold positionToAmount
    rw [if_neg hposition, hbalances]
  · intro err v1 hside hposition hbalances
    unfold limitOrder
    simp only []
    rw [if_neg (hvalid hside)]
    unfold positionToAmount
    rw [if_neg hposition, hbalances]
  · intro mp v1 err v2 hside hpos hzero hoffset hticker
    unfold limitOrder
    simp only []
    rw [if_neg (hvalid hside), hpos]
    simp only []
    rw [if_neg hzero]
    unfold offsetToAbsolutePrice
    rw [hoffset]
    simp only []
    rw [hticker]
  · intro mp v1 price v2 err v3 hside hpos hzero hprice hneg hbalances
    unfold limitOrder
    simp only []
    rw [if_neg (hvalid hside), hpos]
    simp only []
    rw [if_neg hzero, hprice]
    simp only []
    rw [if_neg hneg]
    unfold orderSizeFromAmount
    rw [hbalances]

/-- Sample runs on a venue with bid 3000, ask 3050, 10 btc and 50000 usd: side
`hold` is rejected, amount 0 resolves with `{order: null}`, offset 5000 and
a price of 9999999 are rejected, each with nothing placed, and `side=buy, amount=1,
offset=100` places exactly one order. When the ticker or the balances cannot be
looked up the command rejects with that error and nothing placed, and the
position 5 on holdings of 10 resolves to selling 5. -/
theorem limitOrder_validation_witness :
    limitOrder sampleRuntime sampleCollaborators "now" sampleContext holdArgs freshTrading
        = (.error (.error "side must be buy or sell"), freshTrading)
    ∧ limitOrder sampleRuntime sampleCollaborators "now" sampleContext buyNothingArgs
          freshTrading
        = (.ok .orderNull, freshTrading)
    ∧ limitOrder sampleRuntime sampleCollaborators "now" sampleContext deepOffsetArgs
          freshTrading
        = (.error (.error "Order price below zero not possible."),
            { freshTrading with venue := 1 })
    ∧ limitOrder sampleRuntime sampleCollaborators "now" sampleContext costlyArgs freshTrading
        = (.error (.error "No funds available or order size is 0"),
            { freshTrading with venue := 1 })
    ∧ (limitOrder sampleRuntime sampleCollaborators "now" sampleContext buyOneArgs
          freshTrading).2.placed
        = [{ symbol := "BTCUSD", amount := 1, price := 2900, side := "buy",
             postOnly := true, reduceOnly := false }]
    ∧ limitOrder sampleRuntime tickerDownCollaborators "now" sampleContext buyOneArgs
          freshTrading
        = (.error (.error "ticker unavailable"), { freshTrading with venue := 1 })
    ∧ limitOrder sampleRuntime balancesDownCollaborators "now" sampleContext buyOneArgs
          freshTrading
        = (.error (.error "balances unavailable"), { freshTrading with venue := 2 })
    ∧ limitOrder sampleRuntime balancesDownCollaborators "now" sampleContext positionFiveArgs
          freshTrading
        = (.error (.error "balances unavailable"), { freshTrading with venue := 1 })
    ∧ positionToAmount sampleRuntime sampleCollaborators "BTCUSD" "5" "buy" "0" 0
        = (.ok { side := "sell", amount := { value := 5, units := "" } }, 1) := by
  refine ⟨?_, ?_, ?_, ?_, ?_, ?_, ?_, ?_, ?_⟩
  · exact (limitOrder_validation sampleRuntime sampleCollaborators "now" sampleContext
      holdArgs freshTrading).1 (by decide)
  · exact (limitOrder_validation sampleRuntime sampleCollaborators "now" sampleContext
      buyNothingArgs freshTrading).2.1 (by decide) (by decide) (by decide!)
  · exact ((((limitOrder_validation sampleRuntime sampleCollaborators "now" sampleContext
      deepOffsetArgs freshTrading).2.2.1 { side := "buy", amount := { value := 1, units := "" } }
        0 (by decide) (by with_unfolding_all rfl)).2 (by decide!) (-2000) 1
        (by with_unfolding_all rfl)).1 (by decide!))
  · exact ((((limitOrder_validation sampleRuntime sampleCollaborators "now" sampleContext
      costlyArgs freshTrading).2.2.1 { side := "buy", amount := { value := 1, units := "" } }
        0 (by decide) (by with_unfolding_all rfl)).2 (by decide!) 9999999 0
        (by with_unfolding_all rfl)).2 (by decide!)
        { total := 100049990 / 9999999, available := 50000 / 9999999, isAllAvailable := false,
          orderSize := 0, rawOrderSize := 1 } 1 (by with_unfolding_all rfl)).1 rfl
  · exact ((((limitOrder_validation sampleRuntime sampleCollaborators "now" sampleContext
      buyOneArgs freshTrading).2.2.1 { side := "buy", amount := { value := 1, units := "" } }
        0 (by decide) (by with_unfolding_all rfl)).2 (by decide!) 2900 1
        (by with_unfolding_all rfl)).2 (by decide!)
        { total := 790 / 29, available := 500 / 29, isAllAvailable := false,
          orderSize := 1, rawOrderSize := 1 } 2 (by with_unfolding_all rfl)).2 (by decide!)
  · exact (limitOrder_validation sampleRuntime tickerDownCollaborators "now" sampleContext
      buyOneArgs freshTrading).2.2.2.2.2.2.2.1
        { side := "buy", amount := { value := 1, units := "" } } 0 (.error "ticker unavailable")
        1 (by decide) (by with_unfolding_all rfl) (by decide!) (by decide) rfl
  · exact (limitOrder_validation sampleRuntime balancesDownCollaborators "now" sampleContext
      buyOneArgs freshTrading).2.2.2.2.2.2.2.2
        { side := "buy", amount := { value := 1, units := "" } } 0 2900 1
        (.error "balances unavailable") 2 (by decide) (by with_unfolding_all rfl) (by decide!)
        (by with_unfolding_all rfl) (by decide!) rfl
  · exact (limitOrder_validation sampleRuntime balancesDownCollaborators "now" sampleContext
      positionFiveArgs freshTrading).2.2.2.2.2.2.1 (.error "balances unavailable") 1
        (by decide) (by decide) rfl
  · exact ((limitOrder_validation sampleRuntime sampleCollaborators "now" sampleContext
      positionFiveArgs freshTrading).2.2.2.2.2.1 (by decide) sampleBalances 1 "0" rfl).trans
        (by with_unfolding_all rfl)

/-! ## The scaled order command: when nothing is placed -/

/-- C20: for every argument list the scaled order command returns the empty list
and calls the driver not at all (the calls placed are those before the run) when
the order count is below 1, when the amount `positionToAmount` resolves is 0,
and when `support.scaledOrderSize`, which clamps the amount to the available
funds, answers 0. -/
theorem scaledOrder_places_nothing {ν ω : Type} (rt : Runtime) (co : Collaborators ν ω)
    (now : String) (context : Context) (args : List (Param String)) (t : Trading ν ω) :
    (scaledOrderCount rt args < 1 → scaledOrder rt co now context args t = (.ok [], t))
    ∧ (∀ (mp : PositionAmount) (v1 : ν),
        ¬ scaledOrderCount rt args < 1 →
        positionToAmount rt co context.symbol
          (paramValue (scaledOrderParams rt args) "position")
          (paramValue (scaledOrderParams rt args) "side")
          (paramValue (scaledOrderParams rt args) "amount") t.venue = (.ok mp, v1) →
        (mp.amount.value = 0 →
          scaledOrder rt co now context args t = (.ok [], { t with venue := v1 }))
        ∧ (mp.amount.value ≠ 0 → ∀ (from0 to0 : ℚ) (v2 v3 v4 : ν),
            offsetToAbsolutePrice rt co context.symbol mp.side
              (paramValue (scaledOrderParams rt args) "from") v1 = (.ok from0, v2) →
            offsetToAbsolutePrice rt co context.symbol mp.side
              (paramValue (scaledOrderParams rt args) "to") v2 = (.ok to0, v3) →
            ¬ ((if (mp.side = "buy" ∧ from0 < to0) ∨ (mp.side = "sell" ∧ from0 > to0)
                  then to0 else from0) ≤ 0
                ∨ (if (mp.side = "buy" ∧ from0 < to0) ∨ (mp.side = "sell" ∧ from0 > to0)
                  then from0 else to0) ≤ 0) →
            co.scaledOrderSize context
              { fromPrice :=
                  if (mp.side = "buy" ∧ from0 < to0) ∨ (mp.side = "sell" ∧ from0 > to0)
                    then to0 else from0,
                toPrice :=
                  if (mp.side = "buy" ∧ from0 < to0) ∨ (mp.side = "sell" ∧ from0 > to0)
                    then from0 else to0,
                orderCount := scaledOrderCount rt args,
                amount := mp.amount, side := mp.side,
                easing := paramValue (scaledOrderParams rt args) "easing",
                varyAmount :=
                  parsePercentage rt (paramValue (scaledOrderParams rt args) "varyAmount"),
                varyPrice :=
                  parsePercentage rt (paramValue (scaledOrderParams rt args) "varyPrice"),
                tag := paramValue (scaledOrderParams rt args) "tag",
                position := paramValue (scaledOrderParams rt args) "position" } v3
              = (.ok 0, v4) →
            scaledOrder rt co now context args t = (.ok [], { t with venue := v4 }))) := by
  refine ⟨?_, ?_⟩
  · intro hcount
    unfold scaledOrder
    simp only []
    rw [if_pos hcount]
  · intro mp v1 hcount hpos
    constructor
    · intro hzero
      unfold scaledOrder
      simp only []
      rw [if_neg hcount, hpos]
      simp only []
      rw [if_pos hzero]
    · intro hzero from0 to0 v2 v3 v4 hfrom hto hrange hsize
      unfold scaledOrder
      simp only []
      rw [if_neg hcount, hpos]
      simp only []
      rw [if_neg hzero, hfrom]
      simp only []
      rw [hto]
      simp only []
      rw [if_neg hrange, hsize]
      simp only [if_true]

/-- Sample runs on the venue with bid 3000 and ask 3050: an order count of 0 and
an amount of 0 each give the empty list with nothing placed, and so does a
ladder of four buys of 1 in all when the funds allow nothing. -/
theorem scaledOrder_places_nothing_witness :
    scaledOrder sampleRuntime sampleCollaborators "now" sampleContext noRungArgs freshTrading
        = (.ok [], freshTrading)
    ∧ scaledOrder sampleRuntime sampleCollaborators "now" sampleContext emptyLadderArgs
          freshTrading
        = (.ok [], freshTrading)
    ∧ scaledOrder sampleRuntime brokeCollaborators "now" sampleContext fourRungArgs
          freshTrading
        = (.ok [], { freshTrading with venue := 3 })
    ∧ (scaledOrder sampleRuntime sampleCollaborators "now" sampleContext fourRungArgs
          freshTrading).2.placed.length = 4 := by
  refine ⟨?_, ?_, ?_, by decide!⟩
  · exact (scaledOrder_places_nothing sampleRuntime sampleCollaborators "now" sampleContext
      noRungArgs freshTrading).1 (by decide)
  · exact ((scaledOrder_places_nothing sampleRuntime sampleCollaborators "now" sampleContext
      emptyLadderArgs freshTrading).2 { side := "buy", amount := { value := 0, units := "" } }
        0 (by decide) (by with_unfolding_all rfl)).1 rfl
  · exact ((scaledOrder_places_nothing sampleRuntime brokeCollaborators "now" sampleContext
      fourRungArgs freshTrading).2 { side := "buy", amount := { value := 1, units := "" } }
        0 (by decide) (by with_unfolding_all rfl)).2 (by decide!) 2900 2800 1 2 3
        (by with_unfolding_all rfl) (by with_unfolding_all rfl) (by decide!) rfl

/-! ## The scaled order command: the rungs -/

theorem timesSeriesFrom_length {τ β : Type} (iteratee : Nat → τ → β × τ) (n : Nat) :
    ∀ (start : Nat) (t : τ), (timesSeriesFrom iteratee n start t).1.length = n := by
  induction n with
  | zero => intro start t; rfl
  | succ k ih =>
    intro start t
    unfold timesSeriesFrom
    simp only [List.length_cons, ih]

theorem timesSeriesFrom_getElem? {τ β : Type} (iteratee : Nat → τ → β × τ) (n : Nat) :
    ∀ (start : Nat) (t : τ) (i : Nat), i < n →
      ∃ ti : τ, (timesSeriesFrom iteratee n start t).1[i]? = some (iteratee (start + i) ti).1 := by
  induction n with
  | zero => intro start t i hi; omega
  | succ k ih =>
    intro start t i hi
    unfold timesSeriesFrom
    cases i with
    | zero => exact ⟨t, by simp⟩
    | succ j =>
      obtain ⟨ti, hti⟩ := ih (start + 1) (iteratee start t).2 j (by omega)
      refine ⟨ti, ?_⟩
      simp only [List.getElem?_cons_succ, hti]
      congr 3
      omega

/-- C21 (the code evaluated): the rungs are run one after the other and give one
result each, the result of rung `i` being what the iteratee returns for `i`.
Without units a rung is one call of the driver, and its record has `order: null`
when that call failed and the placed order otherwise. With units the rung goes
through `executeCommand`, and a limit order that fails with anything but an
`AbortSequenceError` leaves `undefined` as the result of the rung, not a record
with `order: null`. -/
theorem scaledOrder_rung_results {ν ω : Type} (rt : Runtime) (co : Collaborators ν ω)
    (now : String) (context : Context) (p : ScaledParams) (amounts prices : Nat → ℚ) :
    (∀ (n : Nat) (t : Trading ν ω),
        (timesSeriesFrom (scaledOrderRung rt co now context p amounts prices) n 0 t).1.length = n
        ∧ ∀ i : Nat, i < n → ∃ ti : Trading ν ω,
            (timesSeriesFrom (scaledOrderRung rt co now context p amounts prices) n 0 t).1[i]?
              = some (scaledOrderRung rt co now context p amounts prices i ti).1)
    ∧ (p.amount.units = "" → ∀ (i : Nat) (t : Trading ν ω) (e : JsError) (v1 : ν),
        co.limitOrder
          { symbol := context.symbol, amount := amounts i, price := prices i, side := p.side,
            postOnly := true, reduceOnly := false } t.venue = (.error e, v1) →
        scaledOrderRung rt co now context p amounts prices i t
          = (.record { order := none, side := p.side, price := prices i, amount := amounts i,
                       units := p.amount.units },
              { t with venue := v1,
                       placed := t.placed ++
                         [{ symbol := context.symbol, amount := amounts i, price := prices i,
                            side := p.side, postOnly := true, reduceOnly := false }] }))
    ∧ (p.amount.units = "" → ∀ (i : Nat) (t : Trading ν ω) (order : ω) (v1 : ν),
        co.limitOrder
          { symbol := context.symbol, amount := amounts i, price := prices i, side := p.side,
            postOnly := true, reduceOnly := false } t.venue = (.ok order, v1) →
        scaledOrderRung rt co now context p amounts prices i t
          = (.record { order := some order, side := p.side, price := prices i,
                       amount := amounts i, units := "" },
              { venue := v1,
                placed := t.placed ++
                  [{ symbol := context.symbol, amount := amounts i, price := prices i,
                     side := p.side, postOnly := true, reduceOnly := false }],
                sessionOrders := addToSession t.sessionOrders context.session p.tag order }))
    ∧ (p.amount.units ≠ "" → ∀ (i : Nat) (t t1 : Trading ν ω) (err : JsError),
        limitOrder rt co now context
          [{ name := "side", value := p.side, index := 0 },
           { name := "offset", value := "@" ++ rt.numberToString (prices i), index := 1 },
           { name := "amount", value := rt.numberToString (amounts i) ++ p.amount.units,
             index := 2 },
           { name := "tag", value := p.tag, index := 3 }] t = (.error err, t1) →
        err.isAbortSequence = false →
        scaledOrderRung rt co now context p amounts prices i t = (.undefined, t1)) := by
  refine ⟨?_, ?_, ?_, ?_⟩
  · intro n t
    refine ⟨timesSeriesFrom_length _ n 0 t, ?_⟩
    intro i hi
    obtain ⟨ti, hti⟩ := timesSeriesFrom_getElem? (scaledOrderRung rt co now context p amounts
      prices) n 0 t i hi
    rw [Nat.zero_add] at hti
    exact ⟨ti, hti⟩
  · intro hunits i t e v1 hcall
    unfold scaledOrderRung
    simp only [hunits, if_true, hcall]
  · intro hunits i t order v1 hcall
    unfold scaledOrderRung
    simp only [hunits, if_true, hcall]
  · intro hunits i t t1 err hrun habort
    unfold scaledOrderRung executeLimitOrderCommand
    simp only [hunits, if_false, hrun, habort]
    simp

/-- C21, at a venue whose driver rejects every order: the ladder
`from=100, to=200, orderCount=2, amount=2` gives two records with `order: null`,
and the ladder with `amount=50%` gives `undefined` twice. -/
theorem scaledOrder_rung_results_witness :
    (scaledOrder sampleRuntime refusingCollaborators "now" sampleContext twoRungArgs
        freshTrading).1
      = .ok [.record { order := none, side := "buy", price := 2900, amount := 1, units := "" },
             .record { order := none, side := "buy", price := 2800, amount := 1, units := "" }]
    ∧ (scaledOrder sampleRuntime refusingCollaborators "now" sampleContext percentLadderArgs
        freshTrading).1
      = .ok [.undefined, .undefined]
    ∧ (∀ (i : Nat) (t t1 : Trading Nat Nat) (err : JsError),
        limitOrder sampleRuntime refusingCollaborators "now" sampleContext
          [{ name := "side", value := "buy", index := 0 },
           { name := "offset",
             value := "@" ++ sampleRuntime.numberToString ((2900 : ℚ) - 100 * i), index := 1 },
           { name := "amount", value := sampleRuntime.numberToString (25 : ℚ) ++ "%",
             index := 2 },
           { name := "tag", value := "", index := 3 }] t = (.error err, t1) →
        err.isAbortSequence = false →
        scaledOrderRung sampleRuntime refusingCollaborators "now" sampleContext
          { fromPrice := 2900, toPrice := 2800, orderCount := 2,
            amount := { value := 50, units := "%" }, side := "buy", easing := "linear",
            varyAmount := 0, varyPrice := 0, tag := "", position := "" }
          (fun _ => 25) (fun i => 2900 - 100 * i) i t = (.undefined, t1)) := by
  refine ⟨by with_unfolding_all rfl, by with_unfolding_all rfl, ?_⟩
  exact (scaledOrder_rung_results sampleRuntime refusingCollaborators "now" sampleContext
    { fromPrice := 2900, toPrice := 2800, orderCount := 2,
      amount := { value := 50, units := "%" }, side := "buy", easing := "linear",
      varyAmount := 0, varyPrice := 0, tag := "", position := "" }
    (fun _ => 25) (fun i => 2900 - 100 * i)).2.2.2 (by decide)

/-! ## The scaled order command: the price range -/

theorem scaledOrderRange_fst (side : String) (from0 to0 : ℚ) :
    (if (side = "buy" ∧ from0 < to0) ∨ (side = "sell" ∧ from0 > to0) then to0 else from0)
      = (scaledOrderRange side from0 to0).1 := by
  unfold scaledOrderRange
  split <;> rfl

theorem scaledOrderRange_snd (side : String) (from0 to0 : ℚ) :
    (if (side = "buy" ∧ from0 < to0) ∨ (side = "sell" ∧ from0 > to0) then from0 else to0)
      = (scaledOrderRange side from0 to0).2 := by
  unfold scaledOrderRange
  split <;> rfl

/-- C22 as stated fails for the direction: a buy ladder with `from=100, to=200`
below a bid of 3000 resolves to 2900 and 2800 and is not swapped, so `from` is
above `to`, and the four rungs are placed from 2900, the price nearest the
market, down to 2800, the furthest. -/
theorem buy_ladder_runs_from_nearest :
    offsetToAbsolutePrice sampleRuntime sampleCollaborators "BTCUSD" "buy" "100" 0
        = (.ok 2900, 1)
    ∧ offsetToAbsolutePrice sampleRuntime sampleCollaborators "BTCUSD" "buy" "200" 1
        = (.ok 2800, 2)
    ∧ scaledOrderRange "buy" 2900 2800 = (2900, 2800)
    ∧ ¬ (scaledOrderRange "buy" 2900 2800).1 ≤ (scaledOrderRange "buy" 2900 2800).2
    ∧ (scaledOrder sampleRuntime sampleCollaborators "now" sampleContext fourRungArgs
          freshTrading).2.placed.map (fun call => call.price)
        = [2900, 8600 / 3, 8500 / 3, 2800] := by
  refine ⟨by with_unfolding_all rfl, by with_unfolding_all rfl, by decide!, by decide!,
    by decide!⟩

/-- C22, as amended: once `from` and `to` are resolved, the scaled order command
swaps them so that a buy ladder has `from >= to` and a sell ladder `from <= to`,
which is from the price nearest the market to the furthest; the two are the
resolved prices in one order or the other; when either resolved price is not
positive the command returns the empty list and places nothing; and otherwise
the prices of the rungs are those `scaledPrices` generates from the swapped
`from` to the swapped `to`. -/
theorem scaledOrder_range {ν ω : Type} (rt : Runtime) (co : Collaborators ν ω)
    (now : String) (context : Context) (args : List (Param String)) (t : Trading ν ω)
    (mp : PositionAmount) (from0 to0 : ℚ) (v1 v2 v3 : ν)
    (hcount : ¬ scaledOrderCount rt args < 1)
    (hpos : positionToAmount rt co context.symbol
        (paramValue (scaledOrderParams rt args) "position")
        (paramValue (scaledOrderParams rt args) "side")
        (paramValue (scaledOrderParams rt args) "amount") t.venue = (.ok mp, v1))
    (hamount : mp.amount.value ≠ 0)
    (hfrom : offsetToAbsolutePrice rt co context.symbol mp.side
        (paramValue (scaledOrderParams rt args) "from") v1 = (.ok from0, v2))
    (hto : offsetToAbsolutePrice rt co context.symbol mp.side
        (paramValue (scaledOrderParams rt args) "to") v2 = (.ok to0, v3)) :
    (mp.side = "buy" →
        (scaledOrderRange mp.side from0 to0).2 ≤ (scaledOrderRange mp.side from0 to0).1)
    ∧ (mp.side = "sell" →
        (scaledOrderRange mp.side from0 to0).1 ≤ (scaledOrderRange mp.side from0 to0).2)
    ∧ (scaledOrderRange mp.side from0 to0 = (from0, to0)
        ∨ scaledOrderRange mp.side from0 to0 = (to0, from0))
    ∧ ((from0 ≤ 0 ∨ to0 ≤ 0) →
        scaledOrder rt co now context args t = (.ok [], { t with venue := v3 }))
    ∧ (¬ (from0 ≤ 0 ∨ to0 ≤ 0) → ∀ (value : ℚ) (v4 : ν),
        co.scaledOrderSize context
          { fromPrice := (scaledOrderRange mp.side from0 to0).1,
            toPrice := (scaledOrderRange mp.side from0 to0).2,
            orderCount := scaledOrderCount rt args,
            amount := mp.amount, side := mp.side,
            easing := paramValue (scaledOrderParams rt args) "easing",
            varyAmount :=
              parsePercentage rt (paramValue (scaledOrderParams rt args) "varyAmount"),
            varyPrice :=
              parsePercentage rt (paramValue (scaledOrderParams rt args) "varyPrice"),
            tag := paramValue (scaledOrderParams rt args) "tag",
            position := paramValue (scaledOrderParams rt args) "position" } v3
          = (.ok value, v4) →
        value ≠ 0 →
        scaledOrder rt co now context args t
          = (.ok (timesSeriesFrom
                (scaledOrderRung rt co now context
                  { fromPrice := (scaledOrderRange mp.side from0 to0).1,
                    toPrice := (scaledOrderRange mp.side from0 to0).2,
                    orderCount := scaledOrderCount rt args,
                    amount := { value := value, units := mp.amount.units }, side := mp.side,
                    easing := paramValue (scaledOrderParams rt args) "easing",
                    varyAmount :=
                      parsePercentage rt (paramValue (scaledOrderParams rt args) "varyAmount"),
                    varyPrice :=
                      parsePercentage rt (paramValue (scaledOrderParams rt args) "varyPrice"),
                    tag := paramValue (scaledOrderParams rt args) "tag",
                    position := paramValue (scaledOrderParams rt args) "position" }
                  (co.scaledAmounts (scaledOrderCount rt args) value
                    (parsePercentage rt (paramValue (scaledOrderParams rt args) "varyAmount")))
                  (co.scaledPrices (scaledOrderCount rt args)
                    (scaledOrderRange mp.side from0 to0).1
                    (scaledOrderRange mp.side from0 to0).2
                    (parsePercentage rt (paramValue (scaledOrderParams rt args) "varyPrice"))
                    (paramValue (scaledOrderParams rt args) "easing")))
                (scaledOrderCount rt args).toNat 0 { t with venue := v4 }).1,
              (timesSeriesFrom
                (scaledOrderRung rt co now context
                  { fromPrice := (scaledOrderRange mp.side from0 to0).1,
                    toPrice := (scaledOrderRange mp.side from0 to0).2,
                    orderCount := scaledOrderCount rt args,
                    amount := { value := value, units := mp.amount.units }, side := mp.side,
                    easing := paramValue (scaledOrderParams rt args) "easing",
                    varyAmount :=
                      parsePercentage rt (paramValue (scaledOrderParams rt args) "varyAmount"),
                    varyPrice :=
                      parsePercentage rt (paramValue (scaledOrderParams rt args) "varyPrice"),
                    tag := paramValue (scaledOrderParams rt args) "tag",
                    position := paramValue (scaledOrderParams rt args) "position" }
                  (co.scaledAmounts (scaledOrderCount rt args) value
                    (parsePercentage rt (paramValue (scaledOrderParams rt args) "varyAmount")))
                  (co.scaledPrices (scaledOrderCount rt args)
                    (scaledOrderRange mp.side from0 to0).1
                    (scaledOrderRange mp.side from0 to0).2
                    (parsePercentage rt (paramValue (scaledOrderParams rt args) "varyPrice"))
                    (paramValue (scaledOrderParams rt args) "easing")))
                (scaledOrderCount rt args).toNat 0 { t with venue := v4 }).2)) := by
  have hrange : ((scaledOrderRange mp.side from0 to0).1 ≤ 0
      ∨ (scaledOrderRange mp.side from0 to0).2 ≤ 0) ↔ (from0 ≤ 0 ∨ to0 ≤ 0) := by
    unfold scaledOrderRange
    split
    · exact Or.comm
    · exact Iff.rfl
  refine ⟨?_, ?_, ?_, ?_, ?_⟩
  · intro hbuy
    unfold scaledOrderRange
    split
    · rename_i hswap
      rcases hswap with ⟨_, h⟩ | ⟨hsell, _⟩
      · exact le_of_lt h
      · rw [hbuy] at hsell
        exact absurd hsell (by decide)
    · rename_i hswap
      have : ¬ from0 < to0 := fun h => hswap (Or.inl ⟨hbuy, h⟩)
      exact not_lt.mp this
  · intro hsell
    unfold scaledOrderRange
    split
    · rename_i hswap
      rcases hswap with ⟨hbuy, _⟩ | ⟨_, h⟩
      · rw [hsell] at hbuy
        exact absurd hbuy (by decide)
      · exact le_of_lt h
    · rename_i hswap
      have : ¬ from0 > to0 := fun h => hswap (Or.inr ⟨hsell, h⟩)
      exact not_lt.mp this
  · unfold scaledOrderRange
    split
    · exact Or.inr rfl
    · exact Or.inl rfl
  · intro hnonpos
    unfold scaledOrder
    simp only []
    rw [if_neg hcount, hpos]
    simp only []
    rw [if_neg hamount, hfrom]
    simp only []
    rw [hto]
    simp only []
    rw [scaledOrderRange_fst, scaledOrderRange_snd, if_pos (hrange.mpr hnonpos)]
  · intro hpositive value v4 hsize hvalue
    unfold scaledOrder
    simp only []
    rw [if_neg hcount, hpos]
    simp only []
    rw [if_neg hamount, hfrom]
    simp only []
    rw [hto]
    simp only []
    rw [scaledOrderRange_fst, scaledOrderRange_snd,
      if_neg (fun h => hpositive (hrange.mp h)), hsize]
    simp only []
    rw [if_neg hvalue]

/-- C22, at the sample venue: the buy ladder `from=100, to=200` has its range
at 2900 and 2800, with `to` below `from`, and with `to=5000` the resolved price
-2000 makes the command return the empty list with nothing placed. -/
theorem scaledOrder_range_witness :
    (scaledOrderRange "buy" 2900 2800).2 ≤ (scaledOrderRange "buy" 2900 2800).1
    ∧ scaledOrder sampleRuntime sampleCollaborators "now" sampleContext deepLadderArgs
          freshTrading
        = (.ok [], { freshTrading with venue := 2 }) := by
  constructor
  · exact (scaledOrder_range sampleRuntime sampleCollaborators "now" sampleContext fourRungArgs
      freshTrading { side := "buy", amount := { value := 1, units := "" } } 2900 2800 0 1 2
      (by decide) (by with_unfolding_all rfl) (by decide!) (by with_unfolding_all rfl)
      (by with_unfolding_all rfl)).1 rfl
  · exact (scaledOrder_range sampleRuntime sampleCollaborators "now" sampleContext
      deepLadderArgs freshTrading { side := "buy", amount := { value := 1, units := "" } }
      2900 (-2000) 0 1 2
      (by decide) (by with_unfolding_all rfl) (by decide!) (by with_unfolding_all rfl)
      (by with_unfolding_all rfl)).2.2.2.1 (Or.inr (by decide!))

/-! ## Session orders -/

/-- C25 (the code evaluated): after any sequence of calls `findInSession` returns,
in list order, the orders of the entries present whose session and tag match
(any tag for `null`), and `addToSession` appends one entry; but
`removeFromSession(session, order)` removes every entry that holds the order,
whatever its session, so after the same order was added to `s1` and `s2`,
removing it from `s1` also removes it from `s2`. -/
theorem removeFromSession_ignores_session {ω : Type} [DecidableEq ω]
    (calls : List (SessionCall ω)) (session other tag : String) (order : ω) :
    findInSession (sessionOrdersAfter calls) session (some tag)
        = ((sessionOrdersAfter calls).filter
            (fun entry => decide (entry.session = session ∧ entry.tag = tag))).map
            (fun entry => entry.order)
    ∧ findInSession (sessionOrdersAfter calls) session none
        = ((sessionOrdersAfter calls).filter
            (fun entry => decide (entry.session = session))).map (fun entry => entry.order)
    ∧ sessionOrdersAfter (calls ++ [.add session tag order])
        = sessionOrdersAfter calls ++ [{ session := session, tag := tag, order := order }]
    ∧ sessionOrdersAfter (calls ++ [.remove session order])
        = (sessionOrdersAfter calls).filter (fun entry => decide (entry.order ≠ order))
    ∧ order ∉ findInSession (sessionOrdersAfter (calls ++ [.remove session order])) other none
    ∧ order ∉ findInSession
        (sessionOrdersAfter (calls ++ [.add other tag order, .remove session order]))
        other none
    ∧ order ∈ findInSession (sessionOrdersAfter (calls ++ [.add other tag order])) other none := by
  refine ⟨?_, ?_, ?_, ?_, ?_, ?_, ?_⟩
  · unfold findInSession
    congr 2
    funext entry
    simp
  · unfold findInSession
    congr 2
    funext entry
    simp
  · simp [sessionOrdersAfter, SessionCall.run, addToSession]
  · simp [sessionOrdersAfter, SessionCall.run, removeFromSession]
  · simp [sessionOrdersAfter, SessionCall.run, removeFromSession, findInSession]
  · simp [sessionOrdersAfter, SessionCall.run, removeFromSession, findInSession, addToSession]
  · simp [sessionOrdersAfter, SessionCall.run, findInSession, addToSession]

/-- C25, at a sample run: order 7 is added to the sessions `s1` and `s2` and then
removed from `s1`; session `s2` has lost it as well. -/
theorem removeFromSession_ignores_session_witness :
    findInSession (sessionOrdersAfter [SessionCall.add "s1" "t" 7, .add "s2" "t" 7]) "s2" none
        = [7]
    ∧ findInSession (sessionOrdersAfter sharedOrderCalls) "s2" none = []
    ∧ 7 ∉ findInSession (sessionOrdersAfter sharedOrderCalls) "s2" none :=
  ⟨by decide, by decide,
   (removeFromSession_ignores_session [SessionCall.add "s1" "t" 7] "s1" "s2" "t" 7).2.2.2.2.2.1⟩

/-! ## Bitfinex: the order size from an amount -/

/-- C26 (the code evaluated): configured for margin or not,
`Bitfinex.orderSizeFromAmount` resolves with exactly what the base method
resolves with, because the adjustment is made on the promise and not on the
record; so under margin the order size is still
`roundAsset` of the size capped by the available balance. -/
theorem bitfinex_margin_still_capped {ν ω : Type} (isMargin : Bool) (rt : Runtime)
    (co : Collaborators ν ω) (symbol side : String) (orderPrice : ℚ) (amountStr : String)
    (v : ν) :
    Bitfinex.orderSizeFromAmount isMargin rt co symbol side orderPrice amountStr v
        = orderSizeFromAmount rt co symbol side orderPrice amountStr v
    ∧ ∀ (details : OrderSizeDetails) (v1 : ν),
        Bitfinex.orderSizeFromAmount true rt co symbol side orderPrice amountStr v
            = (.ok details, v1) →
        details.orderSize = rt.roundAsset symbol (sizeBeforeRounding rt symbol details) := by
  have hsame : ∀ margin : Bool,
      Bitfinex.orderSizeFromAmount margin rt co symbol side orderPrice amountStr v
        = orderSizeFromAmount rt co symbol side orderPrice amountStr v := by
    intro margin
    unfold Bitfinex.orderSizeFromAmount
    cases margin <;> rfl
  refine ⟨hsame isMargin, ?_⟩
  intro details v1 h
  rw [hsame true] at h
  unfold orderSizeFromAmount at h
  rcases hbal : co.accountBalances symbol v with ⟨err | balances, v2⟩
  · rw [hbal] at h
    simp at h
  · rw [hbal] at h
    simp only [Prod.mk.injEq, Except.ok.injEq] at h
    rw [← h.1]
    exact (calcOrderSize_fields rt symbol side (parseQuantity rt amountStr) balances
      orderPrice).2.2.2

/-- C26, at the sample venue with 10 btc: under margin a request to sell 100 is
sized 10, not the raw size 100. -/
theorem bitfinex_margin_still_capped_witness :
    (Bitfinex.orderSizeFromAmount true sampleRuntime sampleCollaborators "BTCUSD" "sell" 3050
        "100" 0).1.toOption.map (fun d => (d.rawOrderSize, d.orderSize))
      = some (100, 10)
    ∧ Bitfinex.orderSizeFromAmount true sampleRuntime sampleCollaborators "BTCUSD" "sell" 3050
        "100" 0
      = orderSizeFromAmount sampleRuntime sampleCollaborators "BTCUSD" "sell" 3050 "100" 0 :=
  ⟨by decide!,
   (bitfinex_margin_still_capped true sampleRuntime sampleCollaborators "BTCUSD" "sell" 3050
      "100" 0).1⟩

/-! ## The offset of `offsetToAbsolutePrice` -/

theorem isDecimalText_digits (whole : List Char) (hne : whole ≠ [])
    (hwhole : ∀ c ∈ whole, c.isDigit = true) : isDecimalText whole = true := by
  have htake : whole.takeWhile Char.isDigit = whole := List.takeWhile_eq_self_iff.mpr hwhole
  have hdrop : whole.dropWhile Char.isDigit = [] := List.dropWhile_eq_nil_iff.mpr hwhole
  unfold isDecimalText
  simp [htake, hdrop, hne]

theorem isDecimalText_fraction (whole frac : List Char) (hne : whole ≠ [])
    (hwhole : ∀ c ∈ whole, c.isDigit = true) (hfne : frac ≠ [])
    (hfrac : ∀ c ∈ frac, c.isDigit = true) : isDecimalText (whole ++ '.' :: frac) = true := by
  have htake : (whole ++ '.' :: frac).takeWhile Char.isDigit = whole := by
    rw [List.takeWhile_append_of_pos hwhole]
    simp
  have hdrop : (whole ++ '.' :: frac).dropWhile Char.isDigit = '.' :: frac := by
    rw [List.dropWhile_append_of_pos hwhole]
    simp
  unfold isDecimalText
  simp only [htake, hdrop, List.head?_cons, List.tail_cons, Bool.and_eq_true, Bool.or_eq_true,
    bne_iff_ne, ne_eq, beq_iff_eq, List.all_eq_true]
  exact ⟨hne, Or.inr ⟨⟨trivial, hfne⟩, hfrac⟩⟩

theorem matchNumber_isDecimalText (s num rest : List Char)
    (h : matchNumber s = some (num, rest)) : isDecimalText num = true := by
  unfold matchNumber at h
  simp only [] at h
  have hdigits : ∀ c ∈ s.takeWhile Char.isDigit, c.isDigit = true :=
    fun c hc => List.mem_takeWhile_imp hc
  split at h
  · simp at h
  · rename_i hne
    split at h
    · simp only [Option.some.injEq, Prod.mk.injEq] at h
      rw [← h.1]
      exact isDecimalText_digits _ hne hdigits
    · rename_i c more hrest
      split at h
      · rename_i hdot
        simp only [Option.some.injEq, Prod.mk.injEq] at h
        rw [← h.1]
        exact isDecimalText_fraction _ _ hne hdigits hdot.2
          (fun c hc => List.mem_takeWhile_imp hc)
      · simp only [Option.some.injEq, Prod.mk.injEq] at h
        rw [← h.1]
        exact isDecimalText_digits _ hne hdigits

theorem matchQuantity_isDecimalText (s num : List Char) (units : Option (List Char))
    (h : matchQuantity s = some (num, units)) : isDecimalText num = true := by
  unfold matchQuantity at h
  cases hm : matchNumber s with
  | none => rw [hm] at h; simp at h
  | some pair =>
    obtain ⟨number, rest⟩ := pair
    rw [hm] at h
    simp only [] at h
    have hnum := matchNumber_isDecimalText s number rest hm
    split at h
    · simp only [Option.some.injEq, Prod.mk.injEq] at h
      rw [← h.1]; exact hnum
    · split at h
      · simp only [Option.some.injEq, Prod.mk.injEq] at h
        rw [← h.1]; exact hnum
      · split at h
        · simp only [Option.some.injEq, Prod.mk.injEq] at h
          rw [← h.1]; exact hnum
        · simp at h

theorem parseQuantity_value_nonneg (rt : Runtime) (qty : String)
    (hparse : ∀ d : List Char, isDecimalText d = true → 0 ≤ rt.parseFloat ⟨d⟩) :
    0 ≤ (parseQuantity rt qty).value := by
  unfold parseQuantity
  cases hm : matchQuantity qty.data with
  | none => exact le_refl _
  | some pair =>
    obtain ⟨number, units⟩ := pair
    exact hparse number (matchQuantity_isDecimalText qty.data number units hm)

theorem matchQuantity_minus (rest : List Char) : matchQuantity ('-' :: rest) = none := by
  unfold matchQuantity matchNumber
  simp

/-- C29 as stated fails for a percentage offset when the bid is negative: with a
bid of -10 the offset `50%` is -5, and the buy price -5 is above the bid. -/
theorem percent_offset_above_negative_bid :
    matchAbsolutePrice "50%".data = none
    ∧ negativeBidCollaborators.ticker "BTCUSD" 0 = (.ok { bid := "-10", ask := "-9" }, 1)
    ∧ sampleRuntime.parseFloat "-10" = -10
    ∧ parseQuantity sampleRuntime "50%" = { value := 50, units := "%" }
    ∧ offsetToAbsolutePrice sampleRuntime negativeBidCollaborators "BTCUSD" "buy" "50%" 0
        = (.ok (-5), 1)
    ∧ ¬ ((-5 : ℚ) ≤ sampleRuntime.parseFloat "-10") := by
  refine ⟨by decide, rfl, by decide!, by decide!, by with_unfolding_all rfl, by decide!⟩

/-- C29, as amended: for every offset string that is not an `@price` form,
`parseQuantity` gives a value that is not negative, and `{value: 0, units: ''}`
for a string that does not match its pattern, such as one that starts with a
minus sign; `offsetToAbsolutePrice` rounds `bid - offset` for a buy and
`ask + offset` otherwise, where the offset is the value, or for units `%` the
price times value/100; so the price before rounding is not above the bid for a
buy and not below the ask for a sell whenever the units are not `%` or the bid
(the ask) is not negative. The hypothesis on `parseFloat` says that it reads
digits with an optional fraction part as a number that is not negative. -/
theorem offset_never_crosses_market {ν ω : Type} (rt : Runtime) (co : Collaborators ν ω)
    (symbol offsetStr : String) (ticker : Ticker) (v v1 : ν)
    (hparse : ∀ d : List Char, isDecimalText d = true → 0 ≤ rt.parseFloat ⟨d⟩)
    (hnot : matchAbsolutePrice offsetStr.data = none)
    (hticker : co.ticker symbol v = (.ok ticker, v1)) :
    0 ≤ (parseQuantity rt offsetStr).value
    ∧ (matchQuantity offsetStr.data = none →
        parseQuantity rt offsetStr = { value := 0, units := "" })
    ∧ (∀ rest : List Char, offsetStr.data = '-' :: rest →
        parseQuantity rt offsetStr = { value := 0, units := "" })
    ∧ offsetToAbsolutePrice rt co symbol "buy" offsetStr v
        = (.ok (rt.roundPrice symbol
            (rt.parseFloat ticker.bid
              - (if (parseQuantity rt offsetStr).units = "%" then
                  rt.parseFloat ticker.bid * ((parseQuantity rt offsetStr).value / 100)
                else (parseQuantity rt offsetStr).value))), v1)
    ∧ (∀ side : String, side ≠ "buy" →
        offsetToAbsolutePrice rt co symbol side offsetStr v
          = (.ok (rt.roundPrice symbol
              (rt.parseFloat ticker.ask
                + (if (parseQuantity rt offsetStr).units = "%" then
                    rt.parseFloat ticker.ask * ((parseQuantity rt offsetStr).value / 100)
                  else (parseQuantity rt offsetStr).value))), v1))
    ∧ ((parseQuantity rt offsetStr).units ≠ "%" ∨ 0 ≤ rt.parseFloat ticker.bid →
        rt.parseFloat ticker.bid
          - (if (parseQuantity rt offsetStr).units = "%" then
              rt.parseFloat ticker.bid * ((parseQuantity rt offsetStr).value / 100)
            else (parseQuantity rt offsetStr).value)
          ≤ rt.parseFloat ticker.bid)
    ∧ ((parseQuantity rt offsetStr).units ≠ "%" ∨ 0 ≤ rt.parseFloat ticker.ask →
        rt.parseFloat ticker.ask
          ≤ rt.parseFloat ticker.ask
            + (if (parseQuantity rt offsetStr).units = "%" then
                rt.parseFloat ticker.ask * ((parseQuantity rt offsetStr).value / 100)
              else (parseQuantity rt offsetStr).value)) := by
  have hvalue := parseQuantity_value_nonneg rt offsetStr hparse
  have hoffset : ∀ price : ℚ, ((parseQuantity rt offsetStr).units ≠ "%" ∨ 0 ≤ price) →
      0 ≤ (if (parseQuantity rt offsetStr).units = "%" then
            price * ((parseQuantity rt offsetStr).value / 100)
          else (parseQuantity rt offsetStr).value) := by
    intro price hcase
    split
    · rename_i hunits
      rcases hcase with h | h
      · exact absurd hunits h
      · exact mul_nonneg h (div_nonneg hvalue (by norm_num))
    · exact hvalue
  refine ⟨hvalue, ?_, ?_, ?_, ?_, ?_, ?_⟩
  · intro hnone
    unfold parseQuantity
    rw [hnone]
  · intro rest hminus
    unfold parseQuantity
    rw [hminus, matchQuantity_minus]
  · unfold offsetToAbsolutePrice
    simp only [hnot, hticker, if_true]
  · intro side hside
    unfold offsetToAbsolutePrice
    simp only [hnot, hticker, if_neg hside]
  · intro hcase
    have := hoffset (rt.parseFloat ticker.bid) hcase
    linarith
  · intro hcase
    have := hoffset (rt.parseFloat ticker.ask) hcase
    linarith

theorem decimalParseFloat_nonneg (d : List Char) (h : isDecimalText d = true) :
    0 ≤ sampleRuntime.parseFloat ⟨d⟩ := by
  have hnonneg : ∀ cs : List Char, 0 ≤ unsignedDecimalValue cs := by
    intro cs
    unfold unsignedDecimalValue
    split
    · split
      · positivity
      · positivity
    · positivity
  cases d with
  | nil =>
    unfold isDecimalText at h
    simp at h
  | cons c rest =>
    have hc : c ≠ '-' := by
      intro hc
      subst hc
      unfold isDecimalText at h
      simp at h
    change 0 ≤ decimalParseFloat ⟨c :: rest⟩
    unfold decimalParseFloat
    simp only [hc, if_false]
    exact hnonneg _

/-- C29, at the sample venue with bid 3000 and ask 3050: the offset `-5` does not
match and counts as 0, and the offset `10%` puts a buy at 2700, below the bid. -/
theorem offset_never_crosses_market_witness :
    parseQuantity sampleRuntime "-5" = { value := 0, units := "" }
    ∧ offsetToAbsolutePrice sampleRuntime sampleCollaborators "BTCUSD" "buy" "10%" 0
        = (.ok 2700, 1)
    ∧ sampleRuntime.parseFloat "3000"
        - (if (parseQuantity sampleRuntime "10%").units = "%" then
            sampleRuntime.parseFloat "3000" * ((parseQuantity sampleRuntime "10%").value / 100)
          else (parseQuantity sampleRuntime "10%").value)
        ≤ sampleRuntime.parseFloat "3000" := by
  have h := offset_never_crosses_market sampleRuntime sampleCollaborators "BTCUSD" "10%"
    { bid := "3000", ask := "3050" } 0 1 decimalParseFloat_nonneg (by decide) rfl
  have h5 := offset_never_crosses_market sampleRuntime sampleCollaborators "BTCUSD" "-5"
    { bid := "3000", ask := "3050" } 0 1 decimalParseFloat_nonneg (by decide) rfl
  refine ⟨h5.2.2.1 _ rfl, ?_, ?_⟩
  · exact h.2.2.2.1.trans (by with_unfolding_all rfl)
  · exact h.2.2.2.2.2.1 (Or.inr (by decide!))

/-! ## Tasks without a registry entry -/

theorem isAlgoOrderCancelled_first (pre post : List AlgoOrder) (o : AlgoOrder) (x : String)
    (hpre : ∀ a ∈ pre, a.id ≠ x) (ho : o.id = x) :
    isAlgoOrderCancelled (pre ++ o :: post) x = o.cancelled := by
  unfold isAlgoOrderCancelled
  have hfind : (pre ++ o :: post).find? (fun item => item.id == x) = some o := by
    rw [List.find?_append]
    have hnone : pre.find? (fun item => item.id == x) = none := by
      rw [List.find?_eq_none]
      intro a ha
      simpa using hpre a ha
    rw [hnone]
    simp [ho]
  rw [hfind]

theorem passFrom_cancelled_never_polled {σ ρ α : Type} (minDelay : Int) (x : String)
    (items : List (BackgroundTask σ ρ α)) :
    ∀ (pos : Nat) (reg : List AlgoOrder) (w : Int) (i : Nat) (item : BackgroundTask σ ρ α),
      isAlgoOrderCancelled reg x = true →
      items[i]? = some item → item.task.id = x →
      (passFrom minDelay pos items reg w).log.countP
          (fun c => c.isBackgroundExecute && c.pos == pos + i) = 0 := by
  induction items with
  | nil => intro pos reg w i item _ hi; simp at hi
  | cons head rest ih =>
    intro pos reg w i item hcan
    cases i with
    | zero =>
      intro hi hid
      simp only [List.getElem?_cons_zero, Option.some.injEq] at hi
      subst hi
      have hc : isAlgoOrderCancelled reg head.task.id = true := hid ▸ hcan
      unfold passFrom
      rw [if_pos hc]
      split
      · simp [Call.isBackgroundExecute]
      · have hlt : ∀ c ∈ (passFrom minDelay (pos + 1) rest (endAlgoOrder reg head.task.id)
            w).log, pos < c.pos := fun c hc => passFrom_log_pos_ge minDelay rest _ _ _ c hc
        have h2 := countP_eq_zero_of_pos_lt _ Call.isBackgroundExecute pos hlt
        change List.countP _ (Call.onCancelled pos true :: _) = 0
        rw [List.countP_cons, Nat.add_zero, h2]
        simp [Call.isBackgroundExecute]
    | succ k =>
      intro hi hid
      simp only [List.getElem?_cons_succ] at hi
      have hpos : pos + (k + 1) = pos + 1 + k := by omega
      have hne : pos ≠ pos + 1 + k := by omega
      rw [hpos]
      unfold passFrom
      split
      · split
        · simp [Call.isBackgroundExecute]
        · have hrec := ih (pos + 1) _ w k item
            (isAlgoOrderCancelled_endAlgoOrder reg x head.task.id hcan) hi hid
          change List.countP _ (Call.onCancelled pos true :: _) = 0
          rw [List.countP_cons, hrec]
          simp [Call.pos, hne]
      · split
        · simp [Call.isBackgroundExecute, Call.pos, hne]
        · rename_i state s hbe
          have hreg : isAlgoOrderCancelled
              (if state = CommandState.finished then endAlgoOrder reg head.task.id else reg)
              x = true := by
            split
            · exact isAlgoOrderCancelled_endAlgoOrder reg x head.task.id hcan
            · exact hcan
          have hrec := ih (pos + 1) _ (if state = CommandState.keepGoing then minDelay else w)
            k item hreg hi hid
          change List.countP _ (Call.backgroundExecute pos (some state) :: _) = 0
          rw [List.countP_cons, hrec]
          simp [Call.pos, hne]

/-- C30: `isAlgoOrderCancelled(id)` returns the `cancelled` flag of the first
registry entry with that id and `true` when no entry has that id; so in the next
scheduler pass a background task whose id has no registry entry is never polled
with `backgroundExecute()`, and when the pass runs to its end it has been sent
`onCancelled()` exactly once and is recorded as finished. -/
theorem unregistered_task_is_cancelled {σ ρ α : Type} (reg : List AlgoOrder) (id : String) :
    (∀ (pre post : List AlgoOrder) (o : AlgoOrder), reg = pre ++ o :: post →
        (∀ a ∈ pre, a.id ≠ id) → o.id = id → isAlgoOrderCancelled reg id = o.cancelled)
    ∧ ((∀ a ∈ reg, a.id ≠ id) → isAlgoOrderCancelled reg id = true)
    ∧ (∀ (ex : Exchange σ ρ α) (w : Int) (i : Nat) (item : BackgroundTask σ ρ α),
        ex.algorithicOrders = reg → ex.backgroundTasks[i]? = some item → item.task.id = id →
        (∀ a ∈ reg, a.id ≠ id) →
        (backgroundTasksSinglePass ex w).log.countP
            (fun c => c.isBackgroundExecute && c.pos == i) = 0
        ∧ ((backgroundTasksSinglePass ex w).threw = none →
            (backgroundTasksSinglePass ex w).log.countP
                (fun c => c.isOnCancelled && c.pos == i) = 1
            ∧ ∃ b, (backgroundTasksSinglePass ex w).tasks[i]? = some b ∧ b.task.id = id
                ∧ b.state = CommandState.finished)) := by
  refine ⟨?_, isAlgoOrderCancelled_of_not_mem reg id, ?_⟩
  · intro pre post o hreg hpre ho
    rw [hreg]
    exact isAlgoOrderCancelled_first pre post o id hpre ho
  · intro ex w i item hregistry hitem hid hnone
    have hcan : isAlgoOrderCancelled ex.algorithicOrders id = true := by
      rw [hregistry]
      exact isAlgoOrderCancelled_of_not_mem reg id hnone
    constructor
    · have h := passFrom_cancelled_never_polled ex.minPollingDelay id ex.backgroundTasks 0
        ex.algorithicOrders w i item hcan hitem hid
      rw [Nat.zero_add] at h
      exact h
    · intro hthrew
      have h := passFrom_cancelled_at ex.minPollingDelay id ex.backgroundTasks 0
        ex.algorithicOrders w i item hcan hthrew hitem hid
      rw [Nat.zero_add] at h
      exact ⟨h.1, h.2.2⟩

/-- C30, at a sample exchange whose second task has no registry entry: the pass
polls the first task and sends the second `onCancelled()`. -/
theorem unregistered_task_is_cancelled_witness :
    isAlgoOrderCancelled orphanExchange.algorithicOrders "gone" = true
    ∧ isAlgoOrderCancelled orphanExchange.algorithicOrders "a" = false
    ∧ (backgroundTasksSinglePass orphanExchange 1).log
        = [Call.backgroundExecute 0 (some .keepGoing), Call.onCancelled 1 true]
    ∧ (backgroundTasksSinglePass orphanExchange 1).log.countP
        (fun c => c.isBackgroundExecute && c.pos == 1) = 0 :=
  have h := unregistered_task_is_cancelled (σ := Nat) (ρ := Nat) (α := String)
    orphanExchange.algorithicOrders "gone"
  ⟨h.2.1 (by decide),
   (unregistered_task_is_cancelled (σ := Nat) (ρ := Nat) (α := String)
      orphanExchange.algorithicOrders "a").1 [] []
      { id := "a", side := "buy", session := "session-1", tag := some "t1", cancelled := false }
      rfl (by simp) rfl,
   by decide,
   (h.2.2 orphanExchange 1 1 { task := keepGoingTask "gone", state := .keepGoing } rfl rfl rfl
      (by decide)).1⟩

/-! ## The ping-pong loop: `cleanOrderList` -/

theorem pairwise_orderedInsert {α : Type} (r : α → α → Prop) [DecidableRel r] (P : α → Prop)
    (htotal : ∀ a b, P a → P b → r a b ∨ r b a)
    (htrans : ∀ a b c, P a → P b → P c → r a b → r b c → r a c) (a : α) (ha : P a) :
    ∀ m : List α, (∀ x ∈ m, P x) → m.Pairwise r → (m.orderedInsert r a).Pairwise r := by
  intro m
  induction m with
  | nil => intro _ _; simp
  | cons b rest ih =>
    intro hm hsorted
    have hb : P b := hm b (List.mem_cons_self _ _)
    have hrest : ∀ x ∈ rest, P x := fun x hx => hm x (List.mem_cons_of_mem _ hx)
    rw [List.pairwise_cons] at hsorted
    unfold List.orderedInsert
    split
    · rename_i hab
      rw [List.pairwise_cons]
      refine ⟨?_, List.pairwise_cons.mpr hsorted⟩
      intro x hx
      rcases List.mem_cons.mp hx with hx | hx
      · rw [hx]; exact hab
      · exact htrans a b x ha hb (hrest x hx) hab (hsorted.1 x hx)
    · rename_i hab
      rw [List.pairwise_cons]
      refine ⟨?_, ih hrest hsorted.2⟩
      intro x hx
      rcases (List.mem_orderedInsert r).mp hx with hx | hx
      · rw [hx]
        rcases htotal a b ha hb with h | h
        · exact absurd h hab
        · exact h
      · exact hsorted.1 x hx

theorem pairwise_insertionSort {α : Type} (r : α → α → Prop) [DecidableRel r] (P : α → Prop)
    (htotal : ∀ a b, P a → P b → r a b ∨ r b a)
    (htrans : ∀ a b c, P a → P b → P c → r a b → r b c → r a c) :
    ∀ l : List α, (∀ x ∈ l, P x) → (l.insertionSort r).Pairwise r := by
  intro l
  induction l with
  | nil => intro _; simp
  | cons a rest ih =>
    intro hl
    have hrest : ∀ x ∈ rest, P x := fun x hx => hl x (List.mem_cons_of_mem _ hx)
    unfold List.insertionSort
    exact pairwise_orderedInsert r P htotal htrans a (hl a (List.mem_cons_self _ _)) _
      (fun x hx => hrest x ((List.mem_insertionSort r).mp hx)) (ih hrest)

theorem mayPrecede_comparePrices {ω : Type} (a b : PingPongEntry ω) (side : String) (x y : ℚ)
    (ha : a.side = some side) (hx : a.price = some x) (hy : b.price = some y) :
    mayPrecede comparePrices a b = true ↔ if side = "buy" then y ≤ x else x ≤ y := by
  unfold mayPrecede comparePrices
  rw [ha, hx, hy]
  by_cases hbuy : side = "buy"
  · subst hbuy
    simp [jsSub]
  · have hne : ¬ (some side = some "buy") := fun h => hbuy (Option.some.inj h)
    simp [jsSub, hbuy, hne]

/-- C23: for a list whose entries with an order are all on the side `side` and
carry a price, `cleanOrderList` returns a permutation of exactly the entries
whose order is not null, sorted by price descending for buys and ascending
otherwise, so that no kept entry is priced above the first element of a buy
list or below the first element of a sell list. -/
theorem cleanOrderList_sorted {ω : Type} (orders : List (PingPongEntry ω)) (side : String)
    (hside : ∀ e ∈ orders, e.order.isSome = true → e.side = some side)
    (hprice : ∀ e ∈ orders, e.order.isSome = true → e.price.isSome = true) :
    (cleanOrderList orders).Perm (orders.filter (fun e => e.order.isSome))
    ∧ (∀ e, e ∈ cleanOrderList orders ↔ e ∈ orders ∧ e.order ≠ none)
    ∧ (side = "buy" →
        (cleanOrderList orders).Pairwise (fun a b => jsLe b.price a.price = true))
    ∧ (side ≠ "buy" →
        (cleanOrderList orders).Pairwise (fun a b => jsLe a.price b.price = true))
    ∧ (∀ (first : PingPongEntry ω) (rest : List (PingPongEntry ω)),
        cleanOrderList orders = first :: rest →
        ∀ e ∈ orders, e.order ≠ none →
          if side = "buy" then jsLe e.price first.price = true
          else jsLe first.price e.price = true) := by
  have hperm : (cleanOrderList orders).Perm (orders.filter (fun e => e.order.isSome)) :=
    List.perm_insertionSort _ _
  have hmem : ∀ e, e ∈ cleanOrderList orders ↔ e ∈ orders ∧ e.order ≠ none := by
    intro e
    rw [hperm.mem_iff, List.mem_filter]
    simp [Option.isSome_iff_ne_none]
  have hP : ∀ e ∈ orders.filter (fun e => e.order.isSome),
      e.side = some side ∧ ∃ x, e.price = some x := by
    intro e he
    rw [List.mem_filter] at he
    exact ⟨hside e he.1 he.2, Option.isSome_iff_exists.mp (hprice e he.1 he.2)⟩
  have hsorted : (cleanOrderList orders).Pairwise
      (fun a b => mayPrecede comparePrices a b = true) := by
    apply pairwise_insertionSort (fun a b => mayPrecede comparePrices a b = true)
      (fun e : PingPongEntry ω => e.side = some side ∧ ∃ x, e.price = some x)
    · intro a b ⟨ha, x, hx⟩ ⟨hb, y, hy⟩
      rw [mayPrecede_comparePrices a b side x y ha hx hy,
        mayPrecede_comparePrices b a side y x hb hy hx]
      split
      · exact (le_total y x)
      · exact (le_total x y)
    · intro a b c ⟨ha, x, hx⟩ ⟨hb, y, hy⟩ ⟨_, z, hz⟩
      rw [mayPrecede_comparePrices a b side x y ha hx hy,
        mayPrecede_comparePrices b c side y z hb hy hz,
        mayPrecede_comparePrices a c side x z ha hx hz]
      split
      · intro h1 h2; exact le_trans h2 h1
      · intro h1 h2; exact le_trans h1 h2
    · exact hP
  have hPclean : ∀ e ∈ cleanOrderList orders, e.side = some side ∧ ∃ x, e.price = some x :=
    fun e he => hP e (hperm.mem_iff.mp he)
  have hbuy : side = "buy" →
      (cleanOrderList orders).Pairwise (fun a b => jsLe b.price a.price = true) := by
    intro hs
    refine hsorted.imp_of_mem ?_
    intro a b ha hb hab
    obtain ⟨hsa, x, hx⟩ := hPclean a ha
    obtain ⟨_, y, hy⟩ := hPclean b hb
    rw [mayPrecede_comparePrices a b side x y hsa hx hy, if_pos hs] at hab
    rw [hx, hy]
    simpa [jsLe] using hab
  have hsell : side ≠ "buy" →
      (cleanOrderList orders).Pairwise (fun a b => jsLe a.price b.price = true) := by
    intro hs
    refine hsorted.imp_of_mem ?_
    intro a b ha hb hab
    obtain ⟨hsa, x, hx⟩ := hPclean a ha
    obtain ⟨_, y, hy⟩ := hPclean b hb
    rw [mayPrecede_comparePrices a b side x y hsa hx hy, if_neg hs] at hab
    rw [hx, hy]
    simpa [jsLe] using hab
  refine ⟨hperm, hmem, hbuy, hsell, ?_⟩
  intro first rest hclean e he hkept
  have hin : e ∈ cleanOrderList orders := (hmem e).mpr ⟨he, hkept⟩
  obtain ⟨_, x, hx⟩ := hPclean first (by rw [hclean]; exact List.mem_cons_self _ _)
  rw [hclean] at hin
  rcases List.mem_cons.mp hin with heq | hrest
  · rw [heq, hx]
    split <;> simp [jsLe]
  · split
    · rename_i hs
      have := hbuy hs
      rw [hclean, List.pairwise_cons] at this
      exact this.1 e hrest
    · rename_i hs
      have := hsell hs
      rw [hclean, List.pairwise_cons] at this
      exact this.1 e hrest

/-- C23, at sample lists: three buys and a failed placement come back with the
highest price first; three sells with the lowest price first. -/
theorem cleanOrderList_sorted_witness :
    cleanOrderList sampleBuyEntries
        = [{ order := some 2, side := some "buy", price := some 2950, amount := some 1 },
           { order := some 1, side := some "buy", price := some 2900, amount := some 1 },
           { order := some 3, side := some "buy", price := some 2850, amount := some 1 }]
    ∧ cleanOrderList sampleSellEntries
        = [{ order := some 1, side := some "sell", price := some 3100, amount := some 1 },
           { order := some 2, side := some "sell", price := some 3110, amount := some 1 },
           { order := some 3, side := some "sell", price := some 3120, amount := some 1 }]
    ∧ (cleanOrderList sampleBuyEntries).Pairwise (fun a b => jsLe b.price a.price = true) := by
  refine ⟨by decide!, by decide!, ?_⟩
  exact (cleanOrderList_sorted sampleBuyEntries "buy" (by decide) (by decide)).2.2.1 rfl

/-! ## The ping-pong loop: the replacement of a filled order -/

theorem placeLimitOrder_placed {ν ω : Type} (co : PingPongVenue ν ω) (context : Context)
    (side : Option String) (price amount : Option ℚ) (tag : String) (d : Desk ν ω) :
    (placeLimitOrder co context side price amount tag d).2.placed
      = d.placed ++ [{ symbol := context.symbol, amount := amount, price := price,
                       side := side, postOnly := true, reduceOnly := false }] := by
  unfold placeLimitOrder
  simp only []
  split <;> rfl

theorem shuffleBook_placed {ν ω : Type} (rt : Runtime) (co : PingPongVenue ν ω)
    (context : Context) (p : PingPongParams) (orders : List (PingPongEntry ω)) (stepSize : ℚ)
    (d : Desk ν ω) :
    ∃ more : List PingPongCall,
      (shuffleBook rt co context p orders stepSize d).2.placed = d.placed ++ more := by
  unfold shuffleBook
  simp only []
  rcases co.ticker context.symbol d.venue with ⟨err | ticker, v1⟩
  · exact ⟨[], by simp⟩
  · cases orders with
    | nil => exact ⟨[], by simp⟩
    | cons first more =>
      simp only []
      split
      · exact ⟨[], by simp⟩
      · rcases co.cancelOrders
            [((first :: more).getLast (List.cons_ne_nil first more)).order] v1 with
          ⟨err | u, v2⟩
        · exact ⟨[], by simp⟩
        · simp only []
          split
          · exact ⟨[], by simp⟩
          · exact ⟨_, placeLimitOrder_placed _ _ _ _ _ _ _⟩

/-- C24 (the code evaluated): when the first ping is found filled, the
replacement is the next call of the driver, on the side and with the amount of
the last ping of the sorted list, at that ping's price minus `pingStep`,
whatever the side; and when under `endless` the first pong is found filled, the
replacement is at the last pong's price plus `pongStep`, whatever the side. -/
theorem replacement_price_ignores_side {ν ω : Type} (rt : Runtime) (co : PingPongVenue ν ω)
    (minPollingDelay : Int) (context : Context) (p : PingPongParams) (autoBalance : String)
    (s : PingPong ν ω) (first : PingPongEntry ω) (others : List (PingPongEntry ω))
    (orderInfo : Order) (v1 : ν)
    (hfilled : orderInfo.is_filled = true) :
    (jsSort comparePrices s.pings = first :: others →
      co.order first.order s.desk.venue = (.ok orderInfo, v1) →
      ∃ more : List PingPongCall,
        (checkPings rt co minPollingDelay context p autoBalance s).2.desk.placed
          = s.desk.placed ++
            { symbol := context.symbol,
              amount := ((first :: others).getLast (List.cons_ne_nil first others)).amount,
              price := jsSub ((first :: others).getLast (List.cons_ne_nil first others)).price
                (some p.pingStep),
              side := ((first :: others).getLast (List.cons_ne_nil first others)).side,
              postOnly := true, reduceOnly := false } :: more)
    ∧ (p.endless = true → jsSort comparePrices s.pongs = first :: others →
      co.order first.order s.desk.venue = (.ok orderInfo, v1) →
      ∃ more : List PingPongCall,
        (checkPongs rt co minPollingDelay context p autoBalance s).2.desk.placed
          = s.desk.placed ++
            { symbol := context.symbol,
              amount := ((first :: others).getLast (List.cons_ne_nil first others)).amount,
              price := jsAdd ((first :: others).getLast (List.cons_ne_nil first others)).price
                (some p.pongStep),
              side := ((first :: others).getLast (List.cons_ne_nil first others)).side,
              postOnly := true, reduceOnly := false } :: more) := by
  constructor
  · intro hsorted horder
    unfold checkPings
    rw [hsorted]
    simp only [horder, hfilled, if_true]
    split
    · obtain ⟨more, hmore⟩ := shuffleBook_placed rt co context p (cleanOrderList s.pongs)
        p.pongStep (placeLimitOrder co context
          ((first :: others).getLast (List.cons_ne_nil first others)).side
          (jsSub ((first :: others).getLast (List.cons_ne_nil first others)).price
            (some p.pingStep))
          ((first :: others).getLast (List.cons_ne_nil first others)).amount p.tag
          { s.desk with venue := v1 }).2
      rw [placeLimitOrder_placed] at hmore
      refine ⟨more, ?_⟩
      split <;> simp_all
    · exact ⟨[], by rw [placeLimitOrder_placed]⟩
  · intro hendless hsorted horder
    unfold checkPongs
    rw [if_pos hendless, hsorted]
    simp only [horder, hfilled, if_true]
    split
    · obtain ⟨more, hmore⟩ := shuffleBook_placed rt co context p (cleanOrderList s.pings)
        p.pingStep (placeLimitOrder co context
          ((first :: others).getLast (List.cons_ne_nil first others)).side
          (jsAdd ((first :: others).getLast (List.cons_ne_nil first others)).price
            (some p.pongStep))
          ((first :: others).getLast (List.cons_ne_nil first others)).amount p.tag
          { s.desk with venue := v1 }).2
      rw [placeLimitOrder_placed] at hmore
      refine ⟨more, ?_⟩
      split <;> simp_all
    · exact ⟨[], by rw [placeLimitOrder_placed]⟩

/-- C24, at three sell pings at 3100, 3110 and 3120 with a step of 10: the
nearest one, at 3100, is found filled, and the replacement is a sell at 3110,
between the remaining pings and not beyond the furthest at 3120. -/
theorem replacement_price_ignores_side_witness :
    jsSort comparePrices sellPingsState.pings
        = [{ order := some 1, side := some "sell", price := some 3100, amount := some 1 },
           { order := some 2, side := some "sell", price := some 3110, amount := some 1 },
           { order := some 3, side := some "sell", price := some 3120, amount := some 1 }]
    ∧ (checkPings sampleRuntime samplePingPongVenue 0 sampleContext sampleParams "none"
        sellPingsState).2.desk.placed
        = [{ symbol := "BTCUSD", amount := some 1, price := some 3110, side := some "sell",
             postOnly := true, reduceOnly := false }]
    ∧ (checkPings sampleRuntime samplePingPongVenue 0 sampleContext sampleParams "none"
        sellPingsState).2.pings.map (fun e => e.price)
        = [some 3110, some 3120, some 3110]
    ∧ ∃ more : List PingPongCall,
        (checkPings sampleRuntime samplePingPongVenue 0 sampleContext sampleParams "none"
          sellPingsState).2.desk.placed
          = sellPingsState.desk.placed ++
            { symbol := "BTCUSD", amount := some 1, price := jsSub (some 3120) (some 10),
              side := some "sell", postOnly := true, reduceOnly := false } :: more := by
  refine ⟨by decide!, by decide!, by decide!, ?_⟩
  exact (replacement_price_ignores_side sampleRuntime samplePingPongVenue 0 sampleContext
    sampleParams "none" sellPingsState
    { order := some 1, side := some "sell", price := some 3100, amount := some 1 }
    [{ order := some 2, side := some "sell", price := some 3110, amount := some 1 },
     { order := some 3, side := some "sell", price := some 3120, amount := some 1 }]
    { id := "", side := "", amount := 1, remaining := 0, executed := 0,
      is_filled := true, is_open := false } 1 rfl).1 (by decide!) (by with_unfolding_all rfl)

/-! ## The wait intervals stay between the polling delays -/

theorem schedulerIteration_delays {σ ρ α : Type} (ex : Exchange σ ρ α) (w : Int) :
    (schedulerIteration ex w).ex.minPollingDelay = ex.minPollingDelay
    ∧ (schedulerIteration ex w).ex.maxPollingDelay = ex.maxPollingDelay := by
  unfold schedulerIteration
  simp only []
  split <;> exact ⟨rfl, rfl⟩

theorem schedulerIteration_waitTime_within {σ ρ α : Type} (ex : Exchange σ ρ α) (w : Int)
    (hle : ex.minPollingDelay ≤ ex.maxPollingDelay)
    (hw : ex.minPollingDelay ≤ w ∧ w ≤ ex.maxPollingDelay) :
    ex.minPollingDelay ≤ (schedulerIteration ex w).waitTime
    ∧ (schedulerIteration ex w).waitTime ≤ ex.maxPollingDelay := by
  have harg : ex.minPollingDelay ≤ nextPassArgument ex.maxPollingDelay w
      ∧ nextPassArgument ex.maxPollingDelay w ≤ ex.maxPollingDelay := by
    unfold nextPassArgument
    split
    · exact ⟨hle, le_refl _⟩
    · constructor <;> omega
  have hpass := passFrom_updateWait ex.minPollingDelay ex.backgroundTasks 0 ex.algorithicOrders
    (nextPassArgument ex.maxPollingDelay w)
  unfold schedulerIteration backgroundTasksSinglePass
  simp only []
  split
  · exact hw
  · simp only []
    rw [hpass]
    split
    · exact ⟨le_refl _, hle⟩
    · exact harg

theorem backgroundTaskLoop_waits_within {σ ρ α : Type} (fuel : Nat) :
    ∀ (ex : Exchange σ ρ α) (w : Int),
      ex.minPollingDelay ≤ ex.maxPollingDelay →
      ex.minPollingDelay ≤ w ∧ w ≤ ex.maxPollingDelay →
      WaitsWithin ex.minPollingDelay ex.maxPollingDelay (backgroundTaskLoop fuel ex w).waits := by
  induction fuel with
  | zero =>
    intro ex w _ _ x hx
    simp [backgroundTaskLoop] at hx
  | succ k ih =>
    intro ex w hle hw
    unfold backgroundTaskLoop
    split
    · simp only []
      split
      · intro x hx
        simp only [List.mem_singleton] at hx
        rw [hx]
        exact hw
      · have hd := schedulerIteration_delays ex w
        have hnext := schedulerIteration_waitTime_within ex w hle hw
        have hrec := ih (schedulerIteration ex w).ex (schedulerIteration ex w).waitTime
          (by rw [hd.1, hd.2]; exact hle) (by rw [hd.1, hd.2]; exact hnext)
        rw [hd.1, hd.2] at hrec
        intro x hx
        simp only [List.mem_cons] at hx
        rcases hx with hx | hx
        · rw [hx]; exact hw
        · exact hrec x hx
    · intro x hx
      simp at hx

theorem waitForBackgroundTasks_waits_within {σ ρ α : Type} (fuel : Nat) (ex : Exchange σ ρ α)
    (hle : ex.minPollingDelay ≤ ex.maxPollingDelay) :
    WaitsWithin ex.minPollingDelay ex.maxPollingDelay (waitForBackgroundTasks fuel ex).waits := by
  unfold waitForBackgroundTasks
  split
  · intro x hx
    simp at hx
  · have h := backgroundTaskLoop_waits_within fuel
      { ex with isAlreadyWaiting := true, backgroundTasks := removeFinished ex.backgroundTasks }
      ex.minPollingDelay hle ⟨le_refl _, hle⟩
    simp only []
    split <;> exact h

theorem andThen_preserves {σ : Type} (Inv : σ → Prop) (first second : σ → Option JsError × σ)
    (hfirst : ∀ s, Inv s → Inv (first s).2) (hsecond : ∀ s, Inv s → Inv (second s).2) :
    ∀ s, Inv s → Inv (andThen first second s).2 := by
  intro s hs
  unfold andThen
  have h1 := hfirst s hs
  rcases hf : first s with ⟨err | e, s1⟩
  · rw [hf] at h1
    exact hsecond s1 h1
  · rw [hf] at h1
    exact h1

theorem observeCancellation_waits {ν ω : Type} (co : PingPongVenue ν ω) (minD : Int)
    (id : String) (s : PingPong ν ω) :
    ((observeCancellation co minD id s).2.waitTime = s.waitTime
        ∨ (observeCancellation co minD id s).2.waitTime = minD)
    ∧ (observeCancellation co minD id s).2.waits = s.waits := by
  unfold observeCancellation
  split
  · split
    · exact ⟨Or.inr rfl, rfl⟩
    · split
      · exact ⟨Or.inr rfl, rfl⟩
      · exact ⟨Or.inr rfl, rfl⟩
  · exact ⟨Or.inl rfl, rfl⟩

theorem checkPings_waits {ν ω : Type} (rt : Runtime) (co : PingPongVenue ν ω) (minD : Int)
    (context : Context) (p : PingPongParams) (autoBalance : String) (s : PingPong ν ω) :
    ((checkPings rt co minD context p autoBalance s).2.waitTime = s.waitTime
        ∨ (checkPings rt co minD context p autoBalance s).2.waitTime = minD)
    ∧ (checkPings rt co minD context p autoBalance s).2.waits = s.waits := by
  unfold checkPings
  split
  · exact ⟨Or.inl rfl, rfl⟩
  · simp only []
    split
    · exact ⟨Or.inl rfl, rfl⟩
    · split
      · split
        · split
          · exact ⟨Or.inl rfl, rfl⟩
          · exact ⟨Or.inr rfl, rfl⟩
        · exact ⟨Or.inr rfl, rfl⟩
      · split
        · exact ⟨Or.inr rfl, rfl⟩
        · exact ⟨Or.inl rfl, rfl⟩

theorem checkPongs_waits {ν ω : Type} (rt : Runtime) (co : PingPongVenue ν ω) (minD : Int)
    (context : Context) (p : PingPongParams) (autoBalance : String) (s : PingPong ν ω) :
    ((checkPongs rt co minD context p autoBalance s).2.waitTime = s.waitTime
        ∨ (checkPongs rt co minD context p autoBalance s).2.waitTime = minD)
    ∧ (checkPongs rt co minD context p autoBalance s).2.waits = s.waits := by
  unfold checkPongs
  split
  · split
    · exact ⟨Or.inl rfl, rfl⟩
    · simp only []
      split
      · exact ⟨Or.inl rfl, rfl⟩
      · split
        · split
          · split
            · exact ⟨Or.inl rfl, rfl⟩
            · exact ⟨Or.inr rfl, rfl⟩
          · exact ⟨Or.inr rfl, rfl⟩
        · split
          · exact ⟨Or.inr rfl, rfl⟩
          · exact ⟨Or.inl rfl, rfl⟩
  · exact ⟨Or.inl rfl, rfl⟩

theorem rebalance_waits {ν ω : Type} (rt : Runtime) (co : PingPongVenue ν ω) (minD : Int)
    (context : Context) (p : PingPongParams) (autoBalance : String) (s : PingPong ν ω) :
    (rebalance rt co minD context p autoBalance s).2.waitTime = s.waitTime
    ∧ (rebalance rt co minD context p autoBalance s).2.waits = s.waits := by
  unfold rebalance
  simp only []
  split
  · split
    · split <;> exact ⟨rfl, rfl⟩
    · split <;> exact ⟨rfl, rfl⟩
  · exact ⟨rfl, rfl⟩

theorem trackBooks_waits {ν ω : Type} (rt : Runtime) (co : PingPongVenue ν ω)
    (context : Context) (p : PingPongParams) (autoBalance : String) (s : PingPong ν ω) :
    (trackBooks rt co context p autoBalance s).2.waitTime = s.waitTime
    ∧ (trackBooks rt co context p autoBalance s).2.waits = s.waits := by
  unfold trackBooks
  split
  · split
    · exact ⟨rfl, rfl⟩
    · split <;> exact ⟨rfl, rfl⟩
  · exact ⟨rfl, rfl⟩

theorem pingPongTurn_waits_within {ν ω : Type} (rt : Runtime) (co : PingPongVenue ν ω)
    (minD maxD : Int) (id : String) (context : Context) (p : PingPongParams)
    (autoBalance : String) (hle : minD ≤ maxD) (s : PingPong ν ω)
    (hs : minD ≤ s.waitTime ∧ s.waitTime ≤ maxD ∧ WaitsWithin minD maxD s.waits) :
    minD ≤ (pingPongTurn rt co minD maxD id context p autoBalance s).2.waitTime
    ∧ (pingPongTurn rt co minD maxD id context p autoBalance s).2.waitTime ≤ maxD
    ∧ WaitsWithin minD maxD (pingPongTurn rt co minD maxD id context p autoBalance s).2.waits := by
  have hkeep : ∀ (f : PingPong ν ω → Option JsError × PingPong ν ω),
      (∀ s, ((f s).2.waitTime = s.waitTime ∨ (f s).2.waitTime = minD)
        ∧ (f s).2.waits = s.waits) →
      ∀ s : PingPong ν ω,
        (minD ≤ s.waitTime ∧ s.waitTime ≤ maxD ∧ WaitsWithin minD maxD s.waits) →
        (minD ≤ (f s).2.waitTime ∧ (f s).2.waitTime ≤ maxD
          ∧ WaitsWithin minD maxD (f s).2.waits) := by
    intro f hf s hs
    obtain ⟨hw, hwaits⟩ := hf s
    rw [hwaits]
    rcases hw with hw | hw
    · rw [hw]; exact hs
    · rw [hw]; exact ⟨le_refl _, hle, hs.2.2⟩
  unfold pingPongTurn
  refine andThen_preserves _ _ _ (hkeep _ (observeCancellation_waits co minD id)) ?_ s hs
  refine andThen_preserves _ _ _ (hkeep _ (checkPings_waits rt co minD context p autoBalance)) ?_
  refine andThen_preserves _ _ _ (hkeep _ (checkPongs_waits rt co minD context p autoBalance)) ?_
  refine andThen_preserves _ _ _
    (hkeep _ (fun s => ⟨Or.inl (rebalance_waits rt co minD context p autoBalance s).1,
      (rebalance_waits rt co minD context p autoBalance s).2⟩)) ?_
  refine andThen_preserves _ _ _
    (hkeep _ (fun s => ⟨Or.inl (trackBooks_waits rt co context p autoBalance s).1,
      (trackBooks_waits rt co context p autoBalance s).2⟩)) ?_
  intro s1 hs1
  unfold waitAndBackOff
  simp only []
  refine ⟨?_, ?_, ?_⟩
  · split <;> omega
  · split <;> omega
  · intro x hx
    rcases List.mem_append.mp hx with hx | hx
    · exact hs1.2.2 x hx
    · simp only [List.mem_singleton] at hx
      rw [hx]
      exact ⟨hs1.1, hs1.2.1⟩

theorem pingPongTurns_waits_within {ν ω : Type} (rt : Runtime) (co : PingPongVenue ν ω)
    (minD maxD : Int) (id : String) (context : Context) (p : PingPongParams)
    (autoBalance : String) (hle : minD ≤ maxD) (fuel : Nat) :
    ∀ s : PingPong ν ω,
      (minD ≤ s.waitTime ∧ s.waitTime ≤ maxD ∧ WaitsWithin minD maxD s.waits) →
      WaitsWithin minD maxD
        (pingPongTurns rt co minD maxD id context p autoBalance fuel s).2.waits := by
  induction fuel with
  | zero => intro s hs; exact hs.2.2
  | succ k ih =>
    intro s hs
    unfold pingPongTurns
    split
    · have hturn := pingPongTurn_waits_within rt co minD maxD id context p autoBalance hle s hs
      rcases hrun : pingPongTurn rt co minD maxD id context p autoBalance s with ⟨err | e, s1⟩
      · rw [hrun] at hturn
        exact ih s1 hturn
      · rw [hrun] at hturn
        exact hturn.2.2
    · exact hs.2.2

/-- C27: when `minPollingDelay <= maxPollingDelay`, both integers, every
interval `waitForBackgroundTasks` hands to `waitSeconds` lies between the two,
for every exchange, task list and number of turns, and so does every interval the
ping-pong loop hands to `waitSeconds`, for every venue, lists of pings and pongs,
parameters and balancing mode. -/
theorem wait_intervals_within_delays (minPollingDelay maxPollingDelay : Int)
    (hle : minPollingDelay ≤ maxPollingDelay) :
    (∀ {σ ρ α : Type} (fuel : Nat) (ex : Exchange σ ρ α),
        ex.minPollingDelay = minPollingDelay → ex.maxPollingDelay = maxPollingDelay →
        WaitsWithin minPollingDelay maxPollingDelay (waitForBackgroundTasks fuel ex).waits)
    ∧ (∀ {ν ω : Type} (fuel : Nat) (rt : Runtime) (co : PingPongVenue ν ω) (id : String)
        (context : Context) (startingPings startingPongs : List (PingPongEntry ω))
        (p : PingPongParams) (autoBalance : String) (registry : List AlgoOrder)
        (d : Desk ν ω),
        WaitsWithin minPollingDelay maxPollingDelay
          (pingPongLoop fuel rt co minPollingDelay maxPollingDelay id context startingPings
            startingPongs p autoBalance registry d).2.waits) := by
  constructor
  · intro σ ρ α fuel ex hmin hmax
    have h := waitForBackgroundTasks_waits_within fuel ex (by rw [hmin, hmax]; exact hle)
    rw [hmin, hmax] at h
    exact h
  · intro ν ω fuel rt co id context startingPings startingPongs p autoBalance registry d
    unfold pingPongLoop
    split
    · intro x hx
      simp at hx
    · simp only []
      have h : ∀ s : PingPong ν ω, s.waitTime = minPollingDelay → s.waits = [] →
          WaitsWithin minPollingDelay maxPollingDelay
            (pingPongTurns rt co minPollingDelay maxPollingDelay id context p autoBalance fuel
              s).2.waits := by
        intro s hw hwaits
        apply pingPongTurns_waits_within rt co minPollingDelay maxPollingDelay id context p
          autoBalance hle fuel s
        rw [hw, hwaits]
        exact ⟨le_refl _, hle, fun x hx => by simp at hx⟩
      generalize hrun : pingPongTurns rt co minPollingDelay maxPollingDelay id context p
        autoBalance fuel _ = run
      have hw : WaitsWithin minPollingDelay maxPollingDelay run.2.waits := by
        rw [← hrun]
        exact h _ rfl rfl
      rcases run with ⟨outcome, s⟩
      cases outcome <;> exact hw

/-- C27, at the polling delays 0 and 5: a task that keeps asking for polls is
polled at 0 every time, and a ping-pong loop whose single ping stays open waits
0, 1, 2, 3, 4, 5 and then 5 again. -/
theorem wait_intervals_within_delays_witness :
    (0 : Int) ≤ 5
    ∧ (waitForBackgroundTasks 4 steadyExchange).waits = [0, 0, 0, 0]
    ∧ WaitsWithin 0 5 (waitForBackgroundTasks 4 steadyExchange).waits
    ∧ (pingPongLoop 7 sampleRuntime samplePingPongVenue 0 5 "id-1" sampleContext [farBuyPing] []
        sampleParams "none" [] freshDesk).2.waits = [0, 1, 2, 3, 4, 5, 5]
    ∧ WaitsWithin 0 5
        (pingPongLoop 7 sampleRuntime samplePingPongVenue 0 5 "id-1" sampleContext [farBuyPing] []
          sampleParams "none" [] freshDesk).2.waits :=
  have h := wait_intervals_within_delays 0 5 (by decide)
  ⟨by decide, by decide, h.1 4 steadyExchange rfl rfl, by decide!,
   h.2 7 sampleRuntime samplePingPongVenue "id-1" sampleContext [farBuyPing] [] sampleParams
     "none" [] freshDesk⟩

/-! ## The ping-pong loop: the lists handed to `shuffleBook` and `trackPrice` -/

/-- C28 (the code evaluated): once the ticker has answered, `trackPrice` and
`shuffleBook` fail with a `TypeError` on an empty list; `shuffleBook` fails the
same way on a list of one entry that is further from the mid price than
`pongDistance`, after it has cancelled that entry; and under `track` the loop
hands `trackPrice` the pings without looking at their number, so a turn that
reaches the tracking with no pings ends in that error. -/
theorem balancing_helpers_read_missing_entry {ν ω : Type} (rt : Runtime)
    (co : PingPongVenue ν ω) (context : Context) (p : PingPongParams) (stepSize : ℚ)
    (d : Desk ν ω) (ticker : Ticker) (v1 : ν)
    (hticker : co.ticker context.symbol d.venue = (.ok ticker, v1)) :
    (trackPrice rt co context p [] stepSize d).1 = .error typeError
    ∧ (trackPrice rt co context p [] stepSize d).2.balancing
        = d.balancing ++ [{ helper := "trackPrice", orders := [] }]
    ∧ (shuffleBook rt co context p [] stepSize d).1 = .error typeError
    ∧ (∀ (entry : PingPongEntry ω) (v2 : ν),
        jsLe (jsAbs (jsSub entry.price (some (midPrice rt ticker)))) (some p.pongDistance)
          = false →
        co.cancelOrders [entry.order] v1 = (.ok (), v2) →
        (shuffleBook rt co context p [entry] stepSize d).1 = .error typeError)
    ∧ (∀ s : PingPong ν ω, s.desk = d → s.pings = [] →
        (trackBooks rt co context p "track" s).1 = some typeError) := by
  refine ⟨?_, ?_, ?_, ?_, ?_⟩
  · unfold trackPrice
    simp only [hticker]
  · unfold trackPrice
    simp only [hticker]
  · unfold shuffleBook
    simp only [hticker]
  · intro entry v2 hgap hcancel
    unfold shuffleBook
    simp only [hticker, hgap, List.getLast_singleton, hcancel]
    simp
  · intro s hdesk hpings
    unfold trackBooks trackPrice
    rw [if_pos rfl, hdesk, hpings]
    simp only [hticker]

/-- C28, at sample runs of the loop. Under `track` with one ping and no pong,
the first turn hands `trackPrice` the empty list of pongs and the loop ends in a
`TypeError`. Under `track` with a ping and a pong, the turn that observes the
cancellation empties both lists and then hands `trackPrice` the empty list.
Under `shuffle` with a single ping far from the market, `shuffleBook` is handed a
list that is empty once its last entry is popped. -/
theorem balancing_helpers_read_missing_entry_witness :
    (pingPongLoop 3 sampleRuntime samplePingPongVenue 0 3 "id-1" sampleContext [nearBuyPing] []
        sampleParams "track" [] freshDesk).1 = .threw typeError
    ∧ (pingPongLoop 3 sampleRuntime samplePingPongVenue 0 3 "id-1" sampleContext [nearBuyPing] []
        sampleParams "track" [] freshDesk).2.desk.balancing
      = [{ helper := "trackPrice", orders := [nearBuyPing] },
         { helper := "trackPrice", orders := [] }]
    ∧ (pingPongLoop 3 sampleRuntime cancellingPingPongVenue 0 3 "id-1" sampleContext
        [nearBuyPing] [nearSellPong] sampleParams "track" [] freshDesk).1 = .threw typeError
    ∧ (pingPongLoop 3 sampleRuntime cancellingPingPongVenue 0 3 "id-1" sampleContext
        [nearBuyPing] [nearSellPong] sampleParams "track" [] freshDesk).2.desk.balancing
      = [{ helper := "trackPrice", orders := [nearBuyPing] },
         { helper := "trackPrice", orders := [nearSellPong] },
         { helper := "trackPrice", orders := [] }]
    ∧ (pingPongLoop 3 sampleRuntime samplePingPongVenue 0 3 "id-1" sampleContext [farBuyPing] []
        sampleParams "shuffle" [] freshDesk).1 = .threw typeError
    ∧ (pingPongLoop 3 sampleRuntime samplePingPongVenue 0 3 "id-1" sampleContext [farBuyPing] []
        sampleParams "shuffle" [] freshDesk).2.desk.balancing
      = [{ helper := "shuffleBook", orders := [farBuyPing] }]
    ∧ (trackPrice sampleRuntime samplePingPongVenue sampleContext sampleParams [] 10
        freshDesk).1 = .error typeError := by
  refine ⟨by decide!, by decide!, by decide!, by decide!, by decide!, by decide!, ?_⟩
  exact (balancing_helpers_read_missing_entry sampleRuntime samplePingPongVenue sampleContext
    sampleParams 10 freshDesk { bid := "3000", ask := "3050" } 1 rfl).1

end DOAIB
